import Mathlib

/-!
# fix_t10pi: record transform pipeline

A shallow embedding of `main` of `src/fix_t10pi.c`.  The program reads records of
`SECTOR_SIZE_WITH_T10PI` bytes from `infile`, optionally writes the first
`SECTOR_SIZE_DATA_ONLY` bytes of each record to `outfile2`, overwrites the last 8 bytes of
the record with `0xff` and writes the record to `outfile`.

The operating system is an explicit environment (`Env`): the results of the three `open`
calls, the results of the successive `read` calls, and the return values of the successive
`write` calls on each destination.  The run is a pure function from the environment to a
final `State`, which carries the C variables of `main` together with ghost components:
the bytes transferred to each destination, the number of `write` calls issued on each, and
the trace of system calls and diagnostic lines.
-/

namespace FixT10pi

/-! ## Constants and data -/

/-- One byte of a stream or of `buf` (an unsigned 8-bit pattern). -/
abbrev Byte := Fin 256

/-- Line 63: `#define SECTOR_SIZE_DATA_ONLY 4096`. -/
def SECTOR_SIZE_DATA_ONLY : Nat := 4096

/-- Line 64: `#define SECTOR_SIZE_WITH_T10PI (SECTOR_SIZE_DATA_ONLY + 8)`. -/
def SECTOR_SIZE_WITH_T10PI : Nat := SECTOR_SIZE_DATA_ONLY + 8

/-- Modulus of `uint64_t` arithmetic (the three counters of line 69). -/
def U64 : Nat := 2 ^ 64

/-- The `errno` value of an interrupted system call (`EINTR`). -/
def EINTR : Nat := 4

/-- The three file descriptors of `main`. -/
inductive Stream
  | infile
  | outfile
  | outfile2
  deriving DecidableEq, Repr

/-- The outcome of one `read(infile, buf, SECTOR_SIZE_WITH_T10PI)` call.
`data bs` is a call that stored the bytes `bs` at the start of `buf` and returned
`bs.length` (so `data []` is end of stream, return value 0); `error errno` is a call
that returned `-1` with the given `errno`. -/
inductive ReadResult
  | data (bytes : List Byte)
  | error (errno : Nat)
  deriving DecidableEq, Repr

/-- The value `read` returns (`read_bytes`). -/
def ReadResult.ret : ReadResult → Int
  | .data bytes => (bytes.length : Int)
  | .error _ => -1

/-- The lines `main` prints on `stderr`, one constructor per `fprintf`, with the numeric
arguments of the format string. -/
inductive Msg
  /-- Line 73. -/
  | usage
  /-- Line 79: opening `argv[1]` for reading failed. -/
  | open_reading_failed
  /-- Lines 85 and 92: opening `argv[arg]` for writing failed. -/
  | open_writing_failed (arg : Nat)
  /-- Line 98. -/
  | banner
  /-- Line 101: `expected 4104 bytes but read got`. -/
  | short_read (got : Int)
  /-- Line 109: short write on the second destination. -/
  | short_write2 (got : Int)
  /-- Line 122: short write on the destination. -/
  | short_write (got : Int)
  /-- Line 132: sectors, data bytes, GB, data bytes + checksums. -/
  | progress (sectors data_bytes gb all_bytes : Nat)
  /-- Line 137: `read()` failed. -/
  | read_error
  /-- Line 140. -/
  | success
  /-- Line 145: sectors, data bytes, data bytes + checksums. -/
  | summary (sectors data_bytes all_bytes : Nat)
  /-- Line 152. -/
  | failed
  deriving DecidableEq, Repr

/-- Everything `main` does that is visible outside the process, in program order. -/
inductive Event
  /-- An `open` call on the path of the given stream, with its return value. -/
  | open (s : Stream) (ret : Int)
  /-- A `read` call on `infile`, with its return value. -/
  | read (ret : Int)
  /-- A `write` call: the stream, the bytes offered, the return value. -/
  | write (s : Stream) (offered : List Byte) (ret : Int)
  /-- A `close` call with the descriptor value passed. -/
  | close (s : Stream) (fd : Int)
  /-- A line on `stderr`. -/
  | msg (m : Msg)
  deriving DecidableEq, Repr

/-- The environment of one run. -/
structure Env where
  /-- Number of entries of `argv` (program name included). -/
  argc : Int
  /-- Return value of `open(argv[1], O_RDONLY | O_LARGEFILE)`. -/
  open_infile : Int
  /-- Return value of `open(argv[2], O_WRONLY | O_LARGEFILE | O_CREAT, 0600)`. -/
  open_outfile : Int
  /-- Return value of `open(argv[3], O_WRONLY | O_LARGEFILE | O_CREAT, 0600)`. -/
  open_outfile2 : Int
  /-- Results of the successive `read` calls; once they are used up the source is at end
  of stream and every further `read` returns 0. -/
  reads : List ReadResult
  /-- Return value of the `k`-th `write` call on `outfile` (counted from 0). -/
  write_outfile : Nat → Int
  /-- Return value of the `k`-th `write` call on `outfile2` (counted from 0). -/
  write_outfile2 : Nat → Int
  /-- The indeterminate initial contents of `char buf[SECTOR_SIZE_WITH_T10PI]`. -/
  buf0 : List Byte

/-- The variables of `main` (lines 67 to 70) and the ghost record of its effects. -/
structure State where
  infile : Int
  outfile : Int
  outfile2 : Int
  rc : Int
  outfile2_broken : Int
  sector_count : Nat
  bytes_count : Nat
  bytes_count_nopi : Nat
  buf : List Byte
  /-- Ghost: bytes transferred to `outfile` so far. -/
  out : List Byte
  /-- Ghost: bytes transferred to `outfile2` so far. -/
  out2 : List Byte
  /-- Ghost: number of `write` calls issued on `outfile`. -/
  writes : Nat
  /-- Ghost: number of `write` calls issued on `outfile2`. -/
  writes2 : Nat
  /-- Ghost: system calls and diagnostic lines so far. -/
  trace : List Event
  deriving DecidableEq, Repr

/-- Control flow out of the loop body: fall through to the next `read`, or `goto theend`. -/
inductive Flow
  | next (s : State)
  | theend (s : State)
  deriving DecidableEq, Repr

/-! ## The program -/

/-- Append one event to the trace. -/
def State.log (s : State) (ev : Event) : State :=
  { s with trace := s.trace ++ [ev] }

/-- Lines 67 to 70: the declarations of `main`. -/
def init (e : Env) : State :=
  { infile := -1, outfile := -1, outfile2 := -1, rc := 1, outfile2_broken := -1,
    sector_count := 0, bytes_count := 0, bytes_count_nopi := 0,
    buf := e.buf0, out := [], out2 := [], writes := 0, writes2 := 0, trace := [] }

/-- The bytes a `write` call that returned `ret` has transferred: the first `ret` bytes
offered (none when `ret` is negative). -/
def transferred (offered : List Byte) (ret : Int) : List Byte :=
  offered.take ret.toNat

/-- The effect of `read(infile, buf, SECTOR_SIZE_WITH_T10PI)` on the state: the bytes
delivered replace the start of `buf`. -/
def doRead (r : ReadResult) (s : State) : State :=
  match r with
  | .data bytes =>
    { s with buf := bytes ++ s.buf.drop bytes.length,
             trace := s.trace ++ [Event.read r.ret] }
  | .error _ => { s with trace := s.trace ++ [Event.read r.ret] }

/-- Lines 105 to 112: copy the data bytes to `outfile2` if it is in use. -/
def writeSecondary (e : Env) (s : State) : State :=
  if e.argc = 4 ∧ s.outfile2_broken = 0 then
    let offered := s.buf.take SECTOR_SIZE_DATA_ONLY
    let wrote_bytes2 := e.write_outfile2 s.writes2
    let s1 : State :=
      { s with out2 := s.out2 ++ transferred offered wrote_bytes2,
               writes2 := s.writes2 + 1,
               trace := s.trace ++ [Event.write Stream.outfile2 offered wrote_bytes2] }
    if wrote_bytes2 ≠ (SECTOR_SIZE_DATA_ONLY : Int) then
      { s1.log (Event.msg (Msg.short_write2 wrote_bytes2)) with outfile2_broken := 1 }
    else s1
  else s

/-- The indices the loop of line 115 visits: `i = SECTOR_SIZE_WITH_T10PI - 8`, while
`i < SECTOR_SIZE_WITH_T10PI`, `i++`. -/
def trailerIndices : List Nat :=
  List.range' (SECTOR_SIZE_WITH_T10PI - 8) 8

/-- Lines 114 to 117: `buf[i] = 0xff` for each index of the loop. -/
def overwriteTrailer (buf : List Byte) : List Byte :=
  trailerIndices.foldl (fun b i => b.set i 0xff) buf

/-- Lines 126 to 128: the three counters, in `uint64_t` arithmetic. -/
def bumpCounters (s : State) : State :=
  { s with sector_count := (s.sector_count + 1) % U64,
           bytes_count := (s.bytes_count + SECTOR_SIZE_WITH_T10PI) % U64,
           bytes_count_nopi := (s.bytes_count_nopi + SECTOR_SIZE_DATA_ONLY) % U64 }

/-- Lines 130 to 133: the periodic progress line. -/
def progress (s : State) : State :=
  if s.sector_count % 1953125 = 0 then
    s.log (Event.msg (Msg.progress s.sector_count s.bytes_count_nopi
      (s.bytes_count_nopi / 1000000000) s.bytes_count))
  else s

/-- Lines 114 to 117 on the state. -/
def overwrite (s : State) : State :=
  { s with buf := overwriteTrailer s.buf }

/-- Line 120: `write(outfile, buf, SECTOR_SIZE_WITH_T10PI)`. -/
def writePrimary (e : Env) (s : State) : State :=
  let offered := s.buf.take SECTOR_SIZE_WITH_T10PI
  let wrote_bytes := e.write_outfile s.writes
  { s with out := s.out ++ transferred offered wrote_bytes,
           writes := s.writes + 1,
           trace := s.trace ++ [Event.write Stream.outfile offered wrote_bytes] }

/-- Lines 100 to 133: the loop body, entered after a `read` that returned
`read_bytes > 0`. -/
def body (e : Env) (read_bytes : Int) (s : State) : Flow :=
  if read_bytes ≠ (SECTOR_SIZE_WITH_T10PI : Int) then
    Flow.theend (s.log (Event.msg (Msg.short_read read_bytes)))
  else
    let s1 := writeSecondary e s
    let s2 := overwrite s1
    let wrote_bytes := e.write_outfile s2.writes
    let s3 := writePrimary e s2
    if wrote_bytes ≠ (SECTOR_SIZE_WITH_T10PI : Int) then
      Flow.theend (s3.log (Event.msg (Msg.short_write wrote_bytes)))
    else
      Flow.next (progress (bumpCounters s3))

/-- Lines 136 to 142: after the loop condition failed with `read_bytes <= 0`. -/
def afterLoop (read_bytes : Int) (s : State) : State :=
  if read_bytes ≠ 0 then
    s.log (Event.msg Msg.read_error)
  else
    { s.log (Event.msg Msg.success) with rc := 0 }

/-- Lines 99 to 142: the `while` loop and the test that follows it, up to the label
`theend`.  The list holds the results of the `read` calls still to come; an empty list
is a source at end of stream, whose `read` returns 0. -/
def loop (e : Env) : List ReadResult → State → State
  | [], s => afterLoop 0 (doRead (ReadResult.data []) s)
  | r :: rest, s =>
    let s1 := doRead r s
    if r.ret > 0 then
      match body e r.ret s1 with
      | Flow.next s2 => loop e rest s2
      | Flow.theend s2 => s2
    else afterLoop r.ret s1

/-- Lines 144 to 154: the label `theend`. -/
def theend (s : State) : State :=
  let s1 := s.log (Event.msg (Msg.summary s.sector_count s.bytes_count_nopi s.bytes_count))
  let s2 := ((s1.log (Event.close Stream.infile s.infile)).log
    (Event.close Stream.outfile s.outfile)).log (Event.close Stream.outfile2 s.outfile2)
  if s2.rc ≠ 0 then s2.log (Event.msg Msg.failed) else s2

/-- Line 77: open the source. -/
def openInfile (e : Env) (s : State) : State :=
  { s.log (Event.open Stream.infile e.open_infile) with infile := e.open_infile }

/-- Line 83: open the destination. -/
def openOutfile (e : Env) (s : State) : State :=
  { s.log (Event.open Stream.outfile e.open_outfile) with outfile := e.open_outfile }

/-- Lines 89 to 96: open the second destination when there is a third argument. -/
def openSecondary (e : Env) (s : State) : State :=
  if e.argc = 4 then
    let s1 : State :=
      { s.log (Event.open Stream.outfile2 e.open_outfile2) with outfile2 := e.open_outfile2 }
    if s1.outfile2 < 0 then
      s1.log (Event.msg (Msg.open_writing_failed 3))
    else
      { s1 with outfile2_broken := 0 }
  else s

/-- Lines 66 to 154: `main`.  The exit code is the field `rc` of the result. -/
def main (e : Env) : State :=
  let s0 := init e
  if e.argc ≠ 3 ∧ e.argc ≠ 4 then
    s0.log (Event.msg Msg.usage)
  else
    let s1 := openInfile e s0
    if s1.infile < 0 then
      s1.log (Event.msg Msg.open_reading_failed)
    else
      let s2 := openOutfile e s1
      if s2.outfile < 0 then
        s2.log (Event.msg (Msg.open_writing_failed 2))
      else
        let s3 := openSecondary e s2
        let s4 := s3.log (Event.msg Msg.banner)
        theend (loop e e.reads s4)

/-! ## Derived notions used in the statements -/

/-- The state in which the loop is entered (line 99) when both mandatory opens succeeded. -/
def start (e : Env) : State :=
  (openSecondary e (openOutfile e (openInfile e (init e)))).log (Event.msg Msg.banner)

/-- The state after one complete pass through the loop body on the record `r`: the read,
the optional secondary write, the overwrite, the primary write, the counters and the
progress line. -/
def wholeRecord (e : Env) (s : State) (r : List Byte) : State :=
  progress (bumpCounters (writePrimary e (overwrite (writeSecondary e
    (doRead (ReadResult.data r) s)))))

/-- The state after complete passes on each record of `recs` in turn. -/
def runRecords (e : Env) (s : State) (recs : List (List Byte)) : State :=
  recs.foldl (wholeRecord e) s

/-- The run reaches the loop: the argument count is 3 or 4 and the two mandatory `open`
calls succeed. -/
def Env.Starts (e : Env) : Prop :=
  (e.argc = 3 ∨ e.argc = 4) ∧ 0 ≤ e.open_infile ∧ 0 ≤ e.open_outfile

/-- Every element of `recs` is a whole record of `SECTOR_SIZE_WITH_T10PI` bytes. -/
def WholeRecords (recs : List (List Byte)) : Prop :=
  ∀ r ∈ recs, r.length = SECTOR_SIZE_WITH_T10PI

/-! ## Concrete environments -/

/-- A whole record of zero bytes. -/
def zeroRecord : List Byte := List.replicate SECTOR_SIZE_WITH_T10PI 0

/-- An environment in which every `open` succeeds and every `write` transfers all the
bytes offered, with the given argument count and `read` results. -/
def goodEnv (argc : Int) (reads : List ReadResult) : Env :=
  { argc := argc, open_infile := 3, open_outfile := 4, open_outfile2 := 5, reads := reads,
    write_outfile := fun _ => 4104, write_outfile2 := fun _ => 4096, buf0 := [] }

/-- A source of `n` whole records of zero bytes, copied to both destinations without any
failure. -/
def longEnv (n : Nat) : Env :=
  goodEnv 4 (List.replicate n (ReadResult.data zeroRecord))

/-- A source of `n` whole records of zero bytes followed by a tail of one byte. -/
def tailEnv (n : Nat) : Env :=
  goodEnv 3 (List.replicate n (ReadResult.data zeroRecord) ++ [ReadResult.data [0]])

/-- A source of `n` whole records of zero bytes with a secondary destination that opens
and whose every `write` fails with `-1`. -/
def degradedEnv (n : Nat) : Env :=
  { longEnv n with write_outfile2 := fun _ => -1 }

/-- The source of one whole record in which the first `read` is interrupted: it returns
`-1` with `errno = EINTR`, and the record would be delivered by the next `read`. -/
def interruptedEnv : Env :=
  goodEnv 3 [ReadResult.error EINTR, ReadResult.data zeroRecord]

/-- A source of `k + 1` whole records of zero bytes, copied to both destinations, whose
primary `write` number `k` transfers nothing (it returns 0); every earlier one is
complete. -/
def failEnv (k : Nat) : Env :=
  { goodEnv 4 (List.replicate k (ReadResult.data zeroRecord) ++ [ReadResult.data zeroRecord])
      with write_outfile := fun i => if i = k then 0 else 4104 }

/-! ## Derived notions for the shape of a run and its trace -/

/-- The records a run processes completely when its next primary `write` is number `w`:
the longest run of leading `read` results that are whole records whose primary `write`
is complete. -/
def leadingRecords (e : Env) : Nat → List ReadResult → List (List Byte)
  | w, ReadResult.data b :: rest =>
    if b.length = SECTOR_SIZE_WITH_T10PI ∧ e.write_outfile w = (SECTOR_SIZE_WITH_T10PI : Int)
    then b :: leadingRecords e (w + 1) rest else []
  | _, _ => []

/-- The events lines 106 to 112 add in state `s` when the buffer holds the record `r`. -/
def secondaryEvents (e : Env) (s : State) (r : List Byte) : List Event :=
  if e.argc = 4 ∧ s.outfile2_broken = 0 then
    Event.write Stream.outfile2 (r.take SECTOR_SIZE_DATA_ONLY) (e.write_outfile2 s.writes2) ::
      (if e.write_outfile2 s.writes2 ≠ (SECTOR_SIZE_DATA_ONLY : Int) then
        [Event.msg (Msg.short_write2 (e.write_outfile2 s.writes2))] else [])
  else []

/-- The events lines 130 to 133 add in state `s` (the counters already updated). -/
def progressEvents (s : State) : List Event :=
  if s.sector_count % 1953125 = 0 then
    [Event.msg (Msg.progress s.sector_count s.bytes_count_nopi
      (s.bytes_count_nopi / 1000000000) s.bytes_count)]
  else []

/-- The events of one pass through the loop on the whole record `r`, up to and including
the primary `write`. -/
def recordEvents (e : Env) (s : State) (r : List Byte) : List Event :=
  Event.read (SECTOR_SIZE_WITH_T10PI : Int) :: (secondaryEvents e s r ++
    [Event.write Stream.outfile (overwriteTrailer r) (e.write_outfile s.writes)])

/-- The lines printed on `stderr`, in order. -/
def msgs (t : List Event) : List Msg :=
  t.filterMap (fun ev => match ev with
    | Event.msg m => some m
    | _ => none)

/-- The lines that report a fatal condition: bad usage, failure to open the source or the
primary destination, a short read, a short primary write, a failed read. -/
def Msg.isFatal : Msg → Bool
  | Msg.usage => true
  | Msg.open_reading_failed => true
  | Msg.open_writing_failed arg => arg == 2
  | Msg.short_read _ => true
  | Msg.short_write _ => true
  | Msg.read_error => true
  | _ => false

/-- The final counters summary of line 145. -/
def Msg.isSummary : Msg → Bool
  | Msg.summary _ _ _ => true
  | _ => false

/-- The lines of the end of a run: the success banner, the summary, the failure notice. -/
def Msg.isClosing : Msg → Bool
  | Msg.success => true
  | Msg.summary _ _ _ => true
  | Msg.failed => true
  | _ => false

/-- A system call on a stream: `open`, `read`, `write` or `close`. -/
def Event.isSyscall : Event → Bool
  | Event.msg _ => false
  | _ => true

/-- A `write` call on the secondary destination. -/
def Event.isWrite2 : Event → Bool
  | Event.write Stream.outfile2 _ _ => true
  | _ => false

/-- The events of the label `theend` (lines 144 to 154) for a run that ends in state `s`:
the summary, the three `close` calls, and the failure notice when the exit code is not
0. -/
def shutdownEvents (s : State) : List Event :=
  [Event.msg (Msg.summary s.sector_count s.bytes_count_nopi s.bytes_count),
    Event.close Stream.infile s.infile, Event.close Stream.outfile s.outfile,
    Event.close Stream.outfile2 s.outfile2] ++
  (if s.rc ≠ 0 then [Event.msg Msg.failed] else [])

/-- An environment whose source cannot be opened. -/
def noSourceEnv : Env :=
  { goodEnv 3 [ReadResult.data zeroRecord] with open_infile := -1 }

/-- Two states agree on what a run delivers: the exit code, the bytes transferred to each
destination, the three counters and the number of `write` calls on each destination. -/
def State.sameResult (s t : State) : Prop :=
  s.rc = t.rc ∧ s.out = t.out ∧ s.out2 = t.out2 ∧ s.sector_count = t.sector_count ∧
  s.bytes_count = t.bytes_count ∧ s.bytes_count_nopi = t.bytes_count_nopi ∧
  s.writes = t.writes ∧ s.writes2 = t.writes2

/-- A run with a third argument whose secondary destination cannot be opened, over a
source of one whole record. -/
def unopenedSecondaryEnv : Env :=
  { goodEnv 4 [ReadResult.data zeroRecord] with open_outfile2 := -1 }

/-- The return values of the `write` calls on the secondary destination, in order. -/
def write2Rets (t : List Event) : List Int :=
  t.filterMap (fun ev => match ev with
    | Event.write Stream.outfile2 _ ret => some ret
    | _ => none)

/-! ## The primary destination as a regular file -/

/-- The flags of an `open` call that decide what a regular file holds afterwards. -/
structure OpenFlags where
  creat : Bool
  trunc : Bool
  append : Bool
  deriving DecidableEq, Repr

/-- Line 83: `O_WRONLY | O_LARGEFILE | O_CREAT`.  `O_CREAT` is set; `O_TRUNC` and
`O_APPEND` are not. -/
def outfileFlags : OpenFlags :=
  { creat := true, trunc := false, append := false }

/-- POSIX `open` on a regular file: the contents right after a successful `open`, where
`old` is `none` for a file that did not exist and `some c` for a file that held `c`.  A
file that did not exist is created empty; an existing file keeps its contents unless
`O_TRUNC` is set. -/
def contentsAtOpen (flags : OpenFlags) (old : Option (List Byte)) : List Byte :=
  match old with
  | none => []
  | some c => if flags.trunc then [] else c

/-- POSIX sequential `write` on a freshly opened regular file: the contents after the
bytes `written` were transferred.  Without `O_APPEND` the file offset starts at 0, so the
bytes replace the start of the file and extend it when they are longer; whatever lay
beyond them stays. -/
def contentsAfter (flags : OpenFlags) (old : Option (List Byte)) (written : List Byte) :
    List Byte :=
  if flags.append then contentsAtOpen flags old ++ written
  else written ++ (contentsAtOpen flags old).drop written.length

/-- What the primary destination holds after the run, when it is a regular file that held
`old` before. -/
def outfileContents (e : Env) (old : Option (List Byte)) : List Byte :=
  contentsAfter outfileFlags old (main e).out

/-! ## Derived notions for the counters and the progress lines -/

/-- A complete `write` on the primary destination: it returned
`SECTOR_SIZE_WITH_T10PI`. -/
def Event.isCompletePrimary : Event → Bool
  | Event.write Stream.outfile _ ret => ret == (SECTOR_SIZE_WITH_T10PI : Int)
  | _ => false

/-- A complete `write` on the secondary destination: it returned
`SECTOR_SIZE_DATA_ONLY`. -/
def Event.isCompleteSecondary : Event → Bool
  | Event.write Stream.outfile2 _ ret => ret == (SECTOR_SIZE_DATA_ONLY : Int)
  | _ => false

/-- The progress line of line 132. -/
def Msg.isProgress : Msg → Bool
  | Msg.progress _ _ _ _ => true
  | _ => false

/-- The progress line line 132 prints after the `k`-th completely processed record, in
the `uint64_t` arithmetic of the counters. -/
def progressLine (k : Nat) : Msg :=
  Msg.progress (k % U64) ((k * SECTOR_SIZE_DATA_ONLY) % U64)
    (((k * SECTOR_SIZE_DATA_ONLY) % U64) / 1000000000) ((k * SECTOR_SIZE_WITH_T10PI) % U64)

/-- The number of records a run that reaches the loop processes completely: the leading
`read` results that are whole records whose primary `write` is complete. -/
def completed (e : Env) : Nat :=
  (leadingRecords e 0 e.reads).length

/-- The progress lines of a run that processes `n` records completely, in order: one
after each record whose updated `sector_count` (the record's number modulo `2^64`) passes
the test of line 131. -/
def progressLines (n : Nat) : List Msg :=
  ((List.range n).filter (fun k => ((k + 1) % U64) % 1953125 = 0)).map
    (fun k => progressLine (k + 1))

/-- A whole record with the data bytes of `zeroRecord` and a trailer of eight bytes 1. -/
def onesTrailerRecord : List Byte :=
  List.replicate SECTOR_SIZE_DATA_ONLY 0 ++ List.replicate 8 1

/-! ## The assignment `buf[i] = 0xff` and the bytes offered to the primary destination -/

/-- The value the `int` `v` has once converted to `char` (line 116): `v` modulo `2^8`,
taken in `0 .. 255` when `char` is unsigned and in `-128 .. 127` when it is signed. -/
def charOfInt (signed : Bool) (v : Int) : Int :=
  if signed then (v + 128) % 256 - 128 else v % 256

/-- The byte that holds the `char` value `c` in memory (two's complement). -/
def byteOfChar (c : Int) : Byte :=
  Fin.ofNat (c % 256).toNat

/-- Lines 114 to 117 with the conversion of line 116 spelled out, for a host whose `char`
is signed or unsigned. -/
def overwriteTrailerChar (signed : Bool) (buf : List Byte) : List Byte :=
  trailerIndices.foldl (fun b i => b.set i (byteOfChar (charOfInt signed 0xff))) buf

/-- The buffers offered to the `write` calls on the primary destination, in order. -/
def primaryOffers (t : List Event) : List (List Byte) :=
  t.filterMap (fun ev => match ev with
    | Event.write Stream.outfile offered _ => some offered
    | _ => none)

/-! ## Lists: overwriting a range, records laid end to end -/

theorem foldl_set_getElem? (v : Byte) (n : Nat) : ∀ (d : Nat) (b : List Byte) (j : Nat),
    ((List.range' d n).foldl (fun b i => b.set i v) b)[j]? =
      if d ≤ j ∧ j < d + n ∧ j < b.length then some v else b[j]? := by
  induction n with
  | zero =>
    intro d b j
    have h : ¬ (d ≤ j ∧ j < d + 0 ∧ j < b.length) := by omega
    simp only [List.range'_zero, List.foldl_nil, h, if_false]
  | succ n ih =>
    intro d b j
    simp only [List.range'_succ, List.foldl_cons]
    rw [ih, List.getElem?_set, List.length_set]
    by_cases h1 : d = j
    · subst h1
      by_cases h2 : d < b.length
      · simp [h2]
      · simp [h2]
        omega
    · by_cases h3 : d + 1 ≤ j ∧ j < d + 1 + n ∧ j < b.length
      · have : d ≤ j ∧ j < d + (n + 1) ∧ j < b.length := by omega
        simp [h3, this]
      · by_cases h4 : d ≤ j ∧ j < d + (n + 1) ∧ j < b.length
        · omega
        · simp [h3, h4, h1]

theorem foldl_set_length (v : Byte) (l : List Nat) : ∀ (b : List Byte),
    (l.foldl (fun b i => b.set i v) b).length = b.length := by
  induction l with
  | nil => intro b; rfl
  | cons a l ih => intro b; simp [ih]

theorem overwriteTrailer_length (b : List Byte) : (overwriteTrailer b).length = b.length :=
  foldl_set_length _ _ b

theorem overwriteTrailer_getElem? (b : List Byte) (j : Nat) :
    (overwriteTrailer b)[j]? =
      if 4096 ≤ j ∧ j < 4104 ∧ j < b.length then some 0xff else b[j]? := by
  unfold overwriteTrailer trailerIndices
  rw [foldl_set_getElem?]
  simp [SECTOR_SIZE_WITH_T10PI, SECTOR_SIZE_DATA_ONLY]

theorem take_overwriteTrailer_append (r x : List Byte) (h : r.length = 4104) :
    (overwriteTrailer (r ++ x)).take 4104 = overwriteTrailer r := by
  apply List.ext_getElem?
  intro j
  rw [List.getElem?_take, overwriteTrailer_getElem?, overwriteTrailer_getElem?]
  by_cases hj : j < 4104
  · have h1 : j < r.length := by omega
    have h2 : j < (r ++ x).length := by simp; omega
    simp only [hj, h1, h2, if_true, List.getElem?_append_left h1]
  · have h1 : ¬ j < r.length := by omega
    have h3 : r[j]? = none := by simp; omega
    simp [hj, h1, h3]

theorem overwriteTrailer_idem (b : List Byte) :
    overwriteTrailer (overwriteTrailer b) = overwriteTrailer b := by
  apply List.ext_getElem?
  intro j
  rw [overwriteTrailer_getElem?, overwriteTrailer_getElem?, overwriteTrailer_length]
  by_cases h : 4096 ≤ j ∧ j < 4104 ∧ j < b.length
  · simp only [h, and_self, if_true]
  · simp only [h, if_false]

theorem map_overwriteTrailer_idem (recs : List (List Byte)) :
    (recs.map overwriteTrailer).map overwriteTrailer = recs.map overwriteTrailer := by
  induction recs with
  | nil => rfl
  | cons r recs ih => rw [List.map_cons, List.map_cons, ih, overwriteTrailer_idem]

theorem getElem?_flatten_chunks {α : Type} (m : Nat) : ∀ (L : List (List α)),
    (∀ l ∈ L, l.length = m) → ∀ (k i : Nat), i < m →
    L.flatten[k * m + i]? = (L[k]?).bind (fun l => l[i]?) := by
  intro L
  induction L with
  | nil => intro _ k i _; simp
  | cons a L ih =>
    intro h k i hi
    have ha : a.length = m := h a (by simp)
    cases k with
    | zero =>
      simp only [List.flatten_cons, Nat.zero_mul, Nat.zero_add]
      rw [List.getElem?_append_left (by omega)]
      simp
    | succ k =>
      simp only [List.flatten_cons]
      rw [List.getElem?_append_right (by rw [ha, Nat.succ_mul]; omega)]
      have : (k + 1) * m + i - a.length = k * m + i := by rw [ha, Nat.succ_mul]; omega
      rw [this, ih (fun l hl => h l (by simp [hl])) k i hi]
      simp

theorem length_flatten_chunks {α : Type} (m : Nat) : ∀ (L : List (List α)),
    (∀ l ∈ L, l.length = m) → L.flatten.length = L.length * m := by
  intro L
  induction L with
  | nil => intro _; simp
  | cons a L ih =>
    intro h
    simp only [List.flatten_cons, List.length_append, List.length_cons]
    rw [ih (fun l hl => h l (by simp [hl])), h a (by simp), Nat.succ_mul]
    omega

theorem flatten_chunks_inj {α : Type} (m : Nat) (hm : 0 < m) : ∀ (L1 L2 : List (List α)),
    (∀ l ∈ L1, l.length = m) → (∀ l ∈ L2, l.length = m) →
    L1.flatten = L2.flatten → L1 = L2 := by
  intro L1
  induction L1 with
  | nil =>
    intro L2 _ h2 h
    cases L2 with
    | nil => rfl
    | cons a L2 =>
      exfalso
      have ha : a.length = m := h2 a (by simp)
      have : (a :: L2).flatten.length = 0 := by rw [← h]; rfl
      simp only [List.flatten_cons, List.length_append] at this
      omega
  | cons a L1 ih =>
    intro L2 h1 h2 h
    have ha : a.length = m := h1 a (by simp)
    cases L2 with
    | nil =>
      exfalso
      have : (a :: L1).flatten.length = 0 := by rw [h]; rfl
      simp only [List.flatten_cons, List.length_append] at this
      omega
    | cons b L2 =>
      have hb : b.length = m := h2 b (by simp)
      simp only [List.flatten_cons] at h
      obtain ⟨hab, hrest⟩ := List.append_inj h (by rw [ha, hb])
      rw [hab, ih L2 (fun l hl => h1 l (by simp [hl])) (fun l hl => h2 l (by simp [hl])) hrest]

theorem counters_below_wrap (n : Nat) (h : n * 4104 < 2 ^ 64) :
    n % U64 = n ∧ (n * SECTOR_SIZE_WITH_T10PI) % U64 = n * 4104 ∧
    (n * SECTOR_SIZE_DATA_ONLY) % U64 = n * 4096 := by
  have h1 : n < U64 := by show n < 2 ^ 64; omega
  have h2 : n * SECTOR_SIZE_WITH_T10PI < U64 := h
  have h3 : n * SECTOR_SIZE_DATA_ONLY < U64 := by
    show n * 4096 < 2 ^ 64
    omega
  exact ⟨Nat.mod_eq_of_lt h1, Nat.mod_eq_of_lt h2, Nat.mod_eq_of_lt h3⟩

/-! ## The loop body, one component at a time -/

theorem log_fields (s : State) (ev : Event) :
    (s.log ev).out = s.out ∧ (s.log ev).out2 = s.out2 ∧ (s.log ev).rc = s.rc ∧
    (s.log ev).sector_count = s.sector_count ∧ (s.log ev).bytes_count = s.bytes_count ∧
    (s.log ev).bytes_count_nopi = s.bytes_count_nopi ∧ (s.log ev).writes = s.writes ∧
    (s.log ev).writes2 = s.writes2 ∧ (s.log ev).outfile2_broken = s.outfile2_broken ∧
    (s.log ev).trace = s.trace ++ [ev] := by
  simp [State.log]

@[simp] theorem doRead_fields (r : ReadResult) (s : State) :
    (doRead r s).writes = s.writes ∧ (doRead r s).writes2 = s.writes2 ∧
    (doRead r s).out = s.out ∧ (doRead r s).out2 = s.out2 ∧ (doRead r s).rc = s.rc ∧
    (doRead r s).outfile2_broken = s.outfile2_broken ∧
    (doRead r s).sector_count = s.sector_count ∧ (doRead r s).bytes_count = s.bytes_count ∧
    (doRead r s).bytes_count_nopi = s.bytes_count_nopi ∧
    (doRead r s).infile = s.infile ∧ (doRead r s).outfile = s.outfile ∧
    (doRead r s).outfile2 = s.outfile2 := by
  cases r <;> simp [doRead]

theorem doRead_buf_data (bytes : List Byte) (s : State) :
    (doRead (ReadResult.data bytes) s).buf = bytes ++ s.buf.drop bytes.length := rfl

@[simp] theorem writeSecondary_fields (e : Env) (s : State) :
    (writeSecondary e s).writes = s.writes ∧ (writeSecondary e s).out = s.out ∧
    (writeSecondary e s).rc = s.rc ∧ (writeSecondary e s).buf = s.buf ∧
    (writeSecondary e s).sector_count = s.sector_count ∧
    (writeSecondary e s).bytes_count = s.bytes_count ∧
    (writeSecondary e s).bytes_count_nopi = s.bytes_count_nopi ∧
    (writeSecondary e s).infile = s.infile ∧ (writeSecondary e s).outfile = s.outfile ∧
    (writeSecondary e s).outfile2 = s.outfile2 := by
  unfold writeSecondary
  by_cases h1 : e.argc = 4 ∧ s.outfile2_broken = 0 <;>
    by_cases h2 : e.write_outfile2 s.writes2 = (SECTOR_SIZE_DATA_ONLY : Int) <;>
    simp [h1, h2, State.log]

theorem writeSecondary_off (e : Env) (s : State)
    (h : ¬ (e.argc = 4 ∧ s.outfile2_broken = 0)) : writeSecondary e s = s := by
  unfold writeSecondary
  rw [if_neg h]

theorem writeSecondary_ok (e : Env) (s : State)
    (h : e.argc = 4 ∧ s.outfile2_broken = 0)
    (hw : e.write_outfile2 s.writes2 = (SECTOR_SIZE_DATA_ONLY : Int)) :
    writeSecondary e s =
      { s with out2 := s.out2 ++ s.buf.take SECTOR_SIZE_DATA_ONLY,
               writes2 := s.writes2 + 1,
               trace := s.trace ++ [Event.write Stream.outfile2
                 (s.buf.take SECTOR_SIZE_DATA_ONLY) (SECTOR_SIZE_DATA_ONLY : Int)] } := by
  unfold writeSecondary
  rw [if_pos h]
  simp only [hw, ne_eq, not_true_eq_false, if_false, transferred, Int.toNat_ofNat,
    List.take_take, Nat.min_self]

theorem overwrite_fields (s : State) :
    (overwrite s).rc = s.rc ∧ (overwrite s).out = s.out ∧ (overwrite s).out2 = s.out2 ∧
    (overwrite s).sector_count = s.sector_count ∧
    (overwrite s).bytes_count = s.bytes_count ∧
    (overwrite s).bytes_count_nopi = s.bytes_count_nopi ∧
    (overwrite s).writes = s.writes ∧ (overwrite s).writes2 = s.writes2 ∧
    (overwrite s).outfile2_broken = s.outfile2_broken ∧ (overwrite s).trace = s.trace := by
  simp [overwrite]

theorem writePrimary_fields (e : Env) (s : State) :
    (writePrimary e s).rc = s.rc ∧ (writePrimary e s).out2 = s.out2 ∧
    (writePrimary e s).sector_count = s.sector_count ∧
    (writePrimary e s).bytes_count = s.bytes_count ∧
    (writePrimary e s).bytes_count_nopi = s.bytes_count_nopi ∧
    (writePrimary e s).writes = s.writes + 1 ∧ (writePrimary e s).writes2 = s.writes2 ∧
    (writePrimary e s).outfile2_broken = s.outfile2_broken ∧
    (writePrimary e s).trace = s.trace ++ [Event.write Stream.outfile
      (s.buf.take SECTOR_SIZE_WITH_T10PI) (e.write_outfile s.writes)] ∧
    (writePrimary e s).out = s.out ++
      transferred (s.buf.take SECTOR_SIZE_WITH_T10PI) (e.write_outfile s.writes) := by
  simp [writePrimary]

@[simp] theorem progress_fields (s : State) :
    (progress s).writes = s.writes ∧ (progress s).writes2 = s.writes2 ∧
    (progress s).out = s.out ∧ (progress s).out2 = s.out2 ∧ (progress s).rc = s.rc ∧
    (progress s).buf = s.buf ∧ (progress s).outfile2_broken = s.outfile2_broken ∧
    (progress s).sector_count = s.sector_count ∧ (progress s).bytes_count = s.bytes_count ∧
    (progress s).bytes_count_nopi = s.bytes_count_nopi ∧
    (progress s).infile = s.infile ∧ (progress s).outfile = s.outfile ∧
    (progress s).outfile2 = s.outfile2 := by
  unfold progress
  split_ifs <;> simp [State.log]

/-! ## One whole record -/

theorem wholeRecord_fields (e : Env) (s : State) (r : List Byte) :
    (wholeRecord e s r).writes = s.writes + 1 ∧ (wholeRecord e s r).rc = s.rc ∧
    (wholeRecord e s r).infile = s.infile ∧ (wholeRecord e s r).outfile = s.outfile ∧
    (wholeRecord e s r).outfile2 = s.outfile2 ∧
    (wholeRecord e s r).sector_count = (s.sector_count + 1) % U64 ∧
    (wholeRecord e s r).bytes_count = (s.bytes_count + SECTOR_SIZE_WITH_T10PI) % U64 ∧
    (wholeRecord e s r).bytes_count_nopi =
      (s.bytes_count_nopi + SECTOR_SIZE_DATA_ONLY) % U64 := by
  simp [wholeRecord, bumpCounters, writePrimary, overwrite]

theorem wholeRecord_out (e : Env) (s : State) (r : List Byte)
    (hr : r.length = SECTOR_SIZE_WITH_T10PI)
    (hw : e.write_outfile s.writes = (SECTOR_SIZE_WITH_T10PI : Int)) :
    (wholeRecord e s r).out = s.out ++ overwriteTrailer r := by
  have h4104 : SECTOR_SIZE_WITH_T10PI = 4104 := rfl
  have hlen : (overwriteTrailer r).length = SECTOR_SIZE_WITH_T10PI := by
    rw [overwriteTrailer_length, hr]
  simp only [wholeRecord, progress_fields, bumpCounters, writePrimary, overwrite,
    writeSecondary_fields, doRead_fields, doRead_buf_data, hw, transferred, Int.toNat_ofNat]
  rw [h4104, take_overwriteTrailer_append r _ (by rw [hr, h4104])]
  rw [List.take_of_length_le (by rw [hlen, h4104])]

theorem wholeRecord_secondary_off (e : Env) (s : State) (r : List Byte)
    (h : ¬ (e.argc = 4 ∧ s.outfile2_broken = 0)) :
    (wholeRecord e s r).out2 = s.out2 ∧ (wholeRecord e s r).writes2 = s.writes2 ∧
    (wholeRecord e s r).outfile2_broken = s.outfile2_broken := by
  have h' : ¬ (e.argc = 4 ∧ (doRead (ReadResult.data r) s).outfile2_broken = 0) := by
    simpa using h
  unfold wholeRecord
  rw [writeSecondary_off e _ h']
  simp [bumpCounters, writePrimary, overwrite]

theorem wholeRecord_secondary_ok (e : Env) (s : State) (r : List Byte)
    (hr : r.length = SECTOR_SIZE_WITH_T10PI)
    (hargc : e.argc = 4) (hb : s.outfile2_broken = 0)
    (hw : e.write_outfile2 s.writes2 = (SECTOR_SIZE_DATA_ONLY : Int)) :
    (wholeRecord e s r).out2 = s.out2 ++ r.take SECTOR_SIZE_DATA_ONLY ∧
    (wholeRecord e s r).writes2 = s.writes2 + 1 ∧
    (wholeRecord e s r).outfile2_broken = 0 := by
  have h' : e.argc = 4 ∧ (doRead (ReadResult.data r) s).outfile2_broken = 0 := by
    simpa using ⟨hargc, hb⟩
  have h4096 : SECTOR_SIZE_DATA_ONLY ≤ r.length := by
    rw [hr]; simp [SECTOR_SIZE_WITH_T10PI]
  unfold wholeRecord
  rw [writeSecondary_ok e _ h' (by simpa using hw)]
  simp [bumpCounters, writePrimary, overwrite, hb, doRead_buf_data,
    List.take_append_of_le_length h4096]

/-! ## A run of whole records -/

theorem runRecords_nil (e : Env) (s : State) : runRecords e s [] = s := rfl

theorem runRecords_cons (e : Env) (s : State) (r : List Byte) (recs : List (List Byte)) :
    runRecords e s (r :: recs) = runRecords e (wholeRecord e s r) recs := rfl

theorem runRecords_fields (e : Env) (recs : List (List Byte)) : ∀ (s : State),
    (runRecords e s recs).writes = s.writes + recs.length ∧
    (runRecords e s recs).rc = s.rc ∧
    (runRecords e s recs).infile = s.infile ∧ (runRecords e s recs).outfile = s.outfile ∧
    (runRecords e s recs).outfile2 = s.outfile2 := by
  induction recs with
  | nil => intro s; simp [runRecords_nil]
  | cons r recs ih =>
    intro s
    obtain ⟨h1, h2, h3, h4, h5⟩ := ih (wholeRecord e s r)
    obtain ⟨g1, g2, g3, g4, g5, -⟩ := wholeRecord_fields e s r
    rw [runRecords_cons, h1, h2, h3, h4, h5, g1, g2, g3, g4, g5]
    simp only [List.length_cons, and_true]
    omega

theorem runRecords_counters (e : Env) (recs : List (List Byte)) : ∀ (s : State),
    s.sector_count < U64 → s.bytes_count < U64 → s.bytes_count_nopi < U64 →
    (runRecords e s recs).sector_count = (s.sector_count + recs.length) % U64 ∧
    (runRecords e s recs).bytes_count =
      (s.bytes_count + recs.length * SECTOR_SIZE_WITH_T10PI) % U64 ∧
    (runRecords e s recs).bytes_count_nopi =
      (s.bytes_count_nopi + recs.length * SECTOR_SIZE_DATA_ONLY) % U64 := by
  induction recs with
  | nil =>
    intro s h1 h2 h3
    simp [runRecords_nil, Nat.mod_eq_of_lt h1, Nat.mod_eq_of_lt h2, Nat.mod_eq_of_lt h3]
  | cons r recs ih =>
    intro s _ _ _
    obtain ⟨-, -, -, -, -, g1, g2, g3⟩ := wholeRecord_fields e s r
    have hpos : 0 < U64 := by simp [U64]
    obtain ⟨h1, h2, h3⟩ := ih (wholeRecord e s r) (by rw [g1]; exact Nat.mod_lt _ hpos)
      (by rw [g2]; exact Nat.mod_lt _ hpos) (by rw [g3]; exact Nat.mod_lt _ hpos)
    rw [runRecords_cons, h1, h2, h3, g1, g2, g3]
    simp only [List.length_cons, Nat.succ_mul, Nat.mod_add_mod]
    refine ⟨?_, ?_, ?_⟩ <;> congr 1 <;> omega

theorem runRecords_out (e : Env) (recs : List (List Byte)) :
    ∀ (s : State), WholeRecords recs →
    (∀ i, i < recs.length → e.write_outfile (s.writes + i) = (SECTOR_SIZE_WITH_T10PI : Int)) →
    (runRecords e s recs).out = s.out ++ (recs.map overwriteTrailer).flatten := by
  induction recs with
  | nil => intro s _ _; simp [runRecords_nil]
  | cons r recs ih =>
    intro s hrecs hw
    have hr : r.length = SECTOR_SIZE_WITH_T10PI := hrecs r (by simp)
    have hw0 : e.write_outfile s.writes = (SECTOR_SIZE_WITH_T10PI : Int) := by
      simpa using hw 0 (by simp)
    rw [runRecords_cons, ih, wholeRecord_out e s r hr hw0]
    · simp
    · intro r' hr'; exact hrecs r' (by simp [hr'])
    · intro i hi
      rw [(wholeRecord_fields e s r).1, Nat.add_assoc, Nat.add_comm 1 i]
      exact hw (i + 1) (by simp; omega)

theorem runRecords_secondary_ok (e : Env) (recs : List (List Byte)) :
    ∀ (s : State), WholeRecords recs → e.argc = 4 → s.outfile2_broken = 0 →
    (∀ i, i < recs.length → e.write_outfile2 (s.writes2 + i) = (SECTOR_SIZE_DATA_ONLY : Int)) →
    (runRecords e s recs).out2 =
      s.out2 ++ (recs.map (fun r => r.take SECTOR_SIZE_DATA_ONLY)).flatten ∧
    (runRecords e s recs).writes2 = s.writes2 + recs.length ∧
    (runRecords e s recs).outfile2_broken = 0 := by
  induction recs with
  | nil => intro s _ _ hb _; simp [runRecords_nil, hb]
  | cons r recs ih =>
    intro s hrecs hargc hb hw
    have hr : r.length = SECTOR_SIZE_WITH_T10PI := hrecs r (by simp)
    have hw0 : e.write_outfile2 s.writes2 = (SECTOR_SIZE_DATA_ONLY : Int) := by
      simpa using hw 0 (by simp)
    obtain ⟨g1, g2, g3⟩ := wholeRecord_secondary_ok e s r hr hargc hb hw0
    obtain ⟨h1, h2, h3⟩ := ih (wholeRecord e s r)
      (fun r' hr' => hrecs r' (by simp [hr'])) hargc g3
      (by
        intro i hi
        rw [g2, Nat.add_assoc, Nat.add_comm 1 i]
        exact hw (i + 1) (by simp; omega))
    rw [runRecords_cons, h1, h2, h3, g1, g2]
    simp only [List.map_cons, List.flatten_cons, List.append_assoc, List.length_cons, and_true,
      true_and]
    omega

theorem runRecords_secondary_off (e : Env) (recs : List (List Byte)) :
    ∀ (s : State), ¬ (e.argc = 4 ∧ s.outfile2_broken = 0) →
    (runRecords e s recs).out2 = s.out2 ∧ (runRecords e s recs).writes2 = s.writes2 ∧
    (runRecords e s recs).outfile2_broken = s.outfile2_broken := by
  induction recs with
  | nil => intro s _; simp [runRecords_nil]
  | cons r recs ih =>
    intro s h
    obtain ⟨g1, g2, g3⟩ := wholeRecord_secondary_off e s r h
    obtain ⟨h1, h2, h3⟩ := ih (wholeRecord e s r) (by rw [g3]; exact h)
    rw [runRecords_cons, h1, h2, h3, g1, g2, g3]
    simp

theorem reads_irrelevant (e : Env) (rs : List ReadResult) (recs : List (List Byte)) :
    runRecords { e with reads := rs } (start { e with reads := rs }) recs =
      runRecords e (start e) recs := rfl

/-! ## The ways through and out of the loop -/

theorem loop_nil_fields (e : Env) (s : State) :
    (loop e [] s).rc = 0 ∧ (loop e [] s).out = s.out ∧ (loop e [] s).out2 = s.out2 ∧
    (loop e [] s).sector_count = s.sector_count ∧ (loop e [] s).bytes_count = s.bytes_count ∧
    (loop e [] s).bytes_count_nopi = s.bytes_count_nopi ∧ (loop e [] s).writes = s.writes ∧
    (loop e [] s).writes2 = s.writes2 ∧
    (loop e [] s).outfile2_broken = s.outfile2_broken := by
  simp [loop, afterLoop, State.log]

theorem loop_cons_whole (e : Env) (s : State) (r : List Byte) (rest : List ReadResult)
    (hr : r.length = SECTOR_SIZE_WITH_T10PI)
    (hw : e.write_outfile s.writes = (SECTOR_SIZE_WITH_T10PI : Int)) :
    loop e (ReadResult.data r :: rest) s = loop e rest (wholeRecord e s r) := by
  have hpos : (0 : Int) < (SECTOR_SIZE_WITH_T10PI : Int) := by
    simp [SECTOR_SIZE_WITH_T10PI, SECTOR_SIZE_DATA_ONLY]
  simp [loop, ReadResult.ret, body, hr, hpos, overwrite, hw, wholeRecord]

theorem loop_records (e : Env) (tl : List ReadResult) (recs : List (List Byte)) :
    ∀ (s : State), WholeRecords recs →
    (∀ i, i < recs.length → e.write_outfile (s.writes + i) = (SECTOR_SIZE_WITH_T10PI : Int)) →
    loop e (recs.map ReadResult.data ++ tl) s = loop e tl (runRecords e s recs) := by
  induction recs with
  | nil => intro s _ _; rfl
  | cons r recs ih =>
    intro s hrecs hw
    have hr : r.length = SECTOR_SIZE_WITH_T10PI := hrecs r (by simp)
    have hw0 : e.write_outfile s.writes = (SECTOR_SIZE_WITH_T10PI : Int) := by
      simpa using hw 0 (by simp)
    rw [List.map_cons, List.cons_append, loop_cons_whole e s r _ hr hw0, runRecords_cons]
    apply ih
    · intro r' hr'; exact hrecs r' (by simp [hr'])
    · intro i hi
      rw [(wholeRecord_fields e s r).1, Nat.add_assoc, Nat.add_comm 1 i]
      exact hw (i + 1) (by simp; omega)

theorem loop_eof (e : Env) (s : State) (rest : List ReadResult) :
    loop e (ReadResult.data [] :: rest) s = loop e [] s := by
  simp [loop, ReadResult.ret]

theorem loop_short_read (e : Env) (s : State) (tl : List Byte) (rest : List ReadResult)
    (h0 : 0 < tl.length) (h1 : tl.length ≠ SECTOR_SIZE_WITH_T10PI) :
    loop e (ReadResult.data tl :: rest) s =
      (doRead (ReadResult.data tl) s).log (Event.msg (Msg.short_read tl.length)) := by
  have hpos : (0 : Int) < (tl.length : Int) := by omega
  have hne : ¬ ((tl.length : Int) = (SECTOR_SIZE_WITH_T10PI : Int)) := by omega
  simp [loop, ReadResult.ret, body, hpos, hne]

theorem loop_read_error (e : Env) (s : State) (errno : Nat) (rest : List ReadResult) :
    loop e (ReadResult.error errno :: rest) s =
      (doRead (ReadResult.error errno) s).log (Event.msg Msg.read_error) := by
  simp [loop, ReadResult.ret, afterLoop]

theorem loop_write_fail (e : Env) (s : State) (r : List Byte) (rest : List ReadResult)
    (hr : r.length = SECTOR_SIZE_WITH_T10PI)
    (hw : e.write_outfile s.writes ≠ (SECTOR_SIZE_WITH_T10PI : Int)) :
    loop e (ReadResult.data r :: rest) s =
      (writePrimary e (overwrite (writeSecondary e (doRead (ReadResult.data r) s)))).log
        (Event.msg (Msg.short_write (e.write_outfile s.writes))) := by
  have hpos : (0 : Int) < (SECTOR_SIZE_WITH_T10PI : Int) := by
    simp [SECTOR_SIZE_WITH_T10PI, SECTOR_SIZE_DATA_ONLY]
  simp [loop, ReadResult.ret, body, hr, hpos, overwrite, hw]

/-- The exit code leaves the loop either as 0 or as it entered. -/
theorem loop_rc (e : Env) (rs : List ReadResult) :
    ∀ (s : State), (loop e rs s).rc = 0 ∨ (loop e rs s).rc = s.rc := by
  induction rs with
  | nil => intro s; exact Or.inl (loop_nil_fields e s).1
  | cons r rest ih =>
    intro s
    cases r with
    | error errno =>
      right
      rw [loop_read_error, (log_fields _ _).2.2.1]
      simp
    | data b =>
      by_cases h0 : b.length = 0
      · have hb : b = [] := List.length_eq_zero.mp h0
        subst hb
        rw [loop_eof]
        exact Or.inl (loop_nil_fields e s).1
      · by_cases h1 : b.length = SECTOR_SIZE_WITH_T10PI
        · by_cases h2 : e.write_outfile s.writes = (SECTOR_SIZE_WITH_T10PI : Int)
          · rw [loop_cons_whole e s b rest h1 h2]
            rcases ih (wholeRecord e s b) with h | h
            · exact Or.inl h
            · right
              rw [h, (wholeRecord_fields e s b).2.1]
          · right
            rw [loop_write_fail e s b rest h1 h2, (log_fields _ _).2.2.1,
              (writePrimary_fields _ _).1, (overwrite_fields _).1]
            simp
        · right
          rw [loop_short_read e s b rest (by omega) h1, (log_fields _ _).2.2.1]
          simp

/-- The loop ends with exit code 0 exactly when some number `n` of whole records, each
written in full, is followed by a `read` that returns 0. -/
theorem loop_rc_iff (e : Env) (rs : List ReadResult) :
    ∀ (s : State), s.rc ≠ 0 →
    ((loop e rs s).rc = 0 ↔
      ∃ n, (∀ i, i < n → ∃ b, rs[i]? = some (ReadResult.data b) ∧ b.length = 4104 ∧
              e.write_outfile (s.writes + i) = 4104) ∧
        (rs[n]? = none ∨ rs[n]? = some (ReadResult.data []))) := by
  induction rs with
  | nil =>
    intro s _
    constructor
    · intro _
      exact ⟨0, by intro i hi; omega, Or.inl rfl⟩
    · intro _
      exact (loop_nil_fields e s).1
  | cons r rest ih =>
    intro s hs
    cases r with
    | error errno =>
      constructor
      · intro h
        rw [loop_read_error, (log_fields _ _).2.2.1] at h
        simp at h
        exact absurd h hs
      · rintro ⟨n, hn, hlast⟩
        cases n with
        | zero => simp at hlast
        | succ n =>
          obtain ⟨b, hb, -⟩ := hn 0 (by omega)
          simp at hb
    | data b =>
      by_cases h0 : b.length = 0
      · have hb : b = [] := List.length_eq_zero.mp h0
        subst hb
        rw [loop_eof]
        constructor
        · intro _
          exact ⟨0, by intro i hi; omega, Or.inr (by simp)⟩
        · intro _
          exact (loop_nil_fields e s).1
      · by_cases h1 : b.length = SECTOR_SIZE_WITH_T10PI
        · by_cases h2 : e.write_outfile s.writes = (SECTOR_SIZE_WITH_T10PI : Int)
          · rw [loop_cons_whole e s b rest h1 h2,
              ih (wholeRecord e s b) (by rw [(wholeRecord_fields e s b).2.1]; exact hs),
              (wholeRecord_fields e s b).1]
            constructor
            · rintro ⟨n, hn, hlast⟩
              refine ⟨n + 1, ?_, ?_⟩
              · intro i hi
                cases i with
                | zero => exact ⟨b, by simp, h1, by simpa using h2⟩
                | succ i =>
                  obtain ⟨b', hb1, hb2, hb3⟩ := hn i (by omega)
                  refine ⟨b', by simpa using hb1, hb2, ?_⟩
                  rw [← hb3]
                  congr 1
                  omega
              · simpa using hlast
            · rintro ⟨n, hn, hlast⟩
              cases n with
              | zero =>
                exfalso
                rcases hlast with h | h
                · simp at h
                · simp at h
                  exact h0 (by rw [h]; rfl)
              | succ n =>
                refine ⟨n, ?_, by simpa using hlast⟩
                intro i hi
                obtain ⟨b', hb1, hb2, hb3⟩ := hn (i + 1) (by omega)
                refine ⟨b', by simpa using hb1, hb2, ?_⟩
                rw [← hb3]
                congr 1
                omega
          · constructor
            · intro h
              rw [loop_write_fail e s b rest h1 h2, (log_fields _ _).2.2.1,
                (writePrimary_fields _ _).1, (overwrite_fields _).1] at h
              simp at h
              exact absurd h hs
            · rintro ⟨n, hn, hlast⟩
              exfalso
              cases n with
              | zero =>
                rcases hlast with h | h
                · simp at h
                · simp at h
                  exact h0 (by rw [h]; rfl)
              | succ n =>
                obtain ⟨b', -, -, hb3⟩ := hn 0 (by omega)
                exact h2 (by simpa using hb3)
        · constructor
          · intro h
            rw [loop_short_read e s b rest (by omega) h1, (log_fields _ _).2.2.1] at h
            simp at h
            exact absurd h hs
          · rintro ⟨n, hn, hlast⟩
            exfalso
            cases n with
            | zero =>
              rcases hlast with h | h
              · simp at h
              · simp at h
                exact h0 (by rw [h]; rfl)
            | succ n =>
              obtain ⟨b', hb1, hb2, -⟩ := hn 0 (by omega)
              simp at hb1
              subst hb1
              exact h1 hb2

/-! ## Start-up and shutdown -/

theorem main_eq_of_starts (e : Env) (h : e.Starts) :
    main e = theend (loop e e.reads (start e)) := by
  obtain ⟨hargc, hin, hout⟩ := h
  have h1 : ¬ (e.argc ≠ 3 ∧ e.argc ≠ 4) := by
    rcases hargc with h | h <;> simp [h]
  have h2 : ¬ (openInfile e (init e)).infile < 0 := by
    simp [openInfile, State.log, hin]
  have h3 : ¬ (openOutfile e (openInfile e (init e))).outfile < 0 := by
    simp [openOutfile, State.log, hout]
  simp only [main, h1, h2, h3, if_false, start]

theorem start_fields (e : Env) :
    (start e).writes = 0 ∧ (start e).writes2 = 0 ∧ (start e).out = [] ∧
    (start e).out2 = [] ∧ (start e).rc = 1 ∧ (start e).sector_count = 0 ∧
    (start e).bytes_count = 0 ∧ (start e).bytes_count_nopi = 0 ∧
    (start e).infile = e.open_infile ∧ (start e).outfile = e.open_outfile := by
  unfold start openSecondary
  by_cases h1 : e.argc = 4 <;> by_cases h2 : e.open_outfile2 < 0 <;>
    simp [h1, h2, openOutfile, openInfile, init, State.log]

theorem start_broken (e : Env) :
    (start e).outfile2_broken = if e.argc = 4 ∧ 0 ≤ e.open_outfile2 then 0 else -1 := by
  unfold start openSecondary
  by_cases h1 : e.argc = 4 <;> by_cases h2 : e.open_outfile2 < 0 <;>
    simp [h1, h2, openOutfile, openInfile, init, State.log]
  · omega
  · rw [if_pos (by omega)]

theorem theend_fields (s : State) :
    (theend s).out = s.out ∧ (theend s).out2 = s.out2 ∧ (theend s).rc = s.rc ∧
    (theend s).sector_count = s.sector_count ∧ (theend s).bytes_count = s.bytes_count ∧
    (theend s).bytes_count_nopi = s.bytes_count_nopi ∧ (theend s).writes = s.writes ∧
    (theend s).writes2 = s.writes2 ∧ (theend s).outfile2_broken = s.outfile2_broken := by
  unfold theend
  by_cases h : s.rc = 0 <;> simp [h, State.log]

theorem theend_trace (s : State) :
    (theend s).trace =
      s.trace ++ [Event.msg (Msg.summary s.sector_count s.bytes_count_nopi s.bytes_count),
        Event.close Stream.infile s.infile, Event.close Stream.outfile s.outfile,
        Event.close Stream.outfile2 s.outfile2] ++
      (if s.rc ≠ 0 then [Event.msg Msg.failed] else []) ∧
    (theend s).infile = s.infile ∧ (theend s).outfile = s.outfile ∧
    (theend s).outfile2 = s.outfile2 := by
  unfold theend
  by_cases h : s.rc = 0 <;> simp [h, State.log]

theorem main_rc_of_not_starts (e : Env) (h : ¬ e.Starts) : (main e).rc = 1 := by
  unfold main
  by_cases h1 : e.argc ≠ 3 ∧ e.argc ≠ 4
  · rw [if_pos h1]
    rfl
  · rw [if_neg h1]
    by_cases h2 : (openInfile e (init e)).infile < 0
    · simp only [h2, if_true]
      rfl
    · simp only [h2, if_false]
      by_cases h3 : (openOutfile e (openInfile e (init e))).outfile < 0
      · simp only [h3, if_true]
        rfl
      · exfalso
        apply h
        refine ⟨by omega, ?_, ?_⟩
        · simpa [openInfile, State.log] using h2
        · simpa [openOutfile, State.log] using h3

theorem main_rc_iff (e : Env) :
    (main e).rc = 0 ↔
      e.Starts ∧
      ∃ n, (∀ i, i < n → ∃ b, e.reads[i]? = some (ReadResult.data b) ∧ b.length = 4104 ∧
              e.write_outfile i = 4104) ∧
        (e.reads[n]? = none ∨ e.reads[n]? = some (ReadResult.data [])) := by
  by_cases hs : e.Starts
  · rw [main_eq_of_starts e hs, (theend_fields _).2.2.1,
      loop_rc_iff e e.reads (start e) (by rw [(start_fields e).2.2.2.2.1]; decide),
      (start_fields e).1]
    simp only [Nat.zero_add, hs, true_and]
  · rw [main_rc_of_not_starts e hs]
    simp [hs]

theorem main_rc_cases (e : Env) : (main e).rc = 0 ∨ (main e).rc = 1 := by
  by_cases hs : e.Starts
  · rw [main_eq_of_starts e hs, (theend_fields _).2.2.1]
    rcases loop_rc e e.reads (start e) with h | h
    · exact Or.inl h
    · right
      rw [h, (start_fields e).2.2.2.2.1]
  · exact Or.inr (main_rc_of_not_starts e hs)

/-! ## A source of whole records -/

theorem overwriteTrailer_wholeRecords (recs : List (List Byte)) (h : WholeRecords recs) :
    ∀ l ∈ recs.map overwriteTrailer, l.length = SECTOR_SIZE_WITH_T10PI := by
  intro l hl
  obtain ⟨r, hr, rfl⟩ := List.mem_map.mp hl
  rw [overwriteTrailer_length]
  exact h r hr

theorem length_data_bytes (recs : List (List Byte)) (hrecs : WholeRecords recs) :
    (recs.map (fun r => r.take SECTOR_SIZE_DATA_ONLY)).flatten.length =
      recs.length * SECTOR_SIZE_DATA_ONLY := by
  rw [length_flatten_chunks SECTOR_SIZE_DATA_ONLY, List.length_map]
  intro l hl
  obtain ⟨r, hr, rfl⟩ := List.mem_map.mp hl
  rw [List.length_take, hrecs r hr]
  rfl

theorem runRecords_start (e : Env) (recs : List (List Byte)) (hrecs : WholeRecords recs)
    (hw : ∀ k, k < recs.length → e.write_outfile k = (SECTOR_SIZE_WITH_T10PI : Int)) :
    (runRecords e (start e) recs).out = (recs.map overwriteTrailer).flatten ∧
    (runRecords e (start e) recs).rc = 1 ∧
    (runRecords e (start e) recs).writes = recs.length ∧
    (runRecords e (start e) recs).sector_count = recs.length % U64 ∧
    (runRecords e (start e) recs).bytes_count = (recs.length * SECTOR_SIZE_WITH_T10PI) % U64 ∧
    (runRecords e (start e) recs).bytes_count_nopi =
      (recs.length * SECTOR_SIZE_DATA_ONLY) % U64 := by
  obtain ⟨w0, -, o0, -, r0, c1, c2, c3, -, -⟩ := start_fields e
  have hpos : 0 < U64 := by simp [U64]
  obtain ⟨h1, h2, h3⟩ := runRecords_counters e recs (start e) (by rw [c1]; exact hpos)
    (by rw [c2]; exact hpos) (by rw [c3]; exact hpos)
  obtain ⟨f1, f2, -⟩ := runRecords_fields e recs (start e)
  rw [runRecords_out e recs (start e) hrecs
      (by intro i hi; rw [w0, Nat.zero_add]; exact hw i hi),
    f1, f2, h1, h2, h3, w0, o0, r0, c1, c2, c3]
  simp

theorem main_records_then (e : Env) (recs : List (List Byte)) (tl : List ReadResult)
    (hstart : e.Starts) (hrecs : WholeRecords recs)
    (hreads : e.reads = recs.map ReadResult.data ++ tl)
    (hw : ∀ k, k < recs.length → e.write_outfile k = (SECTOR_SIZE_WITH_T10PI : Int)) :
    main e = theend (loop e tl (runRecords e (start e) recs)) := by
  rw [main_eq_of_starts e hstart, hreads]
  rw [loop_records e tl recs (start e) hrecs
    (by intro i hi; rw [(start_fields e).1, Nat.zero_add]; exact hw i hi)]

/-- A source of whole records whose primary writes all complete: the final state in terms
of the state after the last record. -/
theorem main_whole_records (e : Env) (recs : List (List Byte)) (hstart : e.Starts)
    (hrecs : WholeRecords recs) (hreads : e.reads = recs.map ReadResult.data)
    (hw : ∀ k, k < recs.length → e.write_outfile k = (SECTOR_SIZE_WITH_T10PI : Int)) :
    main e = theend (loop e [] (runRecords e (start e) recs)) := by
  rw [main_eq_of_starts e hstart, hreads]
  have := loop_records e [] recs (start e) hrecs
    (by intro i hi; rw [(start_fields e).1, Nat.zero_add]; exact hw i hi)
  rw [List.append_nil] at this
  rw [this]

theorem main_whole_records_out (e : Env) (recs : List (List Byte)) (hstart : e.Starts)
    (hrecs : WholeRecords recs) (hreads : e.reads = recs.map ReadResult.data)
    (hw : ∀ k, k < recs.length → e.write_outfile k = (SECTOR_SIZE_WITH_T10PI : Int)) :
    (main e).out = (recs.map overwriteTrailer).flatten := by
  rw [main_whole_records e recs hstart hrecs hreads hw, (theend_fields _).1,
    (loop_nil_fields _ _).2.1, runRecords_out e recs (start e) hrecs
      (by intro i hi; rw [(start_fields e).1, Nat.zero_add]; exact hw i hi),
    (start_fields e).2.2.1, List.nil_append]

theorem main_whole_records_rc (e : Env) (recs : List (List Byte)) (hstart : e.Starts)
    (hrecs : WholeRecords recs) (hreads : e.reads = recs.map ReadResult.data)
    (hw : ∀ k, k < recs.length → e.write_outfile k = (SECTOR_SIZE_WITH_T10PI : Int)) :
    (main e).rc = 0 := by
  rw [main_whole_records e recs hstart hrecs hreads hw, (theend_fields _).2.2.1,
    (loop_nil_fields _ _).1]

theorem main_whole_records_counters (e : Env) (recs : List (List Byte)) (hstart : e.Starts)
    (hrecs : WholeRecords recs) (hreads : e.reads = recs.map ReadResult.data)
    (hw : ∀ k, k < recs.length → e.write_outfile k = (SECTOR_SIZE_WITH_T10PI : Int)) :
    (main e).sector_count = recs.length % U64 ∧
    (main e).bytes_count = (recs.length * SECTOR_SIZE_WITH_T10PI) % U64 ∧
    (main e).bytes_count_nopi = (recs.length * SECTOR_SIZE_DATA_ONLY) % U64 := by
  obtain ⟨-, -, -, -, -, c1, c2, c3, -, -⟩ := start_fields e
  have hpos : 0 < U64 := by simp [U64]
  obtain ⟨h1, h2, h3⟩ := runRecords_counters e recs (start e) (by rw [c1]; exact hpos)
    (by rw [c2]; exact hpos) (by rw [c3]; exact hpos)
  obtain ⟨-, -, -, t1, t2, t3, -⟩ := theend_fields (loop e [] (runRecords e (start e) recs))
  obtain ⟨-, -, -, l1, l2, l3, -⟩ := loop_nil_fields e (runRecords e (start e) recs)
  rw [main_whole_records e recs hstart hrecs hreads hw, t1, t2, t3, l1, l2, l3, h1, h2, h3,
    c1, c2, c3]
  simp

/-- Byte `i` of record `k` of the primary output, for a source of whole records. -/
theorem main_whole_records_out_getElem? (e : Env) (recs : List (List Byte))
    (hstart : e.Starts) (hrecs : WholeRecords recs)
    (hreads : e.reads = recs.map ReadResult.data)
    (hw : ∀ k, k < recs.length → e.write_outfile k = (SECTOR_SIZE_WITH_T10PI : Int))
    (k i : Nat) (hi : i < SECTOR_SIZE_WITH_T10PI) :
    (main e).out[k * SECTOR_SIZE_WITH_T10PI + i]? =
      (recs[k]?).bind (fun r => (overwriteTrailer r)[i]?) := by
  rw [main_whole_records_out e recs hstart hrecs hreads hw,
    getElem?_flatten_chunks SECTOR_SIZE_WITH_T10PI _ (overwriteTrailer_wholeRecords recs hrecs)
      k i hi]
  simp only [List.getElem?_map]
  cases recs[k]? <;> rfl

theorem main_whole_records_out_byte (e : Env) (recs : List (List Byte))
    (hstart : e.Starts) (hrecs : WholeRecords recs)
    (hreads : e.reads = recs.map ReadResult.data)
    (hw : ∀ k, k < recs.length → e.write_outfile k = (SECTOR_SIZE_WITH_T10PI : Int))
    (j : Nat) (hj : j < recs.length * 4104) :
    (main e).out[j]? = if 4096 ≤ j % 4104 then some 0xff else recs.flatten[j]? := by
  have hk : j / 4104 < recs.length := (Nat.div_lt_iff_lt_mul (by omega)).mpr hj
  have hi : j % 4104 < SECTOR_SIZE_WITH_T10PI := Nat.mod_lt _ (by omega)
  have hsplit : j = (j / 4104) * SECTOR_SIZE_WITH_T10PI + j % 4104 := by
    show j = (j / 4104) * 4104 + j % 4104
    omega
  have hr : recs[j / 4104].length = 4104 := hrecs _ (List.getElem_mem hk)
  have h1 := main_whole_records_out_getElem? e recs hstart hrecs hreads hw (j / 4104)
    (j % 4104) hi
  have h2 := getElem?_flatten_chunks SECTOR_SIZE_WITH_T10PI recs hrecs (j / 4104)
    (j % 4104) hi
  rw [← hsplit] at h1 h2
  rw [h1, h2, List.getElem?_eq_getElem hk, Option.some_bind, Option.some_bind,
    overwriteTrailer_getElem?, hr]
  by_cases h : 4096 ≤ j % 4104
  · have h' : 4096 ≤ j % 4104 ∧ j % 4104 < 4104 ∧ j % 4104 < 4104 := ⟨h, hi, hi⟩
    rw [if_pos h', if_pos h]
  · have h' : ¬ (4096 ≤ j % 4104 ∧ j % 4104 < 4104 ∧ j % 4104 < 4104) := fun hh => h hh.1
    rw [if_neg h', if_neg h]

/-- With a working secondary destination and complete writes throughout, the secondary
output is the data bytes of the records, in order. -/
theorem main_whole_records_out2 (e : Env) (recs : List (List Byte))
    (hstart : e.Starts) (hargc : e.argc = 4) (hopen2 : 0 ≤ e.open_outfile2)
    (hrecs : WholeRecords recs) (hreads : e.reads = recs.map ReadResult.data)
    (hw : ∀ k, k < recs.length → e.write_outfile k = (SECTOR_SIZE_WITH_T10PI : Int))
    (hw2 : ∀ k, k < recs.length → e.write_outfile2 k = (SECTOR_SIZE_DATA_ONLY : Int)) :
    (main e).out2 = (recs.map (fun r => r.take SECTOR_SIZE_DATA_ONLY)).flatten := by
  have hb : (start e).outfile2_broken = 0 := by
    rw [start_broken, if_pos ⟨hargc, hopen2⟩]
  obtain ⟨h1, -, -⟩ := runRecords_secondary_ok e recs (start e) hrecs hargc hb
    (by intro i hi; rw [(start_fields e).2.1, Nat.zero_add]; exact hw2 i hi)
  rw [main_whole_records e recs hstart hrecs hreads hw, (theend_fields _).2.1,
    (loop_nil_fields _ _).2.2.1, h1, (start_fields e).2.2.2.1, List.nil_append]

/-- A successful run over a source of whole records started, and each record was written
in full. -/
theorem success_whole_records (e : Env) (recs : List (List Byte))
    (hrecs : WholeRecords recs) (hreads : e.reads = recs.map ReadResult.data)
    (hrc : (main e).rc = 0) :
    e.Starts ∧ ∀ k, k < recs.length → e.write_outfile k = (SECTOR_SIZE_WITH_T10PI : Int) := by
  obtain ⟨hs, n, hn, hlast⟩ := (main_rc_iff e).mp hrc
  refine ⟨hs, ?_⟩
  have hge : recs.length ≤ n := by
    rcases hlast with h | h
    · rw [hreads, List.getElem?_eq_none_iff, List.length_map] at h
      exact h
    · rw [hreads, List.getElem?_map] at h
      cases hk : recs[n]? with
      | none =>
        rw [List.getElem?_eq_none_iff] at hk
        exact hk
      | some r =>
        exfalso
        rw [hk] at h
        simp at h
        have hr := hrecs r (List.getElem?_mem hk)
        rw [h] at hr
        exact absurd hr (by decide)
  intro k hk
  obtain ⟨-, -, -, h3⟩ := hn k (by omega)
  exact h3

/-! ## Runs that stop early -/

/-- Whole records followed by a short tail: the state that reaches `theend`. -/
theorem main_short_tail_eq (e : Env) (recs : List (List Byte)) (tl : List Byte)
    (hstart : e.Starts) (hrecs : WholeRecords recs)
    (htl0 : 0 < tl.length) (htl1 : tl.length < 4104)
    (hreads : e.reads = recs.map ReadResult.data ++ [ReadResult.data tl])
    (hw : ∀ k, k < recs.length → e.write_outfile k = (SECTOR_SIZE_WITH_T10PI : Int)) :
    main e = theend ((doRead (ReadResult.data tl) (runRecords e (start e) recs)).log
      (Event.msg (Msg.short_read tl.length))) := by
  have hne : tl.length ≠ SECTOR_SIZE_WITH_T10PI := by
    show tl.length ≠ 4104
    omega
  rw [main_records_then e recs _ hstart hrecs hreads hw, loop_short_read e _ tl [] htl0 hne]

/-- Whole records followed by a short tail: exit code and `sector_count`. -/
theorem main_short_tail_count (e : Env) (recs : List (List Byte)) (tl : List Byte)
    (hstart : e.Starts) (hrecs : WholeRecords recs)
    (htl0 : 0 < tl.length) (htl1 : tl.length < 4104)
    (hreads : e.reads = recs.map ReadResult.data ++ [ReadResult.data tl])
    (hw : ∀ k, k < recs.length → e.write_outfile k = (SECTOR_SIZE_WITH_T10PI : Int)) :
    (main e).rc = 1 ∧ (main e).sector_count = recs.length % U64 := by
  obtain ⟨-, r2, -, r4, -⟩ := runRecords_start e recs hrecs hw
  obtain ⟨-, -, t3, t4, -⟩ := theend_fields
    ((doRead (ReadResult.data tl) (runRecords e (start e) recs)).log
      (Event.msg (Msg.short_read tl.length)))
  obtain ⟨-, -, l3, l4, -⟩ := log_fields
    (doRead (ReadResult.data tl) (runRecords e (start e) recs))
      (Event.msg (Msg.short_read tl.length))
  obtain ⟨-, -, -, -, d5, -, d7, -⟩ := doRead_fields (ReadResult.data tl)
    (runRecords e (start e) recs)
  rw [main_short_tail_eq e recs tl hstart hrecs htl0 htl1 hreads hw, t3, t4, l3, l4, d5, d7,
    r2, r4]
  exact ⟨rfl, rfl⟩

/-- Whole records followed by a `read` that returns `-1`: the state that reaches
`theend`. -/
theorem main_read_error_eq (e : Env) (recs : List (List Byte)) (errno : Nat)
    (rest : List ReadResult) (hstart : e.Starts) (hrecs : WholeRecords recs)
    (hreads : e.reads = recs.map ReadResult.data ++ ReadResult.error errno :: rest)
    (hw : ∀ k, k < recs.length → e.write_outfile k = (SECTOR_SIZE_WITH_T10PI : Int)) :
    main e = theend { runRecords e (start e) recs with
      trace := (runRecords e (start e) recs).trace ++
        [Event.read (-1), Event.msg Msg.read_error] } := by
  rw [main_records_then e recs _ hstart hrecs hreads hw, loop_read_error]
  congr 1
  simp [doRead, State.log, ReadResult.ret]

/-- Whole records followed by a record whose primary write falls short: the state that
reaches `theend`. -/
theorem main_write_fail_eq (e : Env) (recs : List (List Byte)) (r : List Byte)
    (rest : List ReadResult) (hstart : e.Starts) (hrecs : WholeRecords recs)
    (hr : r.length = SECTOR_SIZE_WITH_T10PI)
    (hreads : e.reads = recs.map ReadResult.data ++ ReadResult.data r :: rest)
    (hw : ∀ k, k < recs.length → e.write_outfile k = (SECTOR_SIZE_WITH_T10PI : Int))
    (hfail : e.write_outfile recs.length ≠ (SECTOR_SIZE_WITH_T10PI : Int)) :
    main e = theend ((writePrimary e (overwrite (writeSecondary e
      (doRead (ReadResult.data r) (runRecords e (start e) recs))))).log
        (Event.msg (Msg.short_write (e.write_outfile recs.length)))) := by
  obtain ⟨-, -, r3, -⟩ := runRecords_start e recs hrecs hw
  have hfail' : e.write_outfile (runRecords e (start e) recs).writes ≠
      (SECTOR_SIZE_WITH_T10PI : Int) := by
    rw [r3]
    exact hfail
  rw [main_records_then e recs _ hstart hrecs hreads hw,
    loop_write_fail e _ r rest hr hfail', r3]

/-- Whole records followed by a record whose primary write falls short: exit code and
counters. -/
theorem main_write_fail_count (e : Env) (recs : List (List Byte)) (r : List Byte)
    (rest : List ReadResult) (hstart : e.Starts) (hrecs : WholeRecords recs)
    (hr : r.length = SECTOR_SIZE_WITH_T10PI)
    (hreads : e.reads = recs.map ReadResult.data ++ ReadResult.data r :: rest)
    (hw : ∀ k, k < recs.length → e.write_outfile k = (SECTOR_SIZE_WITH_T10PI : Int))
    (hfail : e.write_outfile recs.length ≠ (SECTOR_SIZE_WITH_T10PI : Int)) :
    (main e).rc = 1 ∧ (main e).sector_count = recs.length % U64 ∧
    (main e).bytes_count = (recs.length * SECTOR_SIZE_WITH_T10PI) % U64 ∧
    (main e).bytes_count_nopi = (recs.length * SECTOR_SIZE_DATA_ONLY) % U64 := by
  obtain ⟨-, r2, -, r4, r5, r6⟩ := runRecords_start e recs hrecs hw
  rw [main_write_fail_eq e recs r rest hstart hrecs hr hreads hw hfail]
  generalize runRecords e (start e) recs = R at r2 r4 r5 r6
  obtain ⟨p1, -, p3, p4, p5, -⟩ := writePrimary_fields e
    (overwrite (writeSecondary e (doRead (ReadResult.data r) R)))
  obtain ⟨o1, -, -, o4, o5, o6, -⟩ := overwrite_fields
    (writeSecondary e (doRead (ReadResult.data r) R))
  obtain ⟨-, -, w3, -, w5, w6, w7, -⟩ := writeSecondary_fields e (doRead (ReadResult.data r) R)
  obtain ⟨-, -, -, -, d5, -, d7, d8, d9, -⟩ := doRead_fields (ReadResult.data r) R
  obtain ⟨-, -, l3, l4, l5, l6, -⟩ := log_fields
    (writePrimary e (overwrite (writeSecondary e (doRead (ReadResult.data r) R))))
    (Event.msg (Msg.short_write (e.write_outfile recs.length)))
  obtain ⟨-, -, t3, t4, t5, t6, -⟩ := theend_fields
    ((writePrimary e (overwrite (writeSecondary e (doRead (ReadResult.data r) R)))).log
      (Event.msg (Msg.short_write (e.write_outfile recs.length))))
  rw [t3, t4, t5, t6, l3, l4, l5, l6, p1, p3, p4, p5, o1, o4, o5, o6, w3, w5, w6, w7,
    d5, d7, d8, d9, r2, r4, r5, r6]
  exact ⟨rfl, rfl, rfl, rfl⟩

/-! ## Facts about the concrete environments -/

theorem zeroRecord_length : zeroRecord.length = SECTOR_SIZE_WITH_T10PI := by
  simp [zeroRecord]

theorem wholeRecords_replicate (n : Nat) : WholeRecords (List.replicate n zeroRecord) := by
  intro r hr
  rw [List.eq_of_mem_replicate hr]
  exact zeroRecord_length

theorem goodEnv_starts (argc : Int) (h : argc = 3 ∨ argc = 4) (reads : List ReadResult) :
    (goodEnv argc reads).Starts :=
  ⟨h, by simp [goodEnv], by simp [goodEnv]⟩

theorem longEnv_facts (n : Nat) :
    (longEnv n).Starts ∧ (longEnv n).argc = 4 ∧ 0 ≤ (longEnv n).open_outfile2 ∧
    (longEnv n).reads = (List.replicate n zeroRecord).map ReadResult.data ∧
    (∀ k, k < (List.replicate n zeroRecord).length →
      (longEnv n).write_outfile k = (SECTOR_SIZE_WITH_T10PI : Int)) ∧
    (∀ k, k < (List.replicate n zeroRecord).length →
      (longEnv n).write_outfile2 k = (SECTOR_SIZE_DATA_ONLY : Int)) := by
  refine ⟨goodEnv_starts 4 (Or.inr rfl) _, rfl, ?_, ?_, fun _ _ => rfl, fun _ _ => rfl⟩
  · show (0 : Int) ≤ 5
    omega
  · rw [List.map_replicate]
    rfl

theorem longEnv_counters (n : Nat) :
    (main (longEnv n)).rc = 0 ∧
    (main (longEnv n)).sector_count = n % U64 ∧
    (main (longEnv n)).bytes_count = (n * SECTOR_SIZE_WITH_T10PI) % U64 ∧
    (main (longEnv n)).bytes_count_nopi = (n * SECTOR_SIZE_DATA_ONLY) % U64 := by
  obtain ⟨h1, -, -, h4, h5, -⟩ := longEnv_facts n
  have hc := main_whole_records_counters (longEnv n) _ h1 (wholeRecords_replicate n) h4 h5
  rw [List.length_replicate] at hc
  exact ⟨main_whole_records_rc (longEnv n) _ h1 (wholeRecords_replicate n) h4 h5, hc⟩

theorem longEnv_out2_length (n : Nat) :
    (main (longEnv n)).out2.length = n * SECTOR_SIZE_DATA_ONLY := by
  obtain ⟨h1, h2, h3, h4, h5, h6⟩ := longEnv_facts n
  rw [main_whole_records_out2 (longEnv n) _ h1 h2 h3 (wholeRecords_replicate n) h4 h5 h6,
    length_data_bytes _ (wholeRecords_replicate n), List.length_replicate]

theorem tailEnv_facts (n : Nat) :
    (tailEnv n).Starts ∧
    (tailEnv n).reads =
      (List.replicate n zeroRecord).map ReadResult.data ++ [ReadResult.data [0]] ∧
    (∀ k, k < (List.replicate n zeroRecord).length →
      (tailEnv n).write_outfile k = (SECTOR_SIZE_WITH_T10PI : Int)) := by
  refine ⟨goodEnv_starts 3 (Or.inl rfl) _, ?_, fun _ _ => rfl⟩
  rw [List.map_replicate]
  rfl

theorem degradedEnv_facts (n : Nat) :
    (degradedEnv n).Starts ∧ (degradedEnv n).argc = 4 ∧ 0 ≤ (degradedEnv n).open_outfile2 ∧
    (degradedEnv n).reads = (List.replicate n zeroRecord).map ReadResult.data ∧
    (∀ k, k < (List.replicate n zeroRecord).length →
      (degradedEnv n).write_outfile k = (SECTOR_SIZE_WITH_T10PI : Int)) ∧
    (∀ k, (degradedEnv n).write_outfile2 k = -1) := by
  refine ⟨⟨Or.inr rfl, ?_, ?_⟩, rfl, ?_, ?_, fun _ _ => rfl, fun _ => rfl⟩
  · show (0 : Int) ≤ 3
    omega
  · show (0 : Int) ≤ 4
    omega
  · show (0 : Int) ≤ 5
    omega
  · show List.replicate n (ReadResult.data zeroRecord) = _
    rw [List.map_replicate]

theorem failEnv_facts (k : Nat) :
    (failEnv k).Starts ∧
    (failEnv k).reads = (List.replicate k zeroRecord).map ReadResult.data ++
      ReadResult.data zeroRecord :: [] ∧
    (∀ i, i < (List.replicate k zeroRecord).length → (failEnv k).write_outfile i = 4104) ∧
    (failEnv k).write_outfile (List.replicate k zeroRecord).length ≠ 4104 := by
  refine ⟨⟨Or.inr rfl, ?_, ?_⟩, ?_, ?_, ?_⟩
  · show (0 : Int) ≤ 3
    omega
  · show (0 : Int) ≤ 4
    omega
  · rw [List.map_replicate]
    rfl
  · intro i hi
    rw [List.length_replicate] at hi
    show (if i = k then (0 : Int) else 4104) = 4104
    rw [if_neg (by omega)]
  · rw [List.length_replicate]
    show (if k = k then (0 : Int) else 4104) ≠ 4104
    rw [if_pos rfl]
    decide

/-! ## The claims -/

/-- C1: for a source of whole 4104-byte records (each read delivers one record, then end of
stream) whose primary writes all transfer 4104 bytes, the bytes written to the primary
destination have the length of the source, `n * 4104`, and every byte at an offset in
`[k*4104 + 4096, (k+1)*4104)`, `k < n`, is `0xff`.  It holds for every `n`, so for
`n >= 1`. -/
theorem C1_primary_length_and_trailers (e : Env) (recs : List (List Byte))
    (hstart : e.Starts) (hrecs : WholeRecords recs)
    (hreads : e.reads = recs.map ReadResult.data)
    (hw : ∀ k, k < recs.length → e.write_outfile k = 4104) :
    (main e).out.length = recs.flatten.length ∧
    (main e).out.length = recs.length * 4104 ∧
    ∀ k, k < recs.length → ∀ j, k * 4104 + 4096 ≤ j → j < (k + 1) * 4104 →
      (main e).out[j]? = some 0xff := by
  have hw' : ∀ k, k < recs.length → e.write_outfile k = (SECTOR_SIZE_WITH_T10PI : Int) := hw
  have hlen : (main e).out.length = recs.length * 4104 := by
    rw [main_whole_records_out e recs hstart hrecs hreads hw',
      length_flatten_chunks SECTOR_SIZE_WITH_T10PI _ (overwriteTrailer_wholeRecords recs hrecs),
      List.length_map]
    rfl
  refine ⟨?_, hlen, ?_⟩
  · rw [hlen, length_flatten_chunks SECTOR_SIZE_WITH_T10PI recs hrecs]
    rfl
  · intro k hk j hj1 hj2
    have hj : j = k * SECTOR_SIZE_WITH_T10PI + (j - k * 4104) := by
      show j = k * 4104 + (j - k * 4104)
      omega
    have hi : j - k * 4104 < SECTOR_SIZE_WITH_T10PI := by
      show j - k * 4104 < 4104
      rw [Nat.succ_mul] at hj2
      omega
    rw [hj, main_whole_records_out_getElem? e recs hstart hrecs hreads hw' k _ hi,
      List.getElem?_eq_getElem hk, Option.some_bind, overwriteTrailer_getElem?]
    have hr : recs[k].length = 4104 := hrecs _ (List.getElem_mem hk)
    rw [if_pos]
    rw [hr, Nat.succ_mul] at *
    omega

/-- C1, witness: one record of zero bytes. -/
theorem C1_witness :
    (goodEnv 3 [ReadResult.data zeroRecord]).Starts ∧ WholeRecords [zeroRecord] ∧
    ((main (goodEnv 3 [ReadResult.data zeroRecord])).out.length = [zeroRecord].flatten.length ∧
    (main (goodEnv 3 [ReadResult.data zeroRecord])).out.length = [zeroRecord].length * 4104 ∧
    ∀ k, k < [zeroRecord].length → ∀ j, k * 4104 + 4096 ≤ j → j < (k + 1) * 4104 →
      (main (goodEnv 3 [ReadResult.data zeroRecord])).out[j]? = some 0xff) :=
  ⟨goodEnv_starts 3 (Or.inl rfl) _, wholeRecords_replicate 1,
    C1_primary_length_and_trailers (goodEnv 3 [ReadResult.data zeroRecord]) [zeroRecord]
      (goodEnv_starts 3 (Or.inl rfl) _) (wholeRecords_replicate 1) rfl (fun _ _ => rfl)⟩

/-- C2: for a source of whole 4104-byte records whose primary writes all complete, every
byte written to the primary destination at an offset in `[k*4104, k*4104 + 4096)`, `k < n`,
equals the source byte at the same offset. -/
theorem C2_data_bytes_unchanged (e : Env) (recs : List (List Byte))
    (hstart : e.Starts) (hrecs : WholeRecords recs)
    (hreads : e.reads = recs.map ReadResult.data)
    (hw : ∀ k, k < recs.length → e.write_outfile k = 4104) :
    ∀ k, k < recs.length → ∀ j, k * 4104 ≤ j → j < k * 4104 + 4096 →
      j < recs.flatten.length ∧ (main e).out[j]? = recs.flatten[j]? := by
  have hw' : ∀ k, k < recs.length → e.write_outfile k = (SECTOR_SIZE_WITH_T10PI : Int) := hw
  intro k hk j hj1 hj2
  have hj : j = k * SECTOR_SIZE_WITH_T10PI + (j - k * 4104) := by
    show j = k * 4104 + (j - k * 4104)
    omega
  have hi : j - k * 4104 < SECTOR_SIZE_WITH_T10PI := by
    show j - k * 4104 < 4104
    omega
  constructor
  · rw [length_flatten_chunks SECTOR_SIZE_WITH_T10PI recs hrecs]
    show j < recs.length * 4104
    have : (k + 1) * 4104 ≤ recs.length * 4104 := Nat.mul_le_mul_right _ hk
    rw [Nat.succ_mul] at this
    omega
  · rw [hj, main_whole_records_out_getElem? e recs hstart hrecs hreads hw' k _ hi,
      getElem?_flatten_chunks SECTOR_SIZE_WITH_T10PI recs hrecs k _ hi,
      List.getElem?_eq_getElem hk, Option.some_bind, Option.some_bind,
      overwriteTrailer_getElem?]
    rw [if_neg]
    omega

/-- C2, witness: one record of zero bytes. -/
theorem C2_witness :
    (goodEnv 3 [ReadResult.data zeroRecord]).Starts ∧ WholeRecords [zeroRecord] ∧
    ∀ k, k < [zeroRecord].length → ∀ j, k * 4104 ≤ j → j < k * 4104 + 4096 →
      j < [zeroRecord].flatten.length ∧
      (main (goodEnv 3 [ReadResult.data zeroRecord])).out[j]? = [zeroRecord].flatten[j]? :=
  ⟨goodEnv_starts 3 (Or.inl rfl) _, wholeRecords_replicate 1,
    C2_data_bytes_unchanged (goodEnv 3 [ReadResult.data zeroRecord]) [zeroRecord]
      (goodEnv_starts 3 (Or.inl rfl) _) (wholeRecords_replicate 1) rfl (fun _ _ => rfl)⟩

/-- C3 (amended): in a run with a third argument whose secondary destination opens, over a
source of `n` whole 4104-byte records with every write of the run complete, the bytes
written to the secondary destination are the first 4096 bytes of each record, in source
order; their number is `n * 4096`, which is the final `sector_count * 4096` whenever
`n < 2^64`. -/
theorem C3_secondary_output (e : Env) (recs : List (List Byte))
    (hstart : e.Starts) (hargc : e.argc = 4) (hopen2 : 0 ≤ e.open_outfile2)
    (hrecs : WholeRecords recs) (hreads : e.reads = recs.map ReadResult.data)
    (hw : ∀ k, k < recs.length → e.write_outfile k = 4104)
    (hw2 : ∀ k, k < recs.length → e.write_outfile2 k = 4096) :
    (main e).out2 = (recs.map (fun r => r.take 4096)).flatten ∧
    (main e).out2.length = recs.length * 4096 ∧
    (recs.length < 2 ^ 64 → (main e).out2.length = (main e).sector_count * 4096) := by
  have hw' : ∀ k, k < recs.length → e.write_outfile k = (SECTOR_SIZE_WITH_T10PI : Int) := hw
  have hw2' : ∀ k, k < recs.length → e.write_outfile2 k = (SECTOR_SIZE_DATA_ONLY : Int) := hw2
  have h1 := main_whole_records_out2 e recs hstart hargc hopen2 hrecs hreads hw' hw2'
  have h2 : (main e).out2.length = recs.length * 4096 := by
    rw [h1, length_data_bytes recs hrecs]
    rfl
  refine ⟨h1, h2, ?_⟩
  intro hn
  rw [h2, (main_whole_records_counters e recs hstart hrecs hreads hw').1,
    Nat.mod_eq_of_lt (by simpa [U64] using hn)]

/-- C3, witness: one record of zero bytes copied to both destinations. -/
theorem C3_witness :
    (goodEnv 4 [ReadResult.data zeroRecord]).Starts ∧ WholeRecords [zeroRecord] ∧
    ((main (goodEnv 4 [ReadResult.data zeroRecord])).out2 =
      ([zeroRecord].map (fun r => r.take 4096)).flatten ∧
    (main (goodEnv 4 [ReadResult.data zeroRecord])).out2.length = [zeroRecord].length * 4096 ∧
    ([zeroRecord].length < 2 ^ 64 →
      (main (goodEnv 4 [ReadResult.data zeroRecord])).out2.length =
        (main (goodEnv 4 [ReadResult.data zeroRecord])).sector_count * 4096)) :=
  ⟨goodEnv_starts 4 (Or.inr rfl) _, wholeRecords_replicate 1,
    C3_secondary_output (goodEnv 4 [ReadResult.data zeroRecord]) [zeroRecord]
      (goodEnv_starts 4 (Or.inr rfl) _) rfl (by show (0 : Int) ≤ 5; omega)
      (wholeRecords_replicate 1) rfl (fun _ _ => rfl) (fun _ _ => rfl)⟩

/-- C3, as stated, fails on a source of `2^64` whole records: every write completes, the
secondary destination has received `2^64 * 4096` bytes, and the 64-bit `sector_count` has
wrapped to 0, so the length is not `sector_count * 4096`. -/
theorem C3_counterexample :
    (main (longEnv (2 ^ 64))).sector_count = 0 ∧
    (main (longEnv (2 ^ 64))).out2.length = 2 ^ 64 * 4096 ∧
    (main (longEnv (2 ^ 64))).out2.length ≠ (main (longEnv (2 ^ 64))).sector_count * 4096 := by
  have h1 : (main (longEnv (2 ^ 64))).sector_count = 0 := by
    rw [(longEnv_counters (2 ^ 64)).2.1]
    exact Nat.mod_self _
  have h2 : (main (longEnv (2 ^ 64))).out2.length = 2 ^ 64 * 4096 :=
    longEnv_out2_length (2 ^ 64)
  refine ⟨h1, h2, ?_⟩
  rw [h1, h2]
  decide

/-- C4 (amended): for a source of `n` whole 4104-byte records followed by a tail of `r`
bytes, `0 < r < 4104`, with every primary write complete, the exit code is 1, the primary
destination has received exactly the `n` transformed whole records (`n * 4104` bytes),
and the final `sector_count` is `n` modulo `2^64`, so it is `n` whenever `n < 2^64`. -/
theorem C4_short_tail (e : Env) (recs : List (List Byte)) (tl : List Byte)
    (hstart : e.Starts) (hrecs : WholeRecords recs)
    (htl0 : 0 < tl.length) (htl1 : tl.length < 4104)
    (hreads : e.reads = recs.map ReadResult.data ++ [ReadResult.data tl])
    (hw : ∀ k, k < recs.length → e.write_outfile k = 4104) :
    (main e).rc = 1 ∧
    (main e).out = (recs.map overwriteTrailer).flatten ∧
    (main e).out.length = recs.length * 4104 ∧
    (main e).sector_count = recs.length % 2 ^ 64 ∧
    (recs.length < 2 ^ 64 → (main e).sector_count = recs.length) := by
  have hw' : ∀ k, k < recs.length → e.write_outfile k = (SECTOR_SIZE_WITH_T10PI : Int) := hw
  obtain ⟨hrc, hsc⟩ := main_short_tail_count e recs tl hstart hrecs htl0 htl1 hreads hw'
  obtain ⟨r1, -⟩ := runRecords_start e recs hrecs hw'
  obtain ⟨t1, -⟩ := theend_fields
    ((doRead (ReadResult.data tl) (runRecords e (start e) recs)).log
      (Event.msg (Msg.short_read tl.length)))
  obtain ⟨l1, -⟩ := log_fields
    (doRead (ReadResult.data tl) (runRecords e (start e) recs))
      (Event.msg (Msg.short_read tl.length))
  obtain ⟨-, -, d3, -⟩ := doRead_fields (ReadResult.data tl) (runRecords e (start e) recs)
  have hout : (main e).out = (recs.map overwriteTrailer).flatten := by
    rw [main_short_tail_eq e recs tl hstart hrecs htl0 htl1 hreads hw', t1, l1, d3, r1]
  refine ⟨hrc, hout, ?_, hsc, ?_⟩
  · rw [hout, length_flatten_chunks SECTOR_SIZE_WITH_T10PI _
      (overwriteTrailer_wholeRecords recs hrecs), List.length_map]
    rfl
  · intro hn
    rw [hsc]
    exact Nat.mod_eq_of_lt hn

/-- C4, witness: one record of zero bytes followed by a tail of one byte. -/
theorem C4_witness :
    (tailEnv 1).Starts ∧ WholeRecords [zeroRecord] ∧
    ((main (tailEnv 1)).rc = 1 ∧
    (main (tailEnv 1)).out = ([zeroRecord].map overwriteTrailer).flatten ∧
    (main (tailEnv 1)).out.length = [zeroRecord].length * 4104 ∧
    (main (tailEnv 1)).sector_count = [zeroRecord].length % 2 ^ 64 ∧
    ([zeroRecord].length < 2 ^ 64 → (main (tailEnv 1)).sector_count = [zeroRecord].length)) :=
  ⟨goodEnv_starts 3 (Or.inl rfl) _, wholeRecords_replicate 1,
    C4_short_tail (tailEnv 1) [zeroRecord] [0] (goodEnv_starts 3 (Or.inl rfl) _)
      (wholeRecords_replicate 1) (by decide) (by decide) rfl (fun _ _ => rfl)⟩

/-- C4, as stated, fails on a source of `2^64` whole records followed by a tail of one
byte: the run ends with exit code 1 after the `2^64` records, every primary write
complete, and the 64-bit `sector_count` has wrapped to 0, which is not the number of whole
records. -/
theorem C4_counterexample :
    (main (tailEnv (2 ^ 64))).rc = 1 ∧
    (main (tailEnv (2 ^ 64))).sector_count = 0 ∧
    (main (tailEnv (2 ^ 64))).sector_count ≠ 2 ^ 64 := by
  obtain ⟨h1, h2, h3⟩ := tailEnv_facts (2 ^ 64)
  obtain ⟨c1, c2⟩ := main_short_tail_count (tailEnv (2 ^ 64)) _ [0] h1
    (wholeRecords_replicate (2 ^ 64)) (by decide) (by decide) h2 h3
  rw [List.length_replicate] at c2
  have h0 : (main (tailEnv (2 ^ 64))).sector_count = 0 := by
    rw [c2]
    exact Nat.mod_self _
  refine ⟨c1, h0, ?_⟩
  rw [h0]
  decide

/-- C5 (amended): for a source of `n` whole 4104-byte records with every primary write
complete, whatever the secondary writes return (so also when one of them transfers fewer
than 4096 bytes at some record `j < n`), the exit code is 0, the final counters are `n`,
`n * 4104` and `n * 4096` modulo `2^64`, hence exactly these values whenever
`n * 4104 < 2^64`, and the bytes written to the primary destination are those of the run
in which the secondary never fails. -/
theorem C5_secondary_failure_not_fatal (e : Env) (recs : List (List Byte))
    (hstart : e.Starts) (hrecs : WholeRecords recs)
    (hreads : e.reads = recs.map ReadResult.data)
    (hw : ∀ k, k < recs.length → e.write_outfile k = 4104) :
    (main e).rc = 0 ∧
    ((main e).sector_count = recs.length % 2 ^ 64 ∧
      (main e).bytes_count = (recs.length * 4104) % 2 ^ 64 ∧
      (main e).bytes_count_nopi = (recs.length * 4096) % 2 ^ 64) ∧
    (recs.length * 4104 < 2 ^ 64 →
      (main e).sector_count = recs.length ∧ (main e).bytes_count = recs.length * 4104 ∧
      (main e).bytes_count_nopi = recs.length * 4096) ∧
    (main e).out = (main { e with write_outfile2 := fun _ => 4096 }).out := by
  have hw' : ∀ k, k < recs.length → e.write_outfile k = (SECTOR_SIZE_WITH_T10PI : Int) := hw
  have hc := main_whole_records_counters e recs hstart hrecs hreads hw'
  refine ⟨main_whole_records_rc e recs hstart hrecs hreads hw', hc, ?_, ?_⟩
  · intro hn
    obtain ⟨b1, b2, b3⟩ := counters_below_wrap recs.length hn
    obtain ⟨c1, c2, c3⟩ := hc
    rw [c1, c2, c3, b1, b2, b3]
    exact ⟨rfl, rfl, rfl⟩
  · rw [main_whole_records_out e recs hstart hrecs hreads hw',
      main_whole_records_out { e with write_outfile2 := fun _ => 4096 } recs hstart hrecs
        hreads hw']

/-- C5, witness: one record, the secondary write of record 0 fails with `-1`. -/
theorem C5_witness :
    (degradedEnv 1).Starts ∧ WholeRecords [zeroRecord] ∧
    (degradedEnv 1).write_outfile2 0 < 4096 ∧
    ((main (degradedEnv 1)).rc = 0 ∧
    ((main (degradedEnv 1)).sector_count = [zeroRecord].length % 2 ^ 64 ∧
      (main (degradedEnv 1)).bytes_count = ([zeroRecord].length * 4104) % 2 ^ 64 ∧
      (main (degradedEnv 1)).bytes_count_nopi = ([zeroRecord].length * 4096) % 2 ^ 64) ∧
    ([zeroRecord].length * 4104 < 2 ^ 64 →
      (main (degradedEnv 1)).sector_count = [zeroRecord].length ∧
      (main (degradedEnv 1)).bytes_count = [zeroRecord].length * 4104 ∧
      (main (degradedEnv 1)).bytes_count_nopi = [zeroRecord].length * 4096) ∧
    (main (degradedEnv 1)).out =
      (main { degradedEnv 1 with write_outfile2 := fun _ => 4096 }).out) :=
  ⟨(degradedEnv_facts 1).1, wholeRecords_replicate 1, by decide,
    C5_secondary_failure_not_fatal (degradedEnv 1) [zeroRecord] (degradedEnv_facts 1).1
      (wholeRecords_replicate 1) rfl (fun _ _ => rfl)⟩

/-- C5, as stated, fails on a source of 4494820680728449 whole records whose secondary
write fails at record 0 while every primary write is complete: the exit code is 0, but
`bytes_with_trailer` has wrapped to 3080, which is not `n * 4104`. -/
theorem C5_counterexample :
    (degradedEnv 4494820680728449).write_outfile2 0 < 4096 ∧
    (main (degradedEnv 4494820680728449)).rc = 0 ∧
    (main (degradedEnv 4494820680728449)).bytes_count = 3080 ∧
    (main (degradedEnv 4494820680728449)).bytes_count ≠ 4494820680728449 * 4104 := by
  obtain ⟨h1, -, -, h4, h5, -⟩ := degradedEnv_facts 4494820680728449
  have c1 := main_whole_records_rc (degradedEnv 4494820680728449) _ h1
    (wholeRecords_replicate 4494820680728449) h4 h5
  obtain ⟨-, c2, -⟩ := main_whole_records_counters (degradedEnv 4494820680728449) _ h1
    (wholeRecords_replicate 4494820680728449) h4 h5
  rw [List.length_replicate] at c2
  have hb : (main (degradedEnv 4494820680728449)).bytes_count = 3080 := by
    rw [c2]
    decide
  refine ⟨by decide, c1, hb, ?_⟩
  rw [hb]
  decide

/-- C6: the transform is idempotent.  When a first run over a source of whole 4104-byte
records completes all its primary writes, and a second run reads the primary output of the
first as whole records and completes its primary writes, the second run writes to its
primary destination exactly the bytes the first run wrote. -/
theorem C6_idempotent (e1 e2 : Env) (recs recs2 : List (List Byte))
    (hstart1 : e1.Starts) (hrecs1 : WholeRecords recs)
    (hreads1 : e1.reads = recs.map ReadResult.data)
    (hw1 : ∀ k, k < recs.length → e1.write_outfile k = 4104)
    (hstart2 : e2.Starts) (hrecs2 : WholeRecords recs2)
    (hreads2 : e2.reads = recs2.map ReadResult.data)
    (hsource2 : recs2.flatten = (main e1).out)
    (hw2 : ∀ k, k < recs2.length → e2.write_outfile k = 4104) :
    (main e2).out = (main e1).out := by
  have hw1' : ∀ k, k < recs.length → e1.write_outfile k = (SECTOR_SIZE_WITH_T10PI : Int) :=
    hw1
  have hw2' : ∀ k, k < recs2.length → e2.write_outfile k = (SECTOR_SIZE_WITH_T10PI : Int) :=
    hw2
  have hout1 := main_whole_records_out e1 recs hstart1 hrecs1 hreads1 hw1'
  have hout2 := main_whole_records_out e2 recs2 hstart2 hrecs2 hreads2 hw2'
  have hpos : 0 < SECTOR_SIZE_WITH_T10PI := by
    show 0 < 4104
    omega
  have heq : recs2 = recs.map overwriteTrailer :=
    flatten_chunks_inj SECTOR_SIZE_WITH_T10PI hpos recs2 (recs.map overwriteTrailer) hrecs2
      (overwriteTrailer_wholeRecords recs hrecs1) (by rw [hsource2, hout1])
  rw [hout2, hout1, heq, map_overwriteTrailer_idem]

/-- C6, witness: one record of zero bytes, then its transformed image as the source. -/
theorem C6_witness :
    (goodEnv 3 [ReadResult.data zeroRecord]).Starts ∧ WholeRecords [zeroRecord] ∧
    (goodEnv 3 [ReadResult.data (overwriteTrailer zeroRecord)]).Starts ∧
    WholeRecords [overwriteTrailer zeroRecord] ∧
    [overwriteTrailer zeroRecord].flatten = (main (goodEnv 3 [ReadResult.data zeroRecord])).out ∧
    (main (goodEnv 3 [ReadResult.data (overwriteTrailer zeroRecord)])).out =
      (main (goodEnv 3 [ReadResult.data zeroRecord])).out :=
  have hsrc : [overwriteTrailer zeroRecord].flatten =
      (main (goodEnv 3 [ReadResult.data zeroRecord])).out :=
    (main_whole_records_out (goodEnv 3 [ReadResult.data zeroRecord]) [zeroRecord]
      (goodEnv_starts 3 (Or.inl rfl) _) (wholeRecords_replicate 1) rfl (fun _ _ => rfl)).symm
  ⟨goodEnv_starts 3 (Or.inl rfl) _, wholeRecords_replicate 1,
    goodEnv_starts 3 (Or.inl rfl) _,
    overwriteTrailer_wholeRecords [zeroRecord] (wholeRecords_replicate 1),
    hsrc,
    C6_idempotent (goodEnv 3 [ReadResult.data zeroRecord])
      (goodEnv 3 [ReadResult.data (overwriteTrailer zeroRecord)]) [zeroRecord]
      [overwriteTrailer zeroRecord]
      (goodEnv_starts 3 (Or.inl rfl) _) (wholeRecords_replicate 1) rfl (fun _ _ => rfl)
      (goodEnv_starts 3 (Or.inl rfl) _)
      (overwriteTrailer_wholeRecords [zeroRecord] (wholeRecords_replicate 1)) rfl hsrc
      (fun _ _ => rfl)⟩

/-- C7 (amended): over a source of `n` whole 4104-byte records the run is successful (exit
code 0) exactly when it starts and every primary write is complete, and then the final
counters are `sector_count = n`, `bytes_with_trailer = n * 4104` and
`bytes_data_only = n * 4096` modulo `2^64`, hence exactly these values whenever
`n * 4104 < 2^64`;  for `n = 3` the counters are 3, 12312 and 12288, the output is 12312
bytes, bytes `[4096,4104)`, `[8200,8208)` and `[12304,12312)` are `0xff` and every other
byte is the source byte. -/
theorem C7_final_counters (e : Env) (recs : List (List Byte))
    (hrecs : WholeRecords recs) (hreads : e.reads = recs.map ReadResult.data) :
    ((main e).rc = 0 ↔ e.Starts ∧ ∀ k, k < recs.length → e.write_outfile k = 4104) ∧
    ((main e).rc = 0 →
      ((main e).sector_count = recs.length % 2 ^ 64 ∧
        (main e).bytes_count = (recs.length * 4104) % 2 ^ 64 ∧
        (main e).bytes_count_nopi = (recs.length * 4096) % 2 ^ 64) ∧
      (recs.length * 4104 < 2 ^ 64 →
        (main e).sector_count = recs.length ∧ (main e).bytes_count = recs.length * 4104 ∧
        (main e).bytes_count_nopi = recs.length * 4096) ∧
      (recs.length = 3 →
        (main e).sector_count = 3 ∧ (main e).bytes_count = 12312 ∧
        (main e).bytes_count_nopi = 12288 ∧ (main e).out.length = 12312 ∧
        ∀ j, j < 12312 →
          (main e).out[j]? =
            if (4096 ≤ j ∧ j < 4104) ∨ (8200 ≤ j ∧ j < 8208) ∨ (12304 ≤ j ∧ j < 12312)
            then some 0xff else recs.flatten[j]?)) := by
  constructor
  · constructor
    · intro hrc
      exact success_whole_records e recs hrecs hreads hrc
    · rintro ⟨hs, hw⟩
      exact main_whole_records_rc e recs hs hrecs hreads hw
  · intro hrc
    obtain ⟨hs, hw⟩ := success_whole_records e recs hrecs hreads hrc
    have hc := main_whole_records_counters e recs hs hrecs hreads hw
    have hexact : recs.length * 4104 < 2 ^ 64 →
        (main e).sector_count = recs.length ∧ (main e).bytes_count = recs.length * 4104 ∧
        (main e).bytes_count_nopi = recs.length * 4096 := by
      intro hn
      obtain ⟨b1, b2, b3⟩ := counters_below_wrap recs.length hn
      obtain ⟨c1, c2, c3⟩ := hc
      rw [c1, c2, c3, b1, b2, b3]
      exact ⟨rfl, rfl, rfl⟩
    refine ⟨hc, hexact, ?_⟩
    intro h3
    obtain ⟨c1, c2, c3⟩ := hexact (by rw [h3]; decide)
    rw [h3] at c1 c2 c3
    refine ⟨c1, c2, c3, ?_, ?_⟩
    · rw [main_whole_records_out e recs hs hrecs hreads hw,
        length_flatten_chunks SECTOR_SIZE_WITH_T10PI _
          (overwriteTrailer_wholeRecords recs hrecs), List.length_map, h3]
      rfl
    · intro j hj
      rw [main_whole_records_out_byte e recs hs hrecs hreads hw j (by rw [h3]; omega)]
      by_cases h : 4096 ≤ j % 4104
      · rw [if_pos h, if_pos (by omega)]
      · rw [if_neg h, if_neg (by omega)]

/-- C7, witness: three records of zero bytes; the run is successful. -/
theorem C7_witness :
    WholeRecords (List.replicate 3 zeroRecord) ∧
    (main (longEnv 3)).rc = 0 ∧
    (main (longEnv 3)).sector_count = 3 ∧ (main (longEnv 3)).bytes_count = 12312 ∧
    (main (longEnv 3)).bytes_count_nopi = 12288 ∧ (main (longEnv 3)).out.length = 12312 ∧
    ∀ j, j < 12312 →
      (main (longEnv 3)).out[j]? =
        if (4096 ≤ j ∧ j < 4104) ∨ (8200 ≤ j ∧ j < 8208) ∨ (12304 ≤ j ∧ j < 12312)
        then some 0xff else (List.replicate 3 zeroRecord).flatten[j]? :=
  have h := C7_final_counters (longEnv 3) (List.replicate 3 zeroRecord)
    (wholeRecords_replicate 3) (longEnv_facts 3).2.2.2.1
  have hrc : (main (longEnv 3)).rc = 0 :=
    h.1.mpr ⟨(longEnv_facts 3).1, (longEnv_facts 3).2.2.2.2.1⟩
  ⟨wholeRecords_replicate 3, hrc, (h.2 hrc).2.2 (List.length_replicate 3 zeroRecord)⟩

/-- C7, as stated, fails on a source of 4494820680728449 whole records: the run is
successful, and `bytes_with_trailer` has wrapped to 3080, which is not `n * 4104`. -/
theorem C7_counterexample :
    (main (longEnv 4494820680728449)).rc = 0 ∧
    (main (longEnv 4494820680728449)).bytes_count = 3080 ∧
    (main (longEnv 4494820680728449)).bytes_count ≠ 4494820680728449 * 4104 := by
  obtain ⟨c1, -, c3, -⟩ := longEnv_counters 4494820680728449
  have hb : (main (longEnv 4494820680728449)).bytes_count = 3080 := by
    rw [c3]
    decide
  refine ⟨c1, hb, ?_⟩
  rw [hb]
  decide

/-- C8: the exit code is 0 if and only if the argument count is 3 or 4, the source and the
primary destination both open, and for some `n` the first `n` reads each return exactly
4104 bytes, the primary write of each of these records transfers exactly 4104 bytes, and
the next read returns 0 (an explicit end of stream, or the source has no further result);
in every other case the exit code is 1; and the result of opening the secondary
destination and the results of its writes never change the exit code. -/
theorem C8_exit_code (e : Env) :
    ((main e).rc = 0 ↔
      (e.argc = 3 ∨ e.argc = 4) ∧ 0 ≤ e.open_infile ∧ 0 ≤ e.open_outfile ∧
      ∃ n, (∀ i, i < n → ∃ b, e.reads[i]? = some (ReadResult.data b) ∧ b.length = 4104 ∧
              e.write_outfile i = 4104) ∧
        (e.reads[n]? = none ∨ e.reads[n]? = some (ReadResult.data []))) ∧
    ((main e).rc = 0 ∨ (main e).rc = 1) ∧
    ∀ (open2 : Int) (write2 : Nat → Int),
      (main { e with open_outfile2 := open2, write_outfile2 := write2 }).rc = (main e).rc := by
  refine ⟨?_, main_rc_cases e, ?_⟩
  · rw [main_rc_iff e]
    simp only [Env.Starts, and_assoc]
  · intro open2 write2
    have hiff : (main { e with open_outfile2 := open2, write_outfile2 := write2 }).rc = 0 ↔
        (main e).rc = 0 := by
      rw [main_rc_iff, main_rc_iff e]
      rfl
    rcases main_rc_cases { e with open_outfile2 := open2, write_outfile2 := write2 }
      with h | h
    · rw [h, hiff.mp h]
    · rcases main_rc_cases e with h' | h'
      · rw [hiff.mpr h']
        exact h'.symm
      · rw [h, h']

/-- C9 (amended): a read that returns `-1` is never retried, whatever its error, an
interruption included.  After `n` whole records written in full, such a read ends the run
with exit code 1, where the run on the same records without that read ends with exit code
0; the bytes written to both destinations and the final counters are those of the run
without it; and after it the program only prints the read-error line, the summary and the
failure notice and closes its descriptors: no further `read` or `write` is issued. -/
theorem C9_read_error_not_retried (e : Env) (recs : List (List Byte)) (errno : Nat)
    (rest : List ReadResult) (hstart : e.Starts) (hrecs : WholeRecords recs)
    (hreads : e.reads = recs.map ReadResult.data ++ ReadResult.error errno :: rest)
    (hw : ∀ k, k < recs.length → e.write_outfile k = 4104) :
    (main e).rc = 1 ∧
    (main { e with reads := recs.map ReadResult.data }).rc = 0 ∧
    (main e).out = (main { e with reads := recs.map ReadResult.data }).out ∧
    (main e).out2 = (main { e with reads := recs.map ReadResult.data }).out2 ∧
    (main e).sector_count =
      (main { e with reads := recs.map ReadResult.data }).sector_count ∧
    (main e).bytes_count = (main { e with reads := recs.map ReadResult.data }).bytes_count ∧
    (main e).bytes_count_nopi =
      (main { e with reads := recs.map ReadResult.data }).bytes_count_nopi ∧
    ∃ T, (main e).trace = T ++
      [Event.read (-1), Event.msg Msg.read_error,
        Event.msg (Msg.summary (main e).sector_count (main e).bytes_count_nopi
          (main e).bytes_count),
        Event.close Stream.infile (main e).infile, Event.close Stream.outfile (main e).outfile,
        Event.close Stream.outfile2 (main e).outfile2, Event.msg Msg.failed] := by
  have hw' : ∀ k, k < recs.length → e.write_outfile k = (SECTOR_SIZE_WITH_T10PI : Int) := hw
  have hmain := main_read_error_eq e recs errno rest hstart hrecs hreads hw'
  have hclean := main_whole_records { e with reads := recs.map ReadResult.data } recs hstart
    hrecs rfl hw'
  rw [reads_irrelevant] at hclean
  have hRrc : (runRecords e (start e) recs).rc = 1 := (runRecords_start e recs hrecs hw').2.1
  generalize runRecords e (start e) recs = R at hmain hclean hRrc
  obtain ⟨t1, t2, t3, t4, t5, t6, -⟩ := theend_fields
    { R with trace := R.trace ++ [Event.read (-1), Event.msg Msg.read_error] }
  obtain ⟨u1, u2, u3, u4, u5, u6, -⟩ := theend_fields
    (loop { e with reads := recs.map ReadResult.data } [] R)
  obtain ⟨l1, l2, l3, l4, l5, l6, -⟩ := loop_nil_fields
    { e with reads := recs.map ReadResult.data } R
  obtain ⟨tr, f1, f2, f3⟩ := theend_trace
    { R with trace := R.trace ++ [Event.read (-1), Event.msg Msg.read_error] }
  have hrc : (main e).rc = 1 := by
    rw [hmain, t3]
    exact hRrc
  refine ⟨hrc, ?_, ?_, ?_, ?_, ?_, ?_, R.trace, ?_⟩
  · rw [hclean, u3, l1]
  · rw [hclean, u1, l2, hmain, t1]
  · rw [hclean, u2, l3, hmain, t2]
  · rw [hclean, u4, l4, hmain, t4]
  · rw [hclean, u5, l5, hmain, t5]
  · rw [hclean, u6, l6, hmain, t6]
  · rw [hmain, tr, f1, f2, f3, t4, t5, t6]
    have hne : ({ R with trace := R.trace ++ [Event.read (-1), Event.msg Msg.read_error] } :
        State).rc ≠ 0 := by
      show R.rc ≠ 0
      rw [hRrc]
      decide
    rw [if_pos hne]
    simp

/-- C9, witness: one whole record, then an interrupted read, then another record. -/
theorem C9_witness :
    (goodEnv 4 [ReadResult.data zeroRecord, ReadResult.error EINTR,
      ReadResult.data zeroRecord]).Starts ∧
    WholeRecords [zeroRecord] ∧
    (main (goodEnv 4 [ReadResult.data zeroRecord, ReadResult.error EINTR,
      ReadResult.data zeroRecord])).rc = 1 ∧
    (main (goodEnv 4 [ReadResult.data zeroRecord])).rc = 0 ∧
    (main (goodEnv 4 [ReadResult.data zeroRecord, ReadResult.error EINTR,
      ReadResult.data zeroRecord])).out = (main (goodEnv 4 [ReadResult.data zeroRecord])).out :=
  have h := C9_read_error_not_retried
    (goodEnv 4 [ReadResult.data zeroRecord, ReadResult.error EINTR, ReadResult.data zeroRecord])
    [zeroRecord] EINTR [ReadResult.data zeroRecord] (goodEnv_starts 4 (Or.inr rfl) _)
    (wholeRecords_replicate 1) rfl (fun _ _ => rfl)
  ⟨goodEnv_starts 4 (Or.inr rfl) _, wholeRecords_replicate 1, h.1, h.2.1, h.2.2.1⟩

/-- C9, as stated, fails on the source of one whole record when an interrupted read is
inserted in front of it: without the interrupted read the run copies the record and ends
with exit code 0; with it the run copies nothing and ends with exit code 1. -/
theorem C9_counterexample :
    interruptedEnv.reads =
      ReadResult.error EINTR :: (goodEnv 3 [ReadResult.data zeroRecord]).reads ∧
    (main (goodEnv 3 [ReadResult.data zeroRecord])).rc = 0 ∧
    (main (goodEnv 3 [ReadResult.data zeroRecord])).sector_count = 1 ∧
    (main (goodEnv 3 [ReadResult.data zeroRecord])).out.length = 4104 ∧
    (main interruptedEnv).rc = 1 ∧
    (main interruptedEnv).sector_count = 0 ∧
    (main interruptedEnv).out.length = 0 := by
  have hs := goodEnv_starts 3 (Or.inl rfl) [ReadResult.data zeroRecord]
  have hrc := main_whole_records_rc (goodEnv 3 [ReadResult.data zeroRecord]) [zeroRecord]
    hs (wholeRecords_replicate 1) rfl (fun _ _ => rfl)
  have hcount := main_whole_records_counters (goodEnv 3 [ReadResult.data zeroRecord])
    [zeroRecord] hs (wholeRecords_replicate 1) rfl (fun _ _ => rfl)
  have hlen := main_whole_records_out (goodEnv 3 [ReadResult.data zeroRecord]) [zeroRecord]
    hs (wholeRecords_replicate 1) rfl (fun _ _ => rfl)
  have hbad := main_read_error_eq interruptedEnv [] EINTR [ReadResult.data zeroRecord]
    (goodEnv_starts 3 (Or.inl rfl) _) (by intro r hr; cases hr) rfl
    (by intro k hk; cases hk)
  rw [runRecords_nil] at hbad
  obtain ⟨t1, -, t3, t4, -⟩ := theend_fields { start interruptedEnv with
    trace := (start interruptedEnv).trace ++ [Event.read (-1), Event.msg Msg.read_error] }
  obtain ⟨-, -, s3, -, s5, s6, -⟩ := start_fields interruptedEnv
  refine ⟨rfl, hrc, hcount.1, ?_, ?_, ?_, ?_⟩
  · rw [hlen, List.map_cons, List.map_nil, List.flatten_cons, List.flatten_nil,
      List.append_nil, overwriteTrailer_length, zeroRecord_length]
    rfl
  · rw [hbad, t3]
    exact s5
  · rw [hbad, t4]
    exact s6
  · rw [hbad, t1]
    show (start interruptedEnv).out.length = 0
    rw [s3]
    rfl

/-- C10 (amended): when the primary write of record `k` (after `k` whole records written
in full) transfers anything other than exactly 4104 bytes, processing stops at once: the
exit code is 1; that write is the last `write` of the run (number `k + 1` on the primary
destination) and after it the program only prints the error line, the summary and the
failure notice and closes its descriptors, so no further `read` and no further `write` to
either destination is performed, whatever the source still holds; and the counters are not
incremented for record `k`: they are `k`, `k * 4104` and `k * 4096` modulo `2^64`, hence
exactly these values whenever `k * 4104 < 2^64`. -/
theorem C10_primary_write_failure (e : Env) (recs : List (List Byte)) (r : List Byte)
    (rest : List ReadResult) (hstart : e.Starts) (hrecs : WholeRecords recs)
    (hr : r.length = 4104)
    (hreads : e.reads = recs.map ReadResult.data ++ ReadResult.data r :: rest)
    (hw : ∀ k, k < recs.length → e.write_outfile k = 4104)
    (hfail : e.write_outfile recs.length ≠ 4104) :
    (main e).rc = 1 ∧
    ((main e).sector_count = recs.length % 2 ^ 64 ∧
      (main e).bytes_count = (recs.length * 4104) % 2 ^ 64 ∧
      (main e).bytes_count_nopi = (recs.length * 4096) % 2 ^ 64) ∧
    (recs.length * 4104 < 2 ^ 64 →
      (main e).sector_count = recs.length ∧ (main e).bytes_count = recs.length * 4104 ∧
      (main e).bytes_count_nopi = recs.length * 4096) ∧
    (main e).writes = recs.length + 1 ∧
    (∃ T, (main e).trace = T ++
      [Event.write Stream.outfile (overwriteTrailer r) (e.write_outfile recs.length),
        Event.msg (Msg.short_write (e.write_outfile recs.length)),
        Event.msg (Msg.summary (main e).sector_count (main e).bytes_count_nopi
          (main e).bytes_count),
        Event.close Stream.infile (main e).infile, Event.close Stream.outfile (main e).outfile,
        Event.close Stream.outfile2 (main e).outfile2, Event.msg Msg.failed]) ∧
    main e = main { e with reads := recs.map ReadResult.data ++ [ReadResult.data r] } := by
  have hw' : ∀ k, k < recs.length → e.write_outfile k = (SECTOR_SIZE_WITH_T10PI : Int) := hw
  have hr' : r.length = SECTOR_SIZE_WITH_T10PI := hr
  have hfail' : e.write_outfile recs.length ≠ (SECTOR_SIZE_WITH_T10PI : Int) := hfail
  obtain ⟨hrc, hc1, hc2, hc3⟩ :=
    main_write_fail_count e recs r rest hstart hrecs hr' hreads hw' hfail'
  have hmain := main_write_fail_eq e recs r rest hstart hrecs hr' hreads hw' hfail'
  have hmain2 := main_write_fail_eq
    { e with reads := recs.map ReadResult.data ++ [ReadResult.data r] } recs r [] hstart hrecs
    hr' rfl hw' hfail'
  rw [reads_irrelevant] at hmain2
  have hwrites0 : (runRecords e (start e) recs).writes = recs.length :=
    (runRecords_start e recs hrecs hw').2.2.1
  generalize runRecords e (start e) recs = R at hmain hmain2 hwrites0
  have hoffered : (overwrite (writeSecondary e (doRead (ReadResult.data r) R))).buf.take
      SECTOR_SIZE_WITH_T10PI = overwriteTrailer r := by
    have h1 : (overwrite (writeSecondary e (doRead (ReadResult.data r) R))).buf =
        overwriteTrailer (r ++ R.buf.drop r.length) := by
      simp [overwrite, doRead_buf_data]
    rw [h1]
    exact take_overwriteTrailer_append r _ hr
  have hwrites : (overwrite (writeSecondary e (doRead (ReadResult.data r) R))).writes =
      recs.length := by
    simp [overwrite, hwrites0]
  obtain ⟨p1, -, -, -, -, p6, -, -, p9, -⟩ := writePrimary_fields e
    (overwrite (writeSecondary e (doRead (ReadResult.data r) R)))
  rw [hoffered, hwrites] at p9
  obtain ⟨-, -, -, -, -, -, -, -, -, o10⟩ := overwrite_fields
    (writeSecondary e (doRead (ReadResult.data r) R))
  obtain ⟨-, -, l3, -, -, -, l7, -, -, l10⟩ := log_fields
    (writePrimary e (overwrite (writeSecondary e (doRead (ReadResult.data r) R))))
    (Event.msg (Msg.short_write (e.write_outfile recs.length)))
  obtain ⟨-, -, t3, t4, t5, t6, t7, -⟩ := theend_fields
    ((writePrimary e (overwrite (writeSecondary e (doRead (ReadResult.data r) R)))).log
      (Event.msg (Msg.short_write (e.write_outfile recs.length))))
  obtain ⟨tr, f1, f2, f3⟩ := theend_trace
    ((writePrimary e (overwrite (writeSecondary e (doRead (ReadResult.data r) R)))).log
      (Event.msg (Msg.short_write (e.write_outfile recs.length))))
  refine ⟨hrc, ⟨hc1, hc2, hc3⟩, ?_, ?_, ?_, ?_⟩
  · intro hn
    obtain ⟨b1, b2, b3⟩ := counters_below_wrap recs.length hn
    rw [hc1, hc2, hc3]
    exact ⟨b1, b2, b3⟩
  · rw [hmain, t7, l7, p6, hwrites]
  · refine ⟨(writeSecondary e (doRead (ReadResult.data r) R)).trace, ?_⟩
    have hne : ((writePrimary e (overwrite (writeSecondary e
        (doRead (ReadResult.data r) R)))).log
        (Event.msg (Msg.short_write (e.write_outfile recs.length)))).rc ≠ 0 := by
      rw [← t3, ← hmain, hrc]
      decide
    rw [hmain, tr, f1, f2, f3, t4, t5, t6, if_pos hne, l10, p9, o10]
    simp
  · exact hmain.trans hmain2.symm

/-- C10, witness: two records, the primary write of the second returns 0. -/
theorem C10_witness :
    (failEnv 1).Starts ∧ WholeRecords [zeroRecord] ∧ (failEnv 1).write_outfile 0 = 4104 ∧
    (failEnv 1).write_outfile 1 ≠ 4104 ∧
    (main (failEnv 1)).rc = 1 ∧
    (main (failEnv 1)).sector_count = 1 ∧ (main (failEnv 1)).bytes_count = 4104 ∧
    (main (failEnv 1)).bytes_count_nopi = 4096 ∧ (main (failEnv 1)).writes = 2 :=
  have h := C10_primary_write_failure (failEnv 1) [zeroRecord] zeroRecord []
    (failEnv_facts 1).1 (wholeRecords_replicate 1) zeroRecord_length rfl
    (failEnv_facts 1).2.2.1 (failEnv_facts 1).2.2.2
  have hc := h.2.2.1 (by decide)
  ⟨(failEnv_facts 1).1, wholeRecords_replicate 1, by decide, by decide, h.1,
    hc.1, hc.2.1, hc.2.2, h.2.2.2.1⟩

/-- C10, as stated, fails when the primary write falls short at record
`k = 4494820680728449`: the exit code is 1 and `bytes_with_trailer` has wrapped to 3080,
which is not `k * 4104`. -/
theorem C10_counterexample :
    (failEnv 4494820680728449).write_outfile 4494820680728449 ≠ 4104 ∧
    (main (failEnv 4494820680728449)).rc = 1 ∧
    (main (failEnv 4494820680728449)).bytes_count = 3080 ∧
    (main (failEnv 4494820680728449)).bytes_count ≠ 4494820680728449 * 4104 := by
  obtain ⟨h1, h2, h3, h4⟩ := failEnv_facts 4494820680728449
  obtain ⟨c1, -, c2, -⟩ := main_write_fail_count (failEnv 4494820680728449) _ zeroRecord []
    h1 (wholeRecords_replicate 4494820680728449) zeroRecord_length h2 h3 h4
  rw [List.length_replicate] at c2 h4
  have hb : (main (failEnv 4494820680728449)).bytes_count = 3080 := by
    rw [c2]
    decide
  refine ⟨h4, c1, hb, ?_⟩
  rw [hb]
  decide

/-! ## The shape of every run: whole records, then one way out -/

theorem leadingRecords_whole (e : Env) (rs : List ReadResult) :
    ∀ w, WholeRecords (leadingRecords e w rs) := by
  induction rs with
  | nil => intro w r hr; simp [leadingRecords] at hr
  | cons a rest ih =>
    intro w r hr
    cases a with
    | error errno => simp [leadingRecords] at hr
    | data b =>
      unfold leadingRecords at hr
      split_ifs at hr with h
      · rcases List.mem_cons.mp hr with h1 | h1
        · rw [h1]; exact h.1
        · exact ih (w + 1) r h1
      · simp at hr

theorem leadingRecords_writes (e : Env) (rs : List ReadResult) :
    ∀ w i, i < (leadingRecords e w rs).length →
      e.write_outfile (w + i) = (SECTOR_SIZE_WITH_T10PI : Int) := by
  induction rs with
  | nil => intro w i hi; simp [leadingRecords] at hi
  | cons a rest ih =>
    intro w i hi
    cases a with
    | error errno => simp [leadingRecords] at hi
    | data b =>
      unfold leadingRecords at hi
      split_ifs at hi with h
      · cases i with
        | zero => exact h.2
        | succ i =>
          have := ih (w + 1) i (by simpa using hi)
          rw [← this]
          congr 1
          omega
      · simp at hi

theorem leadingRecords_append (e : Env) (rs : List ReadResult) :
    ∀ w, rs = (leadingRecords e w rs).map ReadResult.data ++
      rs.drop (leadingRecords e w rs).length := by
  induction rs with
  | nil => intro w; simp [leadingRecords]
  | cons a rest ih =>
    intro w
    cases a with
    | error errno => simp [leadingRecords]
    | data b =>
      unfold leadingRecords
      split_ifs with h
      · simp only [List.map_cons, List.length_cons, List.drop_succ_cons, List.cons_append]
        rw [← ih (w + 1)]
      · simp

/-- What follows the completely processed records: nothing, or a `read` result that ends
the run. -/
theorem leadingRecords_stop (e : Env) (rs : List ReadResult) :
    ∀ w, rs.drop (leadingRecords e w rs).length = [] ∨
      (∃ errno rest, rs.drop (leadingRecords e w rs).length = ReadResult.error errno :: rest) ∨
      (∃ b rest, rs.drop (leadingRecords e w rs).length = ReadResult.data b :: rest ∧
        (b.length ≠ SECTOR_SIZE_WITH_T10PI ∨
          e.write_outfile (w + (leadingRecords e w rs).length) ≠
            (SECTOR_SIZE_WITH_T10PI : Int))) := by
  induction rs with
  | nil => intro w; left; rfl
  | cons a rest ih =>
    intro w
    cases a with
    | error errno => right; left; exact ⟨errno, rest, by simp [leadingRecords]⟩
    | data b =>
      unfold leadingRecords
      split_ifs with h
      · simp only [List.length_cons, List.drop_succ_cons]
        have := ih (w + 1)
        rw [show w + ((leadingRecords e (w + 1) rest).length + 1) =
          w + 1 + (leadingRecords e (w + 1) rest).length by omega]
        exact this
      · right; right
        refine ⟨b, rest, by simp, ?_⟩
        simp only [List.length_nil, Nat.add_zero]
        by_cases h1 : b.length = SECTOR_SIZE_WITH_T10PI
        · right
          intro h2
          exact h ⟨h1, h2⟩
        · left; exact h1

/-- Every pass through the loop is a run of completely processed records followed by one
of four ways out: a `read` that returns 0, a `read` that returns `-1`, a short `read`, a
primary `write` that falls short. -/
theorem loop_cases (e : Env) (rs : List ReadResult) (s : State) :
    loop e rs s = loop e [] (runRecords e s (leadingRecords e s.writes rs)) ∨
    (∃ errno, loop e rs s =
      (doRead (ReadResult.error errno) (runRecords e s (leadingRecords e s.writes rs))).log
        (Event.msg Msg.read_error)) ∨
    (∃ tl : List Byte, 0 < tl.length ∧ tl.length ≠ SECTOR_SIZE_WITH_T10PI ∧ loop e rs s =
      (doRead (ReadResult.data tl) (runRecords e s (leadingRecords e s.writes rs))).log
        (Event.msg (Msg.short_read tl.length))) ∨
    (∃ r : List Byte, r.length = SECTOR_SIZE_WITH_T10PI ∧
      e.write_outfile (runRecords e s (leadingRecords e s.writes rs)).writes ≠
        (SECTOR_SIZE_WITH_T10PI : Int) ∧
      loop e rs s =
        (writePrimary e (overwrite (writeSecondary e (doRead (ReadResult.data r)
          (runRecords e s (leadingRecords e s.writes rs)))))).log
          (Event.msg (Msg.short_write
            (e.write_outfile (runRecords e s (leadingRecords e s.writes rs)).writes)))) := by
  have hsplit := leadingRecords_append e rs s.writes
  have hloop : loop e rs s = loop e (rs.drop (leadingRecords e s.writes rs).length)
      (runRecords e s (leadingRecords e s.writes rs)) := by
    conv_lhs => rw [hsplit]
    exact loop_records e _ _ s (leadingRecords_whole e rs s.writes)
      (leadingRecords_writes e rs s.writes)
  have hwrites : (runRecords e s (leadingRecords e s.writes rs)).writes =
      s.writes + (leadingRecords e s.writes rs).length :=
    (runRecords_fields e _ s).1
  rcases leadingRecords_stop e rs s.writes with h | ⟨errno, rest, h⟩ | ⟨b, rest, h, hb⟩
  · left
    rw [hloop, h]
  · right; left
    exact ⟨errno, by rw [hloop, h, loop_read_error]⟩
  · by_cases h0 : b.length = 0
    · left
      have hnil : b = [] := List.length_eq_zero.mp h0
      rw [hloop, h, hnil, loop_eof]
    · by_cases h1 : b.length = SECTOR_SIZE_WITH_T10PI
      · right; right; right
        have hw : e.write_outfile (runRecords e s (leadingRecords e s.writes rs)).writes ≠
            (SECTOR_SIZE_WITH_T10PI : Int) := by
          rw [hwrites]
          rcases hb with hb | hb
          · exact absurd h1 hb
          · exact hb
        exact ⟨b, h1, hw, by rw [hloop, h, loop_write_fail e _ b rest h1 hw]⟩
      · right; right; left
        exact ⟨b, by omega, h1, by rw [hloop, h, loop_short_read e _ b rest (by omega) h1]⟩

/-! ## The trace, one component at a time -/

theorem doRead_trace (r : ReadResult) (s : State) :
    (doRead r s).trace = s.trace ++ [Event.read r.ret] := by
  cases r <;> rfl

theorem writeSecondary_trace (e : Env) (s : State) (r x : List Byte)
    (hr : r.length = SECTOR_SIZE_WITH_T10PI) (hbuf : s.buf = r ++ x) :
    (writeSecondary e s).trace = s.trace ++ secondaryEvents e s r := by
  have htake : s.buf.take SECTOR_SIZE_DATA_ONLY = r.take SECTOR_SIZE_DATA_ONLY := by
    rw [hbuf, List.take_append_of_le_length (by rw [hr]; decide)]
  unfold writeSecondary secondaryEvents
  by_cases h1 : e.argc = 4 ∧ s.outfile2_broken = 0 <;>
    by_cases h2 : e.write_outfile2 s.writes2 = (SECTOR_SIZE_DATA_ONLY : Int) <;>
    simp [h1, h2, State.log, htake]

theorem progress_trace (s : State) : (progress s).trace = s.trace ++ progressEvents s := by
  unfold progress progressEvents
  split_ifs <;> simp [State.log]

/-- The buffer offered to the primary `write` after the record `r` was read. -/
theorem offered_primary (e : Env) (s : State) (r : List Byte)
    (hr : r.length = SECTOR_SIZE_WITH_T10PI) :
    (overwrite (writeSecondary e (doRead (ReadResult.data r) s))).buf.take
      SECTOR_SIZE_WITH_T10PI = overwriteTrailer r := by
  have h1 : (overwrite (writeSecondary e (doRead (ReadResult.data r) s))).buf =
      overwriteTrailer (r ++ s.buf.drop r.length) := by
    simp [overwrite, doRead_buf_data]
  rw [h1]
  exact take_overwriteTrailer_append r _ hr

/-- The events of one pass up to the primary `write`. -/
theorem writePrimary_trace (e : Env) (s : State) (r : List Byte)
    (hr : r.length = SECTOR_SIZE_WITH_T10PI) :
    (writePrimary e (overwrite (writeSecondary e (doRead (ReadResult.data r) s)))).trace =
      s.trace ++ recordEvents e s r := by
  obtain ⟨-, -, -, -, -, -, -, -, p9, -⟩ := writePrimary_fields e
    (overwrite (writeSecondary e (doRead (ReadResult.data r) s)))
  have hw : (overwrite (writeSecondary e (doRead (ReadResult.data r) s))).writes = s.writes := by
    simp [overwrite]
  have hsec := writeSecondary_trace e (doRead (ReadResult.data r) s) r (s.buf.drop r.length) hr
    (doRead_buf_data r s)
  have hsame : secondaryEvents e (doRead (ReadResult.data r) s) r = secondaryEvents e s r := by
    simp [secondaryEvents]
  rw [p9, offered_primary e s r hr, hw, (overwrite_fields _).2.2.2.2.2.2.2.2.2, hsec, hsame,
    doRead_trace]
  simp [recordEvents, ReadResult.ret, hr]

/-- The events of one complete pass. -/
theorem wholeRecord_trace (e : Env) (s : State) (r : List Byte)
    (hr : r.length = SECTOR_SIZE_WITH_T10PI) :
    (wholeRecord e s r).trace =
      s.trace ++ recordEvents e s r ++ progressEvents (wholeRecord e s r) := by
  have hp : progressEvents (wholeRecord e s r) = progressEvents (bumpCounters (writePrimary e
      (overwrite (writeSecondary e (doRead (ReadResult.data r) s))))) := by
    simp [progressEvents, wholeRecord]
  rw [hp]
  unfold wholeRecord
  rw [progress_trace]
  congr 1
  exact writePrimary_trace e s r hr

theorem msgs_append (a b : List Event) : msgs (a ++ b) = msgs a ++ msgs b := by
  simp [msgs, List.filterMap_append]

theorem theend_msgs (s : State) :
    msgs (theend s).trace = msgs s.trace ++
      (Msg.summary s.sector_count s.bytes_count_nopi s.bytes_count ::
        (if s.rc ≠ 0 then [Msg.failed] else [])) := by
  rw [(theend_trace s).1, msgs_append, msgs_append]
  by_cases h : s.rc = 0 <;> simp [msgs, h]

/-! ## Invariants of a run of whole records -/

/-- A property that holds before a run of completely processed records and is kept by each
complete pass holds after the run. -/
theorem runRecords_invariant (e : Env) (I : State → Prop)
    (hstep : ∀ t r, I t → r.length = SECTOR_SIZE_WITH_T10PI →
      e.write_outfile t.writes = (SECTOR_SIZE_WITH_T10PI : Int) → I (wholeRecord e t r))
    (recs : List (List Byte)) : ∀ (s : State), WholeRecords recs →
    (∀ i, i < recs.length → e.write_outfile (s.writes + i) = (SECTOR_SIZE_WITH_T10PI : Int)) →
    I s → I (runRecords e s recs) := by
  induction recs with
  | nil => intro s _ _ h; exact h
  | cons r recs ih =>
    intro s hrecs hw h
    have hr : r.length = SECTOR_SIZE_WITH_T10PI := hrecs r (by simp)
    have hw0 : e.write_outfile s.writes = (SECTOR_SIZE_WITH_T10PI : Int) := by
      simpa using hw 0 (by simp)
    rw [runRecords_cons]
    apply ih
    · intro r' hr'; exact hrecs r' (by simp [hr'])
    · intro i hi
      rw [(wholeRecord_fields e s r).1, Nat.add_assoc, Nat.add_comm 1 i]
      exact hw (i + 1) (by simp; omega)
    · exact hstep s r h hr hw0

/-- The same for the completely processed records of any list of `read` results. -/
theorem leading_invariant (e : Env) (I : State → Prop)
    (hstep : ∀ t r, I t → r.length = SECTOR_SIZE_WITH_T10PI →
      e.write_outfile t.writes = (SECTOR_SIZE_WITH_T10PI : Int) → I (wholeRecord e t r))
    (rs : List ReadResult) (s : State) (h : I s) :
    I (runRecords e s (leadingRecords e s.writes rs)) :=
  runRecords_invariant e I hstep _ s (leadingRecords_whole e rs s.writes)
    (leadingRecords_writes e rs s.writes) h

/-! ## The lines on `stderr` -/

theorem secondaryEvents_msgs (e : Env) (s : State) (r : List Byte) :
    ∀ x ∈ msgs (secondaryEvents e s r), x.isFatal = false ∧ x.isClosing = false := by
  intro x hx
  unfold secondaryEvents at hx
  by_cases h1 : e.argc = 4 ∧ s.outfile2_broken = 0 <;>
    by_cases h2 : e.write_outfile2 s.writes2 = (SECTOR_SIZE_DATA_ONLY : Int) <;>
    simp [h1, h2, msgs] at hx
  subst hx
  exact ⟨rfl, rfl⟩

theorem progressEvents_msgs (s : State) :
    ∀ x ∈ msgs (progressEvents s), x.isFatal = false ∧ x.isClosing = false := by
  intro x hx
  unfold progressEvents at hx
  split_ifs at hx
  · simp [msgs] at hx
    subst hx
    exact ⟨rfl, rfl⟩
  · simp [msgs] at hx

theorem recordEvents_msgs (e : Env) (s : State) (r : List Byte) :
    msgs (recordEvents e s r) = msgs (secondaryEvents e s r) := by
  simp [recordEvents, msgs, List.filterMap_append]

theorem start_trace (e : Env) :
    (start e).trace = [Event.open Stream.infile e.open_infile,
      Event.open Stream.outfile e.open_outfile] ++
      (if e.argc = 4 then Event.open Stream.outfile2 e.open_outfile2 ::
        (if e.open_outfile2 < 0 then [Event.msg (Msg.open_writing_failed 3)] else [])
       else []) ++ [Event.msg Msg.banner] := by
  unfold start openSecondary
  by_cases h1 : e.argc = 4 <;> by_cases h2 : e.open_outfile2 < 0 <;>
    simp [h1, h2, openOutfile, openInfile, init, State.log]

theorem start_msgs (e : Env) :
    ∀ x ∈ msgs (start e).trace, x.isFatal = false ∧ x.isClosing = false := by
  intro x hx
  rw [start_trace] at hx
  by_cases h1 : e.argc = 4 <;> by_cases h2 : e.open_outfile2 < 0 <;>
    simp [h1, h2, msgs] at hx
  · rcases hx with hx | hx <;> subst hx <;> exact ⟨rfl, rfl⟩
  all_goals (subst hx; exact ⟨rfl, rfl⟩)

/-- No fatal line and no closing line is printed while records are processed
completely. -/
theorem leading_msgs (e : Env) (rs : List ReadResult) (s : State)
    (h : ∀ x ∈ msgs s.trace, x.isFatal = false ∧ x.isClosing = false) :
    ∀ x ∈ msgs (runRecords e s (leadingRecords e s.writes rs)).trace,
      x.isFatal = false ∧ x.isClosing = false := by
  apply leading_invariant e
    (fun t => ∀ x ∈ msgs t.trace, x.isFatal = false ∧ x.isClosing = false) _ rs s h
  intro t r ht hr _ x hx
  rw [wholeRecord_trace e t r hr, msgs_append, msgs_append, recordEvents_msgs] at hx
  rcases List.mem_append.mp hx with hx | hx
  · rcases List.mem_append.mp hx with hx | hx
    · exact ht x hx
    · exact secondaryEvents_msgs e t r x hx
  · exact progressEvents_msgs _ x hx

/-! ## The trace of a run that reaches the loop -/

theorem theend_shutdown (s : State) :
    (theend s).trace = s.trace ++ shutdownEvents (theend s) := by
  obtain ⟨tr, f1, f2, f3⟩ := theend_trace s
  obtain ⟨-, -, t3, t4, t5, t6, -⟩ := theend_fields s
  rw [tr]
  simp only [shutdownEvents, f1, f2, f3, t3, t4, t5, t6, List.append_assoc]

theorem loop_nil_trace (e : Env) (s : State) :
    (loop e [] s).trace = s.trace ++ [Event.read 0, Event.msg Msg.success] ∧
    (loop e [] s).rc = 0 := by
  simp [loop, afterLoop, State.log, doRead, ReadResult.ret]

/-- Every run that reaches the loop ends in one of four ways, each visible at the end of
its trace: the last system call before shutdown is the `read` that returned 0, the `read`
that returned `-1`, the short `read`, or the primary `write` that fell short, and the
line that follows it reports exactly that call.  Before it no fatal line and no closing
line is printed. -/
theorem main_trace_cases (e : Env) (hstart : e.Starts) :
    ∃ T : List Event, (∀ x ∈ msgs T, x.isFatal = false ∧ x.isClosing = false) ∧
      (((main e).rc = 0 ∧ (main e).trace =
          T ++ [Event.read 0, Event.msg Msg.success] ++ shutdownEvents (main e)) ∨
       ((main e).rc = 1 ∧ (main e).trace =
          T ++ [Event.read (-1), Event.msg Msg.read_error] ++ shutdownEvents (main e)) ∨
       ((main e).rc = 1 ∧ ∃ n : Nat, 0 < n ∧ n ≠ 4104 ∧ (main e).trace =
          T ++ [Event.read (n : Int), Event.msg (Msg.short_read (n : Int))] ++
            shutdownEvents (main e)) ∨
       ((main e).rc = 1 ∧ ∃ (offered : List Byte) (w : Int), w ≠ 4104 ∧ (main e).trace =
          T ++ [Event.write Stream.outfile offered w, Event.msg (Msg.short_write w)] ++
            shutdownEvents (main e))) := by
  have hquiet := leading_msgs e e.reads (start e) (start_msgs e)
  have hRrc : (runRecords e (start e) (leadingRecords e (start e).writes e.reads)).rc = 1 := by
    rw [(runRecords_fields e _ (start e)).2.1, (start_fields e).2.2.2.2.1]
  have hmain := main_eq_of_starts e hstart
  have hcases := loop_cases e e.reads (start e)
  generalize runRecords e (start e) (leadingRecords e (start e).writes e.reads) = R
    at hquiet hRrc hcases
  rcases hcases with h | ⟨errno, h⟩ | ⟨tl, h0, h1, h⟩ | ⟨r, hr, hw, h⟩
  · refine ⟨R.trace, hquiet, Or.inl ⟨?_, ?_⟩⟩
    · rw [hmain, h, (theend_fields _).2.2.1, (loop_nil_trace e R).2]
    · rw [hmain, h, theend_shutdown, (loop_nil_trace e R).1]
  · refine ⟨R.trace, hquiet, Or.inr (Or.inl ⟨?_, ?_⟩)⟩
    · rw [hmain, h, (theend_fields _).2.2.1, (log_fields _ _).2.2.1]
      simpa using hRrc
    · rw [hmain, h, theend_shutdown, (log_fields _ _).2.2.2.2.2.2.2.2.2, doRead_trace]
      simp [ReadResult.ret]
  · refine ⟨R.trace, hquiet, Or.inr (Or.inr (Or.inl ⟨?_, tl.length, h0, h1, ?_⟩))⟩
    · rw [hmain, h, (theend_fields _).2.2.1, (log_fields _ _).2.2.1]
      simpa using hRrc
    · rw [hmain, h, theend_shutdown, (log_fields _ _).2.2.2.2.2.2.2.2.2, doRead_trace]
      simp [ReadResult.ret]
  · refine ⟨R.trace ++ Event.read (SECTOR_SIZE_WITH_T10PI : Int) :: secondaryEvents e R r, ?_,
      Or.inr (Or.inr (Or.inr ⟨?_, overwriteTrailer r, e.write_outfile R.writes, hw, ?_⟩))⟩
    · intro x hx
      rw [msgs_append] at hx
      rcases List.mem_append.mp hx with hx | hx
      · exact hquiet x hx
      · exact secondaryEvents_msgs e R r x (by simpa [msgs] using hx)
    · rw [hmain, h, (theend_fields _).2.2.1, (log_fields _ _).2.2.1,
        (writePrimary_fields _ _).1, (overwrite_fields _).1]
      simpa using hRrc
    · rw [hmain, h, theend_shutdown, (log_fields _ _).2.2.2.2.2.2.2.2.2,
        writePrimary_trace e R r hr]
      simp [recordEvents]

/-! ## Runs that do not reach the loop -/

theorem main_usage (e : Env) (h : e.argc ≠ 3 ∧ e.argc ≠ 4) :
    main e = (init e).log (Event.msg Msg.usage) := by
  unfold main
  rw [if_pos h]

theorem main_open_infile_failed (e : Env) (hargc : e.argc = 3 ∨ e.argc = 4)
    (h : e.open_infile < 0) :
    main e = (openInfile e (init e)).log (Event.msg Msg.open_reading_failed) := by
  have h1 : ¬ (e.argc ≠ 3 ∧ e.argc ≠ 4) := by
    rcases hargc with h | h <;> simp [h]
  have h2 : (openInfile e (init e)).infile < 0 := by
    simpa [openInfile, State.log] using h
  simp only [main, h1, h2, if_true, if_false]

theorem main_open_outfile_failed (e : Env) (hargc : e.argc = 3 ∨ e.argc = 4)
    (hin : 0 ≤ e.open_infile) (h : e.open_outfile < 0) :
    main e = (openOutfile e (openInfile e (init e))).log
      (Event.msg (Msg.open_writing_failed 2)) := by
  have h1 : ¬ (e.argc ≠ 3 ∧ e.argc ≠ 4) := by
    rcases hargc with h | h <;> simp [h]
  have h2 : ¬ (openInfile e (init e)).infile < 0 := by
    simp [openInfile, State.log, hin]
  have h3 : (openOutfile e (openInfile e (init e))).outfile < 0 := by
    simpa [openOutfile, State.log] using h
  simp only [main, h1, h2, h3, if_true, if_false]

theorem msgs_shutdown (s : State) :
    msgs (shutdownEvents s) = Msg.summary s.sector_count s.bytes_count_nopi s.bytes_count ::
      (if s.rc ≠ 0 then [Msg.failed] else []) := by
  unfold shutdownEvents
  by_cases h : s.rc = 0 <;> simp [msgs, h]

theorem countP_quiet (l : List Msg)
    (h : ∀ x ∈ l, x.isFatal = false ∧ x.isClosing = false) :
    l.countP Msg.isSummary = 0 ∧ l.countP Msg.isFatal = 0 := by
  constructor
  · rw [List.countP_eq_zero]
    intro x hx hs
    have := (h x hx).2
    cases x <;> simp [Msg.isSummary, Msg.isClosing] at hs this
  · rw [List.countP_eq_zero]
    intro x hx hs
    rw [(h x hx).1] at hs
    exact absurd hs (by decide)

/-- C11 (amended): the fatal conditions met in the loop (a `read` that returns `-1`, a
short `read`, a primary `write` that falls short) each produce exactly one fatal line,
printed right after the failing call and reporting it, followed by the final counters
summary and then the failure notice.  Bad usage and failure to open the source or the
primary destination produce exactly one fatal line and nothing after it: no summary and
no failure notice.  So the summary is printed exactly once in every run that reaches the
loop and not at all in the others, and a run prints one fatal line when its exit code is
1 and none when it is 0. -/
theorem C11_diagnostics (e : Env) :
    ((e.argc ≠ 3 ∧ e.argc ≠ 4) → (main e).trace = [Event.msg Msg.usage]) ∧
    ((e.argc = 3 ∨ e.argc = 4) → e.open_infile < 0 →
      (main e).trace =
        [Event.open Stream.infile e.open_infile, Event.msg Msg.open_reading_failed]) ∧
    ((e.argc = 3 ∨ e.argc = 4) → 0 ≤ e.open_infile → e.open_outfile < 0 →
      (main e).trace =
        [Event.open Stream.infile e.open_infile, Event.open Stream.outfile e.open_outfile,
          Event.msg (Msg.open_writing_failed 2)]) ∧
    (e.Starts →
      ∃ T : List Event, (∀ x ∈ msgs T, x.isFatal = false ∧ x.isClosing = false) ∧
        (((main e).rc = 0 ∧ (main e).trace =
            T ++ [Event.read 0, Event.msg Msg.success] ++ shutdownEvents (main e)) ∨
         ((main e).rc = 1 ∧ (main e).trace =
            T ++ [Event.read (-1), Event.msg Msg.read_error] ++ shutdownEvents (main e)) ∨
         ((main e).rc = 1 ∧ ∃ n : Nat, 0 < n ∧ n ≠ 4104 ∧ (main e).trace =
            T ++ [Event.read (n : Int), Event.msg (Msg.short_read (n : Int))] ++
              shutdownEvents (main e)) ∨
         ((main e).rc = 1 ∧ ∃ (offered : List Byte) (w : Int), w ≠ 4104 ∧ (main e).trace =
            T ++ [Event.write Stream.outfile offered w, Event.msg (Msg.short_write w)] ++
              shutdownEvents (main e)))) ∧
    (e.Starts → (msgs (main e).trace).countP Msg.isSummary = 1) ∧
    (¬ e.Starts → (msgs (main e).trace).countP Msg.isSummary = 0) ∧
    (msgs (main e).trace).countP Msg.isFatal = (if (main e).rc = 0 then 0 else 1) := by
  have husage : (e.argc ≠ 3 ∧ e.argc ≠ 4) → (main e).trace = [Event.msg Msg.usage] := by
    intro h
    rw [main_usage e h]
    rfl
  have hin : (e.argc = 3 ∨ e.argc = 4) → e.open_infile < 0 → (main e).trace =
      [Event.open Stream.infile e.open_infile, Event.msg Msg.open_reading_failed] := by
    intro h1 h2
    rw [main_open_infile_failed e h1 h2]
    rfl
  have hout : (e.argc = 3 ∨ e.argc = 4) → 0 ≤ e.open_infile → e.open_outfile < 0 →
      (main e).trace = [Event.open Stream.infile e.open_infile,
        Event.open Stream.outfile e.open_outfile, Event.msg (Msg.open_writing_failed 2)] := by
    intro h1 h2 h3
    rw [main_open_outfile_failed e h1 h2 h3]
    rfl
  have hfatal0 : ¬ e.Starts →
      (msgs (main e).trace).countP Msg.isSummary = 0 ∧
      (msgs (main e).trace).countP Msg.isFatal = (if (main e).rc = 0 then 0 else 1) := by
    intro hs
    rw [main_rc_of_not_starts e hs]
    by_cases h1 : e.argc = 3 ∨ e.argc = 4
    · by_cases h2 : e.open_infile < 0
      · rw [hin h1 h2]
        simp [msgs, Msg.isSummary, Msg.isFatal, List.countP_cons]
      · have h3 : e.open_outfile < 0 := by
          by_contra h3
          exact hs ⟨h1, by omega, by omega⟩
        rw [hout h1 (by omega) h3]
        simp [msgs, Msg.isSummary, Msg.isFatal, List.countP_cons]
    · rw [husage (by omega)]
      simp [msgs, Msg.isSummary, Msg.isFatal, List.countP_cons]
  have hfatal1 : e.Starts →
      (msgs (main e).trace).countP Msg.isSummary = 1 ∧
      (msgs (main e).trace).countP Msg.isFatal = (if (main e).rc = 0 then 0 else 1) := by
    intro hs
    obtain ⟨T, hT, hcases⟩ := main_trace_cases e hs
    obtain ⟨q1, q2⟩ := countP_quiet (msgs T) hT
    rcases hcases with ⟨hrc, htr⟩ | ⟨hrc, htr⟩ | ⟨hrc, n, -, -, htr⟩ | ⟨hrc, off, w, -, htr⟩
    all_goals
      rw [htr, msgs_append, msgs_append, msgs_shutdown, hrc]
      simp only [List.countP_append, q1, q2, Nat.zero_add]
      simp [msgs, Msg.isSummary, Msg.isFatal, List.countP_cons]
  refine ⟨husage, hin, hout, main_trace_cases e, fun hs => (hfatal1 hs).1,
    fun hs => (hfatal0 hs).1, ?_⟩
  by_cases hs : e.Starts
  · exact (hfatal1 hs).2
  · exact (hfatal0 hs).2

/-- C11, witness: one whole record followed by a tail of one byte; the run reaches the
loop and stops at the short read with one fatal line and one summary. -/
theorem C11_witness :
    (tailEnv 1).Starts ∧
    (msgs (main (tailEnv 1)).trace).countP Msg.isSummary = 1 ∧
    (msgs (main (tailEnv 1)).trace).countP Msg.isFatal =
      (if (main (tailEnv 1)).rc = 0 then 0 else 1) :=
  ⟨(tailEnv_facts 1).1, (C11_diagnostics (tailEnv 1)).2.2.2.2.1 (tailEnv_facts 1).1,
    (C11_diagnostics (tailEnv 1)).2.2.2.2.2.2⟩

/-- C11, as stated, fails for bad usage and for a source that cannot be opened: the run
prints its one fatal line and returns 1 at once, without the summary and without the
failure notice. -/
theorem C11_counterexample :
    (main (goodEnv 2 [])).rc = 1 ∧
    (main (goodEnv 2 [])).trace = [Event.msg Msg.usage] ∧
    (msgs (main (goodEnv 2 [])).trace).countP Msg.isSummary = 0 ∧
    (main noSourceEnv).rc = 1 ∧
    (main noSourceEnv).trace =
      [Event.open Stream.infile (-1), Event.msg Msg.open_reading_failed] ∧
    (msgs (main noSourceEnv).trace).countP Msg.isSummary = 0 := by
  decide

/-- C12: when the argument count is neither 3 nor 4, the program prints the usage message
and returns exit code 1, and that is all it does: the trace holds no `open`, `read`,
`write` or `close`, and no byte reaches either destination. -/
theorem C12_usage_error (e : Env) (h : e.argc ≠ 3 ∧ e.argc ≠ 4) :
    (main e).rc = 1 ∧ (main e).trace = [Event.msg Msg.usage] ∧
    (∀ ev ∈ (main e).trace, ev.isSyscall = false) ∧
    (main e).out = [] ∧ (main e).out2 = [] := by
  rw [main_usage e h]
  refine ⟨rfl, rfl, ?_, rfl, rfl⟩
  intro ev hev
  have : ev = Event.msg Msg.usage := by
    simpa [State.log, init] using hev
  rw [this]
  rfl

/-- C12, witness: one user argument, a source that would deliver a record. -/
theorem C12_witness :
    ((goodEnv 2 [ReadResult.data zeroRecord]).argc ≠ 3 ∧
      (goodEnv 2 [ReadResult.data zeroRecord]).argc ≠ 4) ∧
    (main (goodEnv 2 [ReadResult.data zeroRecord])).rc = 1 ∧
    (main (goodEnv 2 [ReadResult.data zeroRecord])).trace = [Event.msg Msg.usage] ∧
    (∀ ev ∈ (main (goodEnv 2 [ReadResult.data zeroRecord])).trace, ev.isSyscall = false) ∧
    (main (goodEnv 2 [ReadResult.data zeroRecord])).out = [] ∧
    (main (goodEnv 2 [ReadResult.data zeroRecord])).out2 = [] :=
  ⟨by decide, C12_usage_error (goodEnv 2 [ReadResult.data zeroRecord]) (by decide)⟩

/-! ## Runs without a secondary destination -/

/-- The state in which a primary `write` fell short, in terms of the state before the
record was read. -/
theorem write_fail_fields (e : Env) (s : State) (r : List Byte) (m : Msg)
    (hr : r.length = SECTOR_SIZE_WITH_T10PI) :
    ((writePrimary e (overwrite (writeSecondary e (doRead (ReadResult.data r) s)))).log
      (Event.msg m)).rc = s.rc ∧
    ((writePrimary e (overwrite (writeSecondary e (doRead (ReadResult.data r) s)))).log
      (Event.msg m)).out = s.out ++ transferred (overwriteTrailer r) (e.write_outfile s.writes) ∧
    ((writePrimary e (overwrite (writeSecondary e (doRead (ReadResult.data r) s)))).log
      (Event.msg m)).sector_count = s.sector_count ∧
    ((writePrimary e (overwrite (writeSecondary e (doRead (ReadResult.data r) s)))).log
      (Event.msg m)).bytes_count = s.bytes_count ∧
    ((writePrimary e (overwrite (writeSecondary e (doRead (ReadResult.data r) s)))).log
      (Event.msg m)).bytes_count_nopi = s.bytes_count_nopi ∧
    ((writePrimary e (overwrite (writeSecondary e (doRead (ReadResult.data r) s)))).log
      (Event.msg m)).writes = s.writes + 1 ∧
    ((writePrimary e (overwrite (writeSecondary e (doRead (ReadResult.data r) s)))).log
      (Event.msg m)).out2 = (writeSecondary e (doRead (ReadResult.data r) s)).out2 ∧
    ((writePrimary e (overwrite (writeSecondary e (doRead (ReadResult.data r) s)))).log
      (Event.msg m)).writes2 = (writeSecondary e (doRead (ReadResult.data r) s)).writes2 ∧
    ((writePrimary e (overwrite (writeSecondary e (doRead (ReadResult.data r) s)))).log
      (Event.msg m)).outfile2_broken =
        (writeSecondary e (doRead (ReadResult.data r) s)).outfile2_broken := by
  obtain ⟨l1, l2, l3, l4, l5, l6, l7, l8, l9, -⟩ := log_fields
    (writePrimary e (overwrite (writeSecondary e (doRead (ReadResult.data r) s)))) (Event.msg m)
  obtain ⟨p1, p2, p3, p4, p5, p6, p7, p8, -, p10⟩ := writePrimary_fields e
    (overwrite (writeSecondary e (doRead (ReadResult.data r) s)))
  obtain ⟨o1, o2, o3, o4, o5, o6, o7, o8, o9, -⟩ := overwrite_fields
    (writeSecondary e (doRead (ReadResult.data r) s))
  obtain ⟨w1, w2, w3, -, w5, w6, w7, -⟩ := writeSecondary_fields e (doRead (ReadResult.data r) s)
  obtain ⟨d1, -, d3, -, d5, -, d7, d8, d9, -⟩ := doRead_fields (ReadResult.data r) s
  rw [l1, l2, l3, l4, l5, l6, l7, l8, l9, p1, p2, p3, p4, p5, p6, p7, p8, p10,
    offered_primary e s r hr, o1, o2, o3, o4, o5, o6, o7, o8, o9, w1, w2, w3, w5, w6, w7,
    d1, d3, d5, d7, d8, d9]
  exact ⟨rfl, rfl, rfl, rfl, rfl, rfl, rfl, rfl, rfl⟩

theorem sameResult_of_fields (s t s' t' : State) (h : s.sameResult t)
    (hs : s'.rc = s.rc ∧ s'.out = s.out ∧ s'.out2 = s.out2 ∧
      s'.sector_count = s.sector_count ∧ s'.bytes_count = s.bytes_count ∧
      s'.bytes_count_nopi = s.bytes_count_nopi ∧ s'.writes = s.writes ∧ s'.writes2 = s.writes2)
    (ht : t'.rc = t.rc ∧ t'.out = t.out ∧ t'.out2 = t.out2 ∧
      t'.sector_count = t.sector_count ∧ t'.bytes_count = t.bytes_count ∧
      t'.bytes_count_nopi = t.bytes_count_nopi ∧ t'.writes = t.writes ∧ t'.writes2 = t.writes2) :
    s'.sameResult t' := by
  obtain ⟨h1, h2, h3, h4, h5, h6, h7, h8⟩ := h
  obtain ⟨a1, a2, a3, a4, a5, a6, a7, a8⟩ := hs
  obtain ⟨b1, b2, b3, b4, b5, b6, b7, b8⟩ := ht
  unfold State.sameResult
  rw [a1, a2, a3, a4, a5, a6, a7, a8, b1, b2, b3, b4, b5, b6, b7, b8]
  exact ⟨h1, h2, h3, h4, h5, h6, h7, h8⟩

/-- Two passes through the loop on the same `read` results and the same primary `write`
results, neither with a secondary destination in use, deliver the same result. -/
theorem loop_secondary_off (e e' : Env) (hwr : e.write_outfile = e'.write_outfile)
    (rs : List ReadResult) : ∀ (s s' : State), s.sameResult s' →
    ¬ (e.argc = 4 ∧ s.outfile2_broken = 0) → ¬ (e'.argc = 4 ∧ s'.outfile2_broken = 0) →
    (loop e rs s).sameResult (loop e' rs s') := by
  have hnil : ∀ (s s' : State), s.sameResult s' →
      (loop e [] s).sameResult (loop e' [] s') := by
    intro s s' h
    obtain ⟨h1, h2, h3, h4, h5, h6, h7, h8⟩ := h
    obtain ⟨a1, a2, a3, a4, a5, a6, a7, a8, -⟩ := loop_nil_fields e s
    obtain ⟨b1, b2, b3, b4, b5, b6, b7, b8, -⟩ := loop_nil_fields e' s'
    unfold State.sameResult
    rw [a1, a2, a3, a4, a5, a6, a7, a8, b1, b2, b3, b4, b5, b6, b7, b8]
    exact ⟨rfl, h2, h3, h4, h5, h6, h7, h8⟩
  induction rs with
  | nil => intro s s' h _ _; exact hnil s s' h
  | cons r rest ih =>
    intro s s' h hoff hoff'
    cases r with
    | error errno =>
      rw [loop_read_error, loop_read_error]
      apply sameResult_of_fields s s' _ _ h
      · obtain ⟨l1, l2, l3, l4, l5, l6, l7, l8, -⟩ := log_fields
          (doRead (ReadResult.error errno) s) (Event.msg Msg.read_error)
        rw [l1, l2, l3, l4, l5, l6, l7, l8]
        simp
      · obtain ⟨l1, l2, l3, l4, l5, l6, l7, l8, -⟩ := log_fields
          (doRead (ReadResult.error errno) s') (Event.msg Msg.read_error)
        rw [l1, l2, l3, l4, l5, l6, l7, l8]
        simp
    | data b =>
      by_cases h0 : b.length = 0
      · have hb : b = [] := List.length_eq_zero.mp h0
        subst hb
        rw [loop_eof, loop_eof]
        exact hnil s s' h
      · by_cases h1 : b.length = SECTOR_SIZE_WITH_T10PI
        · have hoffr : ¬ (e.argc = 4 ∧ (doRead (ReadResult.data b) s).outfile2_broken = 0) := by
            simpa using hoff
          have hoffr' : ¬ (e'.argc = 4 ∧
              (doRead (ReadResult.data b) s').outfile2_broken = 0) := by
            simpa using hoff'
          have hweq : e'.write_outfile s'.writes = e.write_outfile s.writes := by
            rw [hwr, h.2.2.2.2.2.2.1]
          by_cases h2 : e.write_outfile s.writes = (SECTOR_SIZE_WITH_T10PI : Int)
          · have h2' : e'.write_outfile s'.writes = (SECTOR_SIZE_WITH_T10PI : Int) := by
              rw [hweq]; exact h2
            rw [loop_cons_whole e s b rest h1 h2, loop_cons_whole e' s' b rest h1 h2']
            obtain ⟨g1, g2, g3⟩ := wholeRecord_secondary_off e s b hoff
            obtain ⟨g1', g2', g3'⟩ := wholeRecord_secondary_off e' s' b hoff'
            apply ih
            · obtain ⟨f1, f2, -, -, -, f6, f7, f8⟩ := wholeRecord_fields e s b
              obtain ⟨f1', f2', -, -, -, f6', f7', f8'⟩ := wholeRecord_fields e' s' b
              obtain ⟨k1, k2, k3, k4, k5, k6, k7, k8⟩ := h
              unfold State.sameResult
              rw [f1, f2, f6, f7, f8, f1', f2', f6', f7', f8', g1, g2, g1', g2',
                wholeRecord_out e s b h1 h2, wholeRecord_out e' s' b h1 h2',
                k1, k2, k3, k4, k5, k6, k7, k8]
              exact ⟨rfl, rfl, rfl, rfl, rfl, rfl, rfl, rfl⟩
            · rw [g3]; exact hoff
            · rw [g3']; exact hoff'
          · have h2' : e'.write_outfile s'.writes ≠ (SECTOR_SIZE_WITH_T10PI : Int) := by
              rw [hweq]; exact h2
            rw [loop_write_fail e s b rest h1 h2, loop_write_fail e' s' b rest h1 h2']
            obtain ⟨a1, a2, a3, a4, a5, a6, a7, a8, -⟩ := write_fail_fields e s b
              (Msg.short_write (e.write_outfile s.writes)) h1
            obtain ⟨b1, b2, b3, b4, b5, b6, b7, b8, -⟩ := write_fail_fields e' s' b
              (Msg.short_write (e'.write_outfile s'.writes)) h1
            obtain ⟨k1, k2, k3, k4, k5, k6, k7, k8⟩ := h
            unfold State.sameResult
            rw [a1, a2, a3, a4, a5, a6, a7, a8, b1, b2, b3, b4, b5, b6, b7, b8,
              writeSecondary_off e _ hoffr, writeSecondary_off e' _ hoffr', hweq,
              (doRead_fields _ s).2.1, (doRead_fields _ s).2.2.2.1,
              (doRead_fields _ s').2.1, (doRead_fields _ s').2.2.2.1,
              k1, k2, k3, k4, k5, k6, k7, k8]
            exact ⟨rfl, rfl, rfl, rfl, rfl, rfl, rfl, rfl⟩
        · rw [loop_short_read e s b rest (by omega) h1, loop_short_read e' s' b rest (by omega) h1]
          apply sameResult_of_fields s s' _ _ h
          · obtain ⟨l1, l2, l3, l4, l5, l6, l7, l8, -⟩ := log_fields
              (doRead (ReadResult.data b) s) (Event.msg (Msg.short_read b.length))
            rw [l1, l2, l3, l4, l5, l6, l7, l8]
            simp
          · obtain ⟨l1, l2, l3, l4, l5, l6, l7, l8, -⟩ := log_fields
              (doRead (ReadResult.data b) s') (Event.msg (Msg.short_read b.length))
            rw [l1, l2, l3, l4, l5, l6, l7, l8]
            simp

/-! ## Invariants of a whole run -/

/-- A property kept by each complete pass, and carried to the state that reaches `theend`
by each of the four ways out of the loop, holds of that state. -/
theorem loop_invariant (e : Env) (I Q : State → Prop)
    (hstep : ∀ t r, I t → r.length = SECTOR_SIZE_WITH_T10PI →
      e.write_outfile t.writes = (SECTOR_SIZE_WITH_T10PI : Int) → I (wholeRecord e t r))
    (heof : ∀ R, I R → Q (loop e [] R))
    (herr : ∀ R errno, I R →
      Q ((doRead (ReadResult.error errno) R).log (Event.msg Msg.read_error)))
    (hshort : ∀ R (tl : List Byte), I R → 0 < tl.length → tl.length ≠ SECTOR_SIZE_WITH_T10PI →
      Q ((doRead (ReadResult.data tl) R).log (Event.msg (Msg.short_read tl.length))))
    (hfail : ∀ R (r : List Byte), I R → r.length = SECTOR_SIZE_WITH_T10PI →
      e.write_outfile R.writes ≠ (SECTOR_SIZE_WITH_T10PI : Int) →
      Q ((writePrimary e (overwrite (writeSecondary e (doRead (ReadResult.data r) R)))).log
        (Event.msg (Msg.short_write (e.write_outfile R.writes)))))
    (rs : List ReadResult) (s : State) (h : I s) : Q (loop e rs s) := by
  have hR := leading_invariant e I hstep rs s h
  rcases loop_cases e rs s with hc | ⟨errno, hc⟩ | ⟨tl, h0, h1, hc⟩ | ⟨r, hr, hw, hc⟩
  · rw [hc]; exact heof _ hR
  · rw [hc]; exact herr _ errno hR
  · rw [hc]; exact hshort _ tl hR h0 h1
  · rw [hc]; exact hfail _ r hR hr hw

theorem countP_secondaryEvents (e : Env) (s : State) (r : List Byte) :
    (secondaryEvents e s r).countP Event.isWrite2 =
      if e.argc = 4 ∧ s.outfile2_broken = 0 then 1 else 0 := by
  unfold secondaryEvents
  by_cases h1 : e.argc = 4 ∧ s.outfile2_broken = 0 <;>
    by_cases h2 : e.write_outfile2 s.writes2 = (SECTOR_SIZE_DATA_ONLY : Int) <;>
    simp [h1, h2, Event.isWrite2, List.countP_cons]

theorem writeSecondary_writes2 (e : Env) (s : State) :
    (writeSecondary e s).writes2 =
      s.writes2 + (if e.argc = 4 ∧ s.outfile2_broken = 0 then 1 else 0) := by
  unfold writeSecondary
  by_cases h1 : e.argc = 4 ∧ s.outfile2_broken = 0 <;>
    by_cases h2 : e.write_outfile2 s.writes2 = (SECTOR_SIZE_DATA_ONLY : Int) <;>
    simp [h1, h2, State.log]

theorem countP_recordEvents (e : Env) (s : State) (r : List Byte) :
    (recordEvents e s r).countP Event.isWrite2 =
      if e.argc = 4 ∧ s.outfile2_broken = 0 then 1 else 0 := by
  unfold recordEvents
  rw [List.countP_cons, List.countP_append, countP_secondaryEvents]
  simp [Event.isWrite2, List.countP_cons]

theorem countP_progressEvents (s : State) :
    (progressEvents s).countP Event.isWrite2 = 0 := by
  unfold progressEvents
  split_ifs <;> simp [Event.isWrite2, List.countP_cons]

theorem countP_shutdownEvents (s : State) :
    (shutdownEvents s).countP Event.isWrite2 = 0 := by
  unfold shutdownEvents
  by_cases h : s.rc = 0 <;> simp [h, Event.isWrite2, List.countP_cons]

theorem wholeRecord_writes2 (e : Env) (s : State) (r : List Byte) :
    (wholeRecord e s r).writes2 =
      s.writes2 + (if e.argc = 4 ∧ s.outfile2_broken = 0 then 1 else 0) := by
  have h := writeSecondary_writes2 e (doRead (ReadResult.data r) s)
  simp only [doRead_fields] at h
  simp only [wholeRecord, progress_fields, bumpCounters, writePrimary, overwrite]
  exact h

/-- The ghost counter `writes2` is the number of `write` calls on the secondary
destination in the trace, at the end of every pass through the loop. -/
theorem loop_writes2_count (e : Env) (rs : List ReadResult) (s : State)
    (h : s.trace.countP Event.isWrite2 = s.writes2) :
    (loop e rs s).trace.countP Event.isWrite2 = (loop e rs s).writes2 := by
  apply loop_invariant e (fun t => t.trace.countP Event.isWrite2 = t.writes2)
    (fun t => t.trace.countP Event.isWrite2 = t.writes2) _ _ _ _ _ rs s h
  · intro t r ht hr _
    rw [wholeRecord_trace e t r hr, List.countP_append, List.countP_append, ht,
      countP_recordEvents, countP_progressEvents, wholeRecord_writes2]
    rfl
  · intro R hR
    rw [(loop_nil_trace e R).1, List.countP_append, hR, (loop_nil_fields e R).2.2.2.2.2.2.2.1]
    simp [Event.isWrite2, List.countP_cons]
  · intro R errno hR
    rw [(log_fields _ _).2.2.2.2.2.2.2.2.2, (log_fields _ _).2.2.2.2.2.2.2.1, doRead_trace,
      List.countP_append, List.countP_append, hR]
    simp [Event.isWrite2, List.countP_cons]
  · intro R tl hR _ _
    rw [(log_fields _ _).2.2.2.2.2.2.2.2.2, (log_fields _ _).2.2.2.2.2.2.2.1, doRead_trace,
      List.countP_append, List.countP_append, hR]
    simp [Event.isWrite2, List.countP_cons]
  · intro R r hR hr _
    have hw2 := writeSecondary_writes2 e (doRead (ReadResult.data r) R)
    simp only [doRead_fields] at hw2
    rw [(log_fields _ _).2.2.2.2.2.2.2.2.2, (write_fail_fields e R r _ hr).2.2.2.2.2.2.2.1,
      writePrimary_trace e R r hr, List.countP_append, List.countP_append, hR,
      countP_recordEvents, hw2]
    simp [Event.isWrite2, List.countP_cons]

/-- In every run the ghost counter `writes2` is the number of `write` calls on the
secondary destination in the trace. -/
theorem main_writes2_count (e : Env) :
    (main e).trace.countP Event.isWrite2 = (main e).writes2 := by
  by_cases hs : e.Starts
  · rw [main_eq_of_starts e hs, theend_shutdown, List.countP_append, countP_shutdownEvents,
      (theend_fields _).2.2.2.2.2.2.2.1, Nat.add_zero]
    apply loop_writes2_count
    rw [start_trace, (start_fields e).2.1]
    by_cases h1 : e.argc = 4 <;> by_cases h2 : e.open_outfile2 < 0 <;>
      simp [h1, h2, Event.isWrite2, List.countP_cons, List.countP_append]
  · by_cases h1 : e.argc = 3 ∨ e.argc = 4
    · by_cases h2 : e.open_infile < 0
      · rw [main_open_infile_failed e h1 h2]
        rfl
      · have h3 : e.open_outfile < 0 := by
          by_contra h3
          exact hs ⟨h1, by omega, by omega⟩
        rw [main_open_outfile_failed e h1 (by omega) h3]
        rfl
    · rw [main_usage e (by omega)]
      rfl

/-- While the secondary destination is not in use, no pass through the loop writes to
it. -/
theorem loop_off_writes2 (e : Env) (rs : List ReadResult) (s : State)
    (hoff : ¬ (e.argc = 4 ∧ s.outfile2_broken = 0)) :
    (loop e rs s).writes2 = s.writes2 ∧ (loop e rs s).out2 = s.out2 := by
  apply loop_invariant e
    (fun t => ¬ (e.argc = 4 ∧ t.outfile2_broken = 0) ∧ t.writes2 = s.writes2 ∧ t.out2 = s.out2)
    (fun t => t.writes2 = s.writes2 ∧ t.out2 = s.out2) _ _ _ _ _ rs s ⟨hoff, rfl, rfl⟩
  · intro t r ⟨h1, h2, h3⟩ _ _
    obtain ⟨g1, g2, g3⟩ := wholeRecord_secondary_off e t r h1
    rw [g1, g2, g3]
    exact ⟨h1, h2, h3⟩
  · intro R ⟨_, h2, h3⟩
    obtain ⟨-, -, l3, -, -, -, -, l8, -⟩ := loop_nil_fields e R
    rw [l3, l8]
    exact ⟨h2, h3⟩
  · intro R errno ⟨_, h2, h3⟩
    rw [(log_fields _ _).2.2.2.2.2.2.2.1, (log_fields _ _).2.1]
    simpa using ⟨h2, h3⟩
  · intro R tl ⟨_, h2, h3⟩ _ _
    rw [(log_fields _ _).2.2.2.2.2.2.2.1, (log_fields _ _).2.1]
    simpa using ⟨h2, h3⟩
  · intro R r ⟨h1, h2, h3⟩ hr _
    have hoffr : ¬ (e.argc = 4 ∧ (doRead (ReadResult.data r) R).outfile2_broken = 0) := by
      simpa using h1
    obtain ⟨-, -, -, -, -, -, a7, a8, -⟩ := write_fail_fields e R r
      (Msg.short_write (e.write_outfile R.writes)) hr
    rw [a7, a8, writeSecondary_off e _ hoffr]
    simpa using ⟨h2, h3⟩

/-- C13: a run with a third argument whose secondary destination cannot be opened issues
no `write` to the secondary destination and transfers no byte to it, and it delivers the
same primary output bytes, the same final counters and the same exit code as the run with
only two arguments, whatever the source delivers and the primary writes return. -/
theorem C13_secondary_open_failure (e : Env) (hargc : e.argc = 4)
    (hopen2 : e.open_outfile2 < 0) :
    (∀ ev ∈ (main e).trace, ev.isWrite2 = false) ∧ (main e).out2 = [] ∧
    (main e).out = (main { e with argc := 3 }).out ∧
    (main e).sector_count = (main { e with argc := 3 }).sector_count ∧
    (main e).bytes_count = (main { e with argc := 3 }).bytes_count ∧
    (main e).bytes_count_nopi = (main { e with argc := 3 }).bytes_count_nopi ∧
    (main e).rc = (main { e with argc := 3 }).rc := by
  have hargc' : ({ e with argc := 3 } : Env).argc = 3 ∨ ({ e with argc := 3 } : Env).argc = 4 :=
    Or.inl rfl
  by_cases hs : e.Starts
  · have hs' : ({ e with argc := 3 } : Env).Starts := ⟨Or.inl rfl, hs.2.1, hs.2.2⟩
    have hbroken : (start e).outfile2_broken = -1 := by
      rw [start_broken, if_neg (by omega)]
    have hoff : ¬ (e.argc = 4 ∧ (start e).outfile2_broken = 0) := by
      rw [hbroken]
      intro h
      exact absurd h.2 (by decide)
    have hoff' : ¬ (({ e with argc := 3 } : Env).argc = 4 ∧
        (start { e with argc := 3 }).outfile2_broken = 0) := by
      intro h
      have h3 : (3 : Int) = 4 := h.1
      omega
    have hsame : (start e).sameResult (start { e with argc := 3 }) := by
      obtain ⟨a1, a2, a3, a4, a5, a6, a7, a8, -⟩ := start_fields e
      obtain ⟨b1, b2, b3, b4, b5, b6, b7, b8, -⟩ := start_fields { e with argc := 3 }
      unfold State.sameResult
      rw [a1, a2, a3, a4, a5, a6, a7, a8, b1, b2, b3, b4, b5, b6, b7, b8]
      exact ⟨rfl, rfl, rfl, rfl, rfl, rfl, rfl, rfl⟩
    obtain ⟨k1, k2, -, k4, k5, k6, -, -⟩ :=
      loop_secondary_off e { e with argc := 3 } rfl e.reads _ _ hsame hoff hoff'
    obtain ⟨w1, w2⟩ := loop_off_writes2 e e.reads (start e) hoff
    have hcount := main_writes2_count e
    rw [main_eq_of_starts e hs] at hcount ⊢
    rw [main_eq_of_starts _ hs']
    obtain ⟨t1, t2, t3, t4, t5, t6, -, t8, -⟩ := theend_fields (loop e e.reads (start e))
    obtain ⟨u1, -, u3, u4, u5, u6, -⟩ := theend_fields
      (loop { e with argc := 3 } e.reads (start { e with argc := 3 }))
    rw [t8, w1, (start_fields e).2.1] at hcount
    refine ⟨?_, ?_, ?_, ?_, ?_, ?_, ?_⟩
    · intro ev hev
      have := List.countP_eq_zero.mp hcount ev hev
      simpa using this
    · rw [t2, w2, (start_fields e).2.2.2.1]
    · rw [t1, k2]
      exact u1.symm
    · rw [t4, k4]
      exact u4.symm
    · rw [t5, k5]
      exact u5.symm
    · rw [t6, k6]
      exact u6.symm
    · rw [t3, k1]
      exact u3.symm
  · have hs' : ¬ ({ e with argc := 3 } : Env).Starts := by
      intro h
      exact hs ⟨Or.inr hargc, h.2.1, h.2.2⟩
    by_cases h2 : e.open_infile < 0
    · rw [main_open_infile_failed e (Or.inr hargc) h2,
        main_open_infile_failed { e with argc := 3 } hargc' h2]
      refine ⟨?_, rfl, rfl, rfl, rfl, rfl, rfl⟩
      intro ev hev
      simp [State.log, openInfile, init] at hev
      rcases hev with h | h <;> rw [h] <;> rfl
    · have h3 : e.open_outfile < 0 := by
        by_contra h3
        exact hs ⟨Or.inr hargc, by omega, by omega⟩
      have h2' : 0 ≤ e.open_infile := by omega
      rw [main_open_outfile_failed e (Or.inr hargc) h2' h3,
        main_open_outfile_failed { e with argc := 3 } hargc' h2' h3]
      refine ⟨?_, rfl, rfl, rfl, rfl, rfl, rfl⟩
      intro ev hev
      simp [State.log, openInfile, openOutfile, init] at hev
      rcases hev with h | h | h <;> rw [h] <;> rfl

/-- C13, witness: one whole record, a third argument whose destination cannot be
opened. -/
theorem C13_witness :
    unopenedSecondaryEnv.argc = 4 ∧ unopenedSecondaryEnv.open_outfile2 < 0 ∧
    ((∀ ev ∈ (main unopenedSecondaryEnv).trace, ev.isWrite2 = false) ∧
    (main unopenedSecondaryEnv).out2 = [] ∧
    (main unopenedSecondaryEnv).out = (main { unopenedSecondaryEnv with argc := 3 }).out ∧
    (main unopenedSecondaryEnv).sector_count =
      (main { unopenedSecondaryEnv with argc := 3 }).sector_count ∧
    (main unopenedSecondaryEnv).bytes_count =
      (main { unopenedSecondaryEnv with argc := 3 }).bytes_count ∧
    (main unopenedSecondaryEnv).bytes_count_nopi =
      (main { unopenedSecondaryEnv with argc := 3 }).bytes_count_nopi ∧
    (main unopenedSecondaryEnv).rc = (main { unopenedSecondaryEnv with argc := 3 }).rc) :=
  ⟨rfl, by decide, C13_secondary_open_failure unopenedSecondaryEnv rfl (by decide)⟩

/-! ## The secondary destination once a write to it has fallen short -/

theorem write2Rets_append (a b : List Event) :
    write2Rets (a ++ b) = write2Rets a ++ write2Rets b := by
  simp [write2Rets, List.filterMap_append]

theorem write2Rets_secondaryEvents (e : Env) (s : State) (r : List Byte) :
    write2Rets (secondaryEvents e s r) =
      if e.argc = 4 ∧ s.outfile2_broken = 0 then [e.write_outfile2 s.writes2] else [] := by
  unfold secondaryEvents
  by_cases h1 : e.argc = 4 ∧ s.outfile2_broken = 0 <;>
    by_cases h2 : e.write_outfile2 s.writes2 = (SECTOR_SIZE_DATA_ONLY : Int) <;>
    simp [h1, h2, write2Rets]

theorem write2Rets_recordEvents (e : Env) (s : State) (r : List Byte) :
    write2Rets (recordEvents e s r) =
      if e.argc = 4 ∧ s.outfile2_broken = 0 then [e.write_outfile2 s.writes2] else [] := by
  unfold recordEvents
  rw [← write2Rets_secondaryEvents e s r]
  simp [write2Rets, List.filterMap_append]

theorem write2Rets_progressEvents (s : State) : write2Rets (progressEvents s) = [] := by
  unfold progressEvents
  split_ifs <;> simp [write2Rets]

theorem write2Rets_shutdownEvents (s : State) : write2Rets (shutdownEvents s) = [] := by
  unfold shutdownEvents
  by_cases h : s.rc = 0 <;> simp [h, write2Rets]

theorem writeSecondary_broken (e : Env) (s : State) :
    (writeSecondary e s).outfile2_broken =
      if (e.argc = 4 ∧ s.outfile2_broken = 0) ∧
          e.write_outfile2 s.writes2 ≠ (SECTOR_SIZE_DATA_ONLY : Int)
      then 1 else s.outfile2_broken := by
  unfold writeSecondary
  by_cases h1 : e.argc = 4 ∧ s.outfile2_broken = 0 <;>
    by_cases h2 : e.write_outfile2 s.writes2 = (SECTOR_SIZE_DATA_ONLY : Int) <;>
    simp [h1, h2, State.log]

theorem wholeRecord_broken (e : Env) (s : State) (r : List Byte) :
    (wholeRecord e s r).outfile2_broken =
      if (e.argc = 4 ∧ s.outfile2_broken = 0) ∧
          e.write_outfile2 s.writes2 ≠ (SECTOR_SIZE_DATA_ONLY : Int)
      then 1 else s.outfile2_broken := by
  have h := writeSecondary_broken e (doRead (ReadResult.data r) s)
  simp only [doRead_fields] at h
  simp only [wholeRecord, progress_fields, bumpCounters, writePrimary, overwrite]
  exact h

theorem mem_dropLast_append_singleton (l : List Int) (a : Int) :
    (l ++ [a]).dropLast = l := by
  simp

/-- In every pass through the loop, every `write` on the secondary destination except
possibly the last one returned 4096. -/
theorem loop_write2Rets (e : Env) (rs : List ReadResult) (s : State)
    (h : (∀ x ∈ write2Rets s.trace, x = 4096) ∨
      (¬ (e.argc = 4 ∧ s.outfile2_broken = 0) ∧
        ∀ x ∈ (write2Rets s.trace).dropLast, x = 4096)) :
    ∀ x ∈ (write2Rets (loop e rs s).trace).dropLast, x = 4096 := by
  have hweak : ∀ t : State, ((∀ x ∈ write2Rets t.trace, x = 4096) ∨
      (¬ (e.argc = 4 ∧ t.outfile2_broken = 0) ∧
        ∀ x ∈ (write2Rets t.trace).dropLast, x = 4096)) →
      ∀ x ∈ (write2Rets t.trace).dropLast, x = 4096 := by
    intro t ht x hx
    rcases ht with ht | ht
    · exact ht x (List.mem_of_mem_dropLast hx)
    · exact ht.2 x hx
  apply loop_invariant e
    (fun t => (∀ x ∈ write2Rets t.trace, x = 4096) ∨
      (¬ (e.argc = 4 ∧ t.outfile2_broken = 0) ∧
        ∀ x ∈ (write2Rets t.trace).dropLast, x = 4096))
    (fun t => ∀ x ∈ (write2Rets t.trace).dropLast, x = 4096) _ _ _ _ _ rs s h
  · intro t r ht hr _
    rw [wholeRecord_trace e t r hr, write2Rets_append, write2Rets_append,
      write2Rets_recordEvents, write2Rets_progressEvents, List.append_nil, wholeRecord_broken]
    by_cases hc : e.argc = 4 ∧ t.outfile2_broken = 0
    · rw [if_pos hc]
      have hall : ∀ x ∈ write2Rets t.trace, x = 4096 := by
        rcases ht with ht | ht
        · exact ht
        · exact absurd hc ht.1
      by_cases hw : e.write_outfile2 t.writes2 = (SECTOR_SIZE_DATA_ONLY : Int)
      · left
        intro x hx
        rcases List.mem_append.mp hx with hx | hx
        · exact hall x hx
        · rw [List.mem_singleton.mp hx, hw]
          rfl
      · right
        rw [if_pos ⟨hc, hw⟩, mem_dropLast_append_singleton]
        refine ⟨?_, hall⟩
        intro h1
        exact absurd h1.2 (by decide)
    · rw [if_neg hc, List.append_nil, if_neg (fun h1 => hc h1.1)]
      exact ht
  · intro R hR
    rw [(loop_nil_trace e R).1, write2Rets_append]
    simpa [write2Rets] using hweak R hR
  · intro R errno hR
    rw [(log_fields _ _).2.2.2.2.2.2.2.2.2, doRead_trace, write2Rets_append, write2Rets_append]
    simpa [write2Rets] using hweak R hR
  · intro R tl hR _ _
    rw [(log_fields _ _).2.2.2.2.2.2.2.2.2, doRead_trace, write2Rets_append, write2Rets_append]
    simpa [write2Rets] using hweak R hR
  · intro R r hR hr _
    rw [(log_fields _ _).2.2.2.2.2.2.2.2.2, writePrimary_trace e R r hr, write2Rets_append,
      write2Rets_append, write2Rets_recordEvents]
    by_cases hc : e.argc = 4 ∧ R.outfile2_broken = 0
    · rw [if_pos hc]
      have hall : ∀ x ∈ write2Rets R.trace, x = 4096 := by
        rcases hR with hR | hR
        · exact hR
        · exact absurd hc hR.1
      simpa [write2Rets] using hall
    · rw [if_neg hc]
      simpa [write2Rets] using hweak R hR

/-- In every run, every `write` on the secondary destination except possibly the last one
returned 4096. -/
theorem main_write2Rets (e : Env) :
    ∀ x ∈ (write2Rets (main e).trace).dropLast, x = 4096 := by
  by_cases hs : e.Starts
  · rw [main_eq_of_starts e hs, theend_shutdown, write2Rets_append, write2Rets_shutdownEvents,
      List.append_nil]
    apply loop_write2Rets
    left
    rw [start_trace]
    by_cases h1 : e.argc = 4 <;> by_cases h2 : e.open_outfile2 < 0 <;>
      simp [h1, h2, write2Rets]
  · by_cases h1 : e.argc = 3 ∨ e.argc = 4
    · by_cases h2 : e.open_infile < 0
      · rw [main_open_infile_failed e h1 h2]
        simp [State.log, openInfile, init, write2Rets]
      · have h3 : e.open_outfile < 0 := by
          by_contra h3
          exact hs ⟨h1, by omega, by omega⟩
        rw [main_open_outfile_failed e h1 (by omega) h3]
        simp [State.log, openInfile, openOutfile, init, write2Rets]
    · rw [main_usage e (by omega)]
      simp [State.log, init, write2Rets]

theorem runRecords_append (e : Env) (s : State) (a b : List (List Byte)) :
    runRecords e s (a ++ b) = runRecords e (runRecords e s a) b := by
  unfold runRecords
  rw [List.foldl_append]

/-- A source of whole records, all primary writes complete, the secondary destination in
use and its `write` number `pre.length` the first to fall short: the secondary
destination is written `pre.length + 1` times and then left alone. -/
theorem main_secondary_fails (e : Env) (pre post : List (List Byte)) (r : List Byte)
    (hstart : e.Starts) (hargc : e.argc = 4) (hopen2 : 0 ≤ e.open_outfile2)
    (hrecs : WholeRecords (pre ++ r :: post))
    (hreads : e.reads = (pre ++ r :: post).map ReadResult.data)
    (hw : ∀ k, k < (pre ++ r :: post).length →
      e.write_outfile k = (SECTOR_SIZE_WITH_T10PI : Int))
    (hw2 : ∀ i, i < pre.length → e.write_outfile2 i = (SECTOR_SIZE_DATA_ONLY : Int))
    (hfail : e.write_outfile2 pre.length ≠ (SECTOR_SIZE_DATA_ONLY : Int)) :
    (main e).writes2 = pre.length + 1 ∧ (main e).outfile2_broken = 1 ∧
    (main e).writes = (pre ++ r :: post).length := by
  have hpre : WholeRecords pre := fun x hx => hrecs x (by simp [hx])
  have hb : (start e).outfile2_broken = 0 := by
    rw [start_broken, if_pos ⟨hargc, hopen2⟩]
  obtain ⟨-, a2, a3⟩ := runRecords_secondary_ok e pre (start e) hpre hargc hb
    (by intro i hi; rw [(start_fields e).2.1, Nat.zero_add]; exact hw2 i hi)
  rw [(start_fields e).2.1, Nat.zero_add] at a2
  have hcond : e.argc = 4 ∧ (runRecords e (start e) pre).outfile2_broken = 0 := ⟨hargc, a3⟩
  have hfail' : e.write_outfile2 (runRecords e (start e) pre).writes2 ≠
      (SECTOR_SIZE_DATA_ONLY : Int) := by
    rw [a2]; exact hfail
  have b2 : (wholeRecord e (runRecords e (start e) pre) r).writes2 = pre.length + 1 := by
    rw [wholeRecord_writes2, if_pos hcond, a2]
  have b3 : (wholeRecord e (runRecords e (start e) pre) r).outfile2_broken = 1 := by
    rw [wholeRecord_broken, if_pos ⟨hcond, hfail'⟩]
  have hoff : ¬ (e.argc = 4 ∧
      (wholeRecord e (runRecords e (start e) pre) r).outfile2_broken = 0) := by
    rw [b3]
    intro h
    exact absurd h.2 (by decide)
  obtain ⟨-, c2, c3⟩ := runRecords_secondary_off e post _ hoff
  have hR : runRecords e (start e) (pre ++ r :: post) =
      runRecords e (wholeRecord e (runRecords e (start e) pre) r) post := by
    rw [runRecords_append, runRecords_cons]
  obtain ⟨-, -, -, -, -, -, t7, t8, t9⟩ := theend_fields
    (loop e [] (runRecords e (start e) (pre ++ r :: post)))
  obtain ⟨-, -, -, -, -, -, l7, l8, l9⟩ := loop_nil_fields e
    (runRecords e (start e) (pre ++ r :: post))
  rw [main_whole_records e _ hstart hrecs hreads hw, t7, t8, t9, l7, l8, l9,
    (runRecords_start e _ hrecs hw).2.2.1, hR, c2, c3, b2, b3]
  exact ⟨rfl, rfl, rfl⟩

/-- C14: a `write` on the secondary destination that returned anything other than 4096
is the last `write` on the secondary destination in the trace of the run.  And the run
goes on: over a source of whole records whose primary writes all complete, when the
secondary write of record `pre.length` is the first to fall short, the secondary
destination is written exactly `pre.length + 1` times and is marked broken, while every
record is still read and written to the primary destination and the exit code is 0. -/
theorem C14_secondary_disabled (e : Env) :
    (∀ (A B : List Event) (offered : List Byte) (ret : Int),
      (main e).trace = A ++ Event.write Stream.outfile2 offered ret :: B → ret ≠ 4096 →
      ∀ ev ∈ B, ev.isWrite2 = false) ∧
    (∀ (pre post : List (List Byte)) (r : List Byte),
      e.Starts → e.argc = 4 → 0 ≤ e.open_outfile2 →
      WholeRecords (pre ++ r :: post) →
      e.reads = (pre ++ r :: post).map ReadResult.data →
      (∀ k, k < (pre ++ r :: post).length → e.write_outfile k = 4104) →
      (∀ i, i < pre.length → e.write_outfile2 i = 4096) →
      e.write_outfile2 pre.length ≠ 4096 →
      (main e).trace.countP Event.isWrite2 = pre.length + 1 ∧
      (main e).outfile2_broken = 1 ∧
      (main e).writes = (pre ++ r :: post).length ∧
      (main e).out = ((pre ++ r :: post).map overwriteTrailer).flatten ∧
      (main e).rc = 0) := by
  constructor
  · intro A B offered ret htrace hret ev hev
    have hall := main_write2Rets e
    rw [htrace, write2Rets_append] at hall
    have hcons : write2Rets (Event.write Stream.outfile2 offered ret :: B) =
        ret :: write2Rets B := by
      simp [write2Rets]
    rw [hcons] at hall
    cases hB : write2Rets B with
    | nil =>
      cases hev2 : ev.isWrite2 with
      | false => rfl
      | true =>
        exfalso
        cases ev with
        | write st off w =>
          cases st with
          | outfile2 =>
            have hmem : w ∈ write2Rets B := by
              unfold write2Rets
              rw [List.mem_filterMap]
              exact ⟨_, hev, rfl⟩
            rw [hB] at hmem
            cases hmem
          | _ => simp [Event.isWrite2] at hev2
        | _ => simp [Event.isWrite2] at hev2
    | cons b bs =>
      exfalso
      rw [hB] at hall
      have hmem : ret ∈ (write2Rets A ++ ret :: b :: bs).dropLast := by
        rw [List.dropLast_append_of_ne_nil _ (by simp)]
        simp [List.dropLast]
      exact hret (hall ret hmem)
  · intro pre post r hstart hargc hopen2 hrecs hreads hw hw2 hfail
    obtain ⟨h1, h2, h3⟩ := main_secondary_fails e pre post r hstart hargc hopen2 hrecs hreads
      hw hw2 hfail
    refine ⟨?_, h2, h3, main_whole_records_out e _ hstart hrecs hreads hw,
      main_whole_records_rc e _ hstart hrecs hreads hw⟩
    rw [main_writes2_count, h1]

/-- C14, witness: two whole records, every `write` on the secondary destination fails;
the first one is the only one issued, and both records reach the primary destination. -/
theorem C14_witness :
    (degradedEnv 2).Starts ∧ (degradedEnv 2).write_outfile2 0 ≠ 4096 ∧
    ((main (degradedEnv 2)).trace.countP Event.isWrite2 = 0 + 1 ∧
    (main (degradedEnv 2)).outfile2_broken = 1 ∧
    (main (degradedEnv 2)).writes = 2 ∧
    (main (degradedEnv 2)).out = ([zeroRecord, zeroRecord].map overwriteTrailer).flatten ∧
    (main (degradedEnv 2)).rc = 0) :=
  ⟨(degradedEnv_facts 2).1, by decide,
    (C14_secondary_disabled (degradedEnv 2)).2 [] [zeroRecord] zeroRecord
      (degradedEnv_facts 2).1 rfl (by decide) (wholeRecords_replicate 2) rfl
      (fun _ _ => rfl) (fun i hi => absurd hi (Nat.not_lt_zero i)) (by decide)⟩

/-! ## The primary destination as a regular file -/

theorem outfileContents_eq (e : Env) (old : Option (List Byte)) :
    outfileContents e old = (main e).out ++ (old.getD []).drop (main e).out.length := by
  cases old <;> simp [outfileContents, contentsAfter, contentsAtOpen, outfileFlags]

/-- C15 (amended): the primary destination is opened write-only, created if absent and
positioned at its start, but it is not truncated.  After a successful run over a source of
`n` whole records its first `n * 4104` bytes are the bytes written and whatever it held
beyond them before the run is still there: it holds exactly the written bytes, and has
the length of the source, when it did not exist or held at most `n * 4104` bytes, and it
keeps its former length when that was larger. -/
theorem C15_primary_not_truncated (e : Env) (recs : List (List Byte))
    (old : Option (List Byte))
    (hstart : e.Starts) (hrecs : WholeRecords recs)
    (hreads : e.reads = recs.map ReadResult.data)
    (hw : ∀ k, k < recs.length → e.write_outfile k = 4104) :
    outfileFlags.creat = true ∧ outfileFlags.append = false ∧ outfileFlags.trunc = false ∧
    (main e).out.length = recs.length * 4104 ∧
    outfileContents e old = (main e).out ++ (old.getD []).drop (recs.length * 4104) ∧
    ((old.getD []).length ≤ recs.length * 4104 → outfileContents e old = (main e).out) ∧
    (recs.length * 4104 < (old.getD []).length →
      (outfileContents e old).length = (old.getD []).length) := by
  have hw' : ∀ k, k < recs.length → e.write_outfile k = (SECTOR_SIZE_WITH_T10PI : Int) := hw
  have hlen : (main e).out.length = recs.length * 4104 := by
    rw [main_whole_records_out e recs hstart hrecs hreads hw',
      length_flatten_chunks SECTOR_SIZE_WITH_T10PI _ (overwriteTrailer_wholeRecords recs hrecs),
      List.length_map]
    rfl
  have heq := outfileContents_eq e old
  rw [hlen] at heq
  refine ⟨rfl, rfl, rfl, hlen, heq, ?_, ?_⟩
  · intro hle
    rw [heq, List.drop_eq_nil_of_le hle, List.append_nil]
  · intro hlt
    rw [heq, List.length_append, List.length_drop, hlen]
    omega

/-- C15, witness: one whole record written to a file that did not exist. -/
theorem C15_witness :
    (goodEnv 3 [ReadResult.data zeroRecord]).Starts ∧ WholeRecords [zeroRecord] ∧
    (main (goodEnv 3 [ReadResult.data zeroRecord])).out.length = [zeroRecord].length * 4104 ∧
    outfileContents (goodEnv 3 [ReadResult.data zeroRecord]) none =
      (main (goodEnv 3 [ReadResult.data zeroRecord])).out :=
  have h := C15_primary_not_truncated (goodEnv 3 [ReadResult.data zeroRecord]) [zeroRecord]
    none (goodEnv_starts 3 (Or.inl rfl) _) (wholeRecords_replicate 1) rfl (fun _ _ => rfl)
  ⟨goodEnv_starts 3 (Or.inl rfl) _, wholeRecords_replicate 1, h.2.2.2.1,
    h.2.2.2.2.2.1 (Nat.zero_le _)⟩

/-- C15, as stated, fails when the destination file held 4105 bytes before a successful
run over a source of one whole record: its first 4104 bytes are the bytes written, its
last byte is still there, and its length is 4105, not the length of the source. -/
theorem C15_counterexample :
    (main (goodEnv 3 [ReadResult.data zeroRecord])).rc = 0 ∧
    (main (goodEnv 3 [ReadResult.data zeroRecord])).out.length = 4104 ∧
    outfileContents (goodEnv 3 [ReadResult.data zeroRecord]) (some (List.replicate 4105 7)) =
      (main (goodEnv 3 [ReadResult.data zeroRecord])).out ++ [7] ∧
    (outfileContents (goodEnv 3 [ReadResult.data zeroRecord])
      (some (List.replicate 4105 7))).length = 4105 := by
  have hs := goodEnv_starts 3 (Or.inl rfl) [ReadResult.data zeroRecord]
  have hrc := main_whole_records_rc (goodEnv 3 [ReadResult.data zeroRecord]) [zeroRecord]
    hs (wholeRecords_replicate 1) rfl (fun _ _ => rfl)
  have hlen : (main (goodEnv 3 [ReadResult.data zeroRecord])).out.length = 4104 := by
    rw [main_whole_records_out (goodEnv 3 [ReadResult.data zeroRecord]) [zeroRecord]
      hs (wholeRecords_replicate 1) rfl (fun _ _ => rfl),
      length_flatten_chunks SECTOR_SIZE_WITH_T10PI _
        (overwriteTrailer_wholeRecords [zeroRecord] (wholeRecords_replicate 1))]
    rfl
  have heq := outfileContents_eq (goodEnv 3 [ReadResult.data zeroRecord])
    (some (List.replicate 4105 7))
  rw [hlen] at heq
  have hdrop : ((some (List.replicate 4105 (7 : Byte))).getD []).drop 4104 = [7] := by
    show (List.replicate 4105 (7 : Byte)).drop 4104 = [7]
    rw [List.drop_replicate]
    rfl
  rw [hdrop] at heq
  refine ⟨hrc, hlen, heq, ?_⟩
  rw [heq, List.length_append, hlen]
  rfl

/-! ## Complete writes and progress lines among the events -/

theorem completePrimary_secondaryEvents (e : Env) (s : State) (r : List Byte) :
    (secondaryEvents e s r).countP Event.isCompletePrimary = 0 := by
  unfold secondaryEvents
  by_cases h1 : e.argc = 4 ∧ s.outfile2_broken = 0 <;>
    by_cases h2 : e.write_outfile2 s.writes2 = (SECTOR_SIZE_DATA_ONLY : Int) <;>
    simp [h1, h2, Event.isCompletePrimary, List.countP_cons]

theorem completeSecondary_secondaryEvents (e : Env) (s : State) (r : List Byte) :
    (secondaryEvents e s r).countP Event.isCompleteSecondary ≤ 1 := by
  unfold secondaryEvents
  by_cases h1 : e.argc = 4 ∧ s.outfile2_broken = 0 <;>
    by_cases h2 : e.write_outfile2 s.writes2 = (SECTOR_SIZE_DATA_ONLY : Int) <;>
    simp [h1, h2, Event.isCompleteSecondary, List.countP_cons]

theorem progress_secondaryEvents (e : Env) (s : State) (r : List Byte) :
    ∀ m ∈ msgs (secondaryEvents e s r), m.isProgress = false := by
  intro x hx
  unfold secondaryEvents at hx
  by_cases h1 : e.argc = 4 ∧ s.outfile2_broken = 0 <;>
    by_cases h2 : e.write_outfile2 s.writes2 = (SECTOR_SIZE_DATA_ONLY : Int) <;>
    simp [h1, h2, msgs] at hx
  subst hx
  rfl

theorem completePrimary_recordEvents (e : Env) (s : State) (r : List Byte) :
    (recordEvents e s r).countP Event.isCompletePrimary =
      if e.write_outfile s.writes = (SECTOR_SIZE_WITH_T10PI : Int) then 1 else 0 := by
  unfold recordEvents
  rw [List.countP_cons, List.countP_append, completePrimary_secondaryEvents]
  by_cases h : e.write_outfile s.writes = (SECTOR_SIZE_WITH_T10PI : Int) <;>
    simp [h, Event.isCompletePrimary, List.countP_cons]

theorem completeSecondary_recordEvents (e : Env) (s : State) (r : List Byte) :
    (recordEvents e s r).countP Event.isCompleteSecondary ≤ 1 := by
  unfold recordEvents
  rw [List.countP_cons, List.countP_append]
  have := completeSecondary_secondaryEvents e s r
  simp [Event.isCompleteSecondary, List.countP_cons]
  omega

theorem progress_recordEvents (e : Env) (s : State) (r : List Byte) :
    msgs (recordEvents e s r) = msgs (secondaryEvents e s r) := by
  unfold recordEvents
  simp [msgs, List.filterMap_cons, List.filterMap_append]

theorem complete_progressEvents (s : State) :
    (progressEvents s).countP Event.isCompletePrimary = 0 ∧
    (progressEvents s).countP Event.isCompleteSecondary = 0 := by
  unfold progressEvents
  by_cases h : s.sector_count % 1953125 = 0 <;>
    simp [h, Event.isCompletePrimary, Event.isCompleteSecondary, List.countP_cons]

theorem complete_shutdownEvents (s : State) :
    (shutdownEvents s).countP Event.isCompletePrimary = 0 ∧
    (shutdownEvents s).countP Event.isCompleteSecondary = 0 := by
  unfold shutdownEvents
  by_cases h : s.rc = 0 <;>
    simp [h, Event.isCompletePrimary, Event.isCompleteSecondary, List.countP_cons]

/-! ## Completely processed records and the counters -/

theorem leadingRecords_records (e : Env) (tl : List ReadResult) (recs : List (List Byte)) :
    ∀ w, WholeRecords recs →
    (∀ i, i < recs.length → e.write_outfile (w + i) = (SECTOR_SIZE_WITH_T10PI : Int)) →
    leadingRecords e w (recs.map ReadResult.data ++ tl) =
      recs ++ leadingRecords e (w + recs.length) tl := by
  induction recs with
  | nil => intro w _ _; simp
  | cons r recs ih =>
    intro w hrecs hw
    have hr : r.length = SECTOR_SIZE_WITH_T10PI := hrecs r (by simp)
    have hw0 : e.write_outfile w = (SECTOR_SIZE_WITH_T10PI : Int) := by
      simpa using hw 0 (by simp)
    rw [List.map_cons, List.cons_append, leadingRecords, if_pos ⟨hr, hw0⟩,
      ih (w + 1) (fun r' hr' => hrecs r' (by simp [hr']))
        (by
          intro i hi
          rw [Nat.add_assoc, Nat.add_comm 1 i]
          exact hw (i + 1) (by simp; omega))]
    simp only [List.cons_append, List.length_cons]
    rw [show w + 1 + recs.length = w + (recs.length + 1) by omega]

/-- A source of whole records whose primary writes all complete is processed
completely. -/
theorem completed_whole_records (e : Env) (recs : List (List Byte))
    (hrecs : WholeRecords recs) (hreads : e.reads = recs.map ReadResult.data)
    (hw : ∀ k, k < recs.length → e.write_outfile k = (SECTOR_SIZE_WITH_T10PI : Int)) :
    leadingRecords e 0 e.reads = recs := by
  have h := leadingRecords_records e [] recs 0 hrecs
    (by intro i hi; rw [Nat.zero_add]; exact hw i hi)
  rw [List.append_nil] at h
  rw [hreads, h]
  simp [leadingRecords]

/-- A source of whole records whose primary write number `recs.length` falls short. -/
theorem completed_write_fail (e : Env) (recs : List (List Byte)) (r : List Byte)
    (rest : List ReadResult) (hrecs : WholeRecords recs)
    (hreads : e.reads = recs.map ReadResult.data ++ ReadResult.data r :: rest)
    (hw : ∀ k, k < recs.length → e.write_outfile k = (SECTOR_SIZE_WITH_T10PI : Int))
    (hfail : e.write_outfile recs.length ≠ (SECTOR_SIZE_WITH_T10PI : Int)) :
    leadingRecords e 0 e.reads = recs := by
  have h := leadingRecords_records e (ReadResult.data r :: rest) recs 0 hrecs
    (by intro i hi; rw [Nat.zero_add]; exact hw i hi)
  rw [hreads, h, Nat.zero_add, leadingRecords, if_neg (fun hh => hfail hh.2), List.append_nil]

/-- The state after the completely processed records: the counters are the number of
these records, times 1, 4104 and 4096, in `uint64_t` arithmetic. -/
theorem completed_state (e : Env) :
    (runRecords e (start e) (leadingRecords e 0 e.reads)).writes = completed e ∧
    (runRecords e (start e) (leadingRecords e 0 e.reads)).rc = 1 ∧
    (runRecords e (start e) (leadingRecords e 0 e.reads)).sector_count = completed e % U64 ∧
    (runRecords e (start e) (leadingRecords e 0 e.reads)).bytes_count =
      (completed e * SECTOR_SIZE_WITH_T10PI) % U64 ∧
    (runRecords e (start e) (leadingRecords e 0 e.reads)).bytes_count_nopi =
      (completed e * SECTOR_SIZE_DATA_ONLY) % U64 := by
  have hw : ∀ k, k < (leadingRecords e 0 e.reads).length →
      e.write_outfile k = (SECTOR_SIZE_WITH_T10PI : Int) := by
    intro k hk
    have := leadingRecords_writes e e.reads 0 k hk
    rwa [Nat.zero_add] at this
  obtain ⟨-, r2, r3, r4, r5, r6⟩ := runRecords_start e _ (leadingRecords_whole e e.reads 0) hw
  exact ⟨r3, r2, r4, r5, r6⟩

/-- The way out of the loop, whichever it is: the state that reaches `theend` has the
counters of the state after the completely processed records, and the events added on
the way out hold no complete primary write, at most one complete secondary write and no
progress line. -/
theorem main_exit (e : Env) (hstart : e.Starts) :
    ∃ (X : State) (tail : List Event), main e = theend X ∧
      X.trace = (runRecords e (start e) (leadingRecords e 0 e.reads)).trace ++ tail ∧
      X.sector_count = (runRecords e (start e) (leadingRecords e 0 e.reads)).sector_count ∧
      X.bytes_count = (runRecords e (start e) (leadingRecords e 0 e.reads)).bytes_count ∧
      X.bytes_count_nopi =
        (runRecords e (start e) (leadingRecords e 0 e.reads)).bytes_count_nopi ∧
      tail.countP Event.isCompletePrimary = 0 ∧
      tail.countP Event.isCompleteSecondary ≤ 1 ∧
      (∀ m ∈ msgs tail, m.isProgress = false) := by
  have hmain := main_eq_of_starts e hstart
  have hcases := loop_cases e e.reads (start e)
  rw [(start_fields e).1] at hcases
  generalize runRecords e (start e) (leadingRecords e 0 e.reads) = R at hcases
  rcases hcases with h | ⟨errno, h⟩ | ⟨tl, h0, h1, h⟩ | ⟨r, hr, hw, h⟩
  · refine ⟨loop e [] R, [Event.read 0, Event.msg Msg.success], by rw [hmain, h],
      (loop_nil_trace e R).1, (loop_nil_fields e R).2.2.2.1, (loop_nil_fields e R).2.2.2.2.1,
      (loop_nil_fields e R).2.2.2.2.2.1, by decide, by decide, ?_⟩
    intro m hm
    simp [msgs] at hm
    rw [hm]; rfl
  · refine ⟨_, [Event.read (-1), Event.msg Msg.read_error], by rw [hmain, h], ?_, ?_, ?_, ?_,
      by decide, by decide, ?_⟩
    · rw [(log_fields _ _).2.2.2.2.2.2.2.2.2, doRead_trace]
      simp [ReadResult.ret]
    · rw [(log_fields _ _).2.2.2.1]; simp
    · rw [(log_fields _ _).2.2.2.2.1]; simp
    · rw [(log_fields _ _).2.2.2.2.2.1]; simp
    · intro m hm
      simp [msgs] at hm
      rw [hm]; rfl
  · refine ⟨_, [Event.read (tl.length : Int), Event.msg (Msg.short_read (tl.length : Int))],
      by rw [hmain, h], ?_, ?_, ?_, ?_, by simp [Event.isCompletePrimary, List.countP_cons],
      by simp [Event.isCompleteSecondary, List.countP_cons], ?_⟩
    · rw [(log_fields _ _).2.2.2.2.2.2.2.2.2, doRead_trace]
      simp [ReadResult.ret]
    · rw [(log_fields _ _).2.2.2.1]; simp
    · rw [(log_fields _ _).2.2.2.2.1]; simp
    · rw [(log_fields _ _).2.2.2.2.2.1]; simp
    · intro m hm
      simp [msgs] at hm
      rw [hm]; rfl
  · obtain ⟨-, -, a3, a4, a5, -⟩ := write_fail_fields e R r
      (Msg.short_write (e.write_outfile R.writes)) hr
    refine ⟨_, recordEvents e R r ++ [Event.msg (Msg.short_write (e.write_outfile R.writes))],
      by rw [hmain, h], ?_, a3, a4, a5, ?_, ?_, ?_⟩
    · rw [(log_fields _ _).2.2.2.2.2.2.2.2.2, writePrimary_trace e R r hr, List.append_assoc]
    · rw [List.countP_append, completePrimary_recordEvents, if_neg hw]
      simp [Event.isCompletePrimary, List.countP_cons]
    · rw [List.countP_append]
      have := completeSecondary_recordEvents e R r
      simp [Event.isCompleteSecondary, List.countP_cons]
      exact this
    · intro m hm
      rw [msgs_append, progress_recordEvents, List.mem_append] at hm
      rcases hm with hm | hm
      · exact progress_secondaryEvents e R r m hm
      · simp [msgs] at hm
        rw [hm]; rfl

/-! ## The counters at every point of a run -/

theorem start_complete (e : Env) :
    (start e).trace.countP Event.isCompletePrimary = 0 ∧
    (start e).trace.countP Event.isCompleteSecondary = 0 ∧
    (∀ m ∈ msgs (start e).trace, m.isProgress = false) := by
  rw [start_trace]
  by_cases h1 : e.argc = 4 <;> by_cases h2 : e.open_outfile2 < 0 <;>
    simp [h1, h2, msgs, Event.isCompletePrimary, Event.isCompleteSecondary, Msg.isProgress,
      List.countP_cons]

/-- A run that does not reach the loop leaves the counters at zero and makes no `write`
call. -/
theorem main_not_starts_quiet (e : Env) (h : ¬ e.Starts) :
    (main e).sector_count = 0 ∧ (main e).bytes_count = 0 ∧ (main e).bytes_count_nopi = 0 ∧
    (main e).trace.countP Event.isCompletePrimary = 0 ∧
    (main e).trace.countP Event.isCompleteSecondary = 0 ∧
    (∀ m ∈ msgs (main e).trace, m.isProgress = false) := by
  by_cases h1 : e.argc ≠ 3 ∧ e.argc ≠ 4
  · rw [main_usage e h1]
    simp [State.log, init, msgs, Event.isCompletePrimary, Event.isCompleteSecondary,
      Msg.isProgress, List.countP_cons]
  · have hargc : e.argc = 3 ∨ e.argc = 4 := by omega
    by_cases h2 : e.open_infile < 0
    · rw [main_open_infile_failed e hargc h2]
      simp [State.log, init, openInfile, msgs, Event.isCompletePrimary,
        Event.isCompleteSecondary, Msg.isProgress, List.countP_cons]
    · have h2' : 0 ≤ e.open_infile := by omega
      by_cases h3 : e.open_outfile < 0
      · rw [main_open_outfile_failed e hargc h2' h3]
        simp [State.log, init, openInfile, openOutfile, msgs, Event.isCompletePrimary,
          Event.isCompleteSecondary, Msg.isProgress, List.countP_cons]
      · exact absurd ⟨hargc, h2', by omega⟩ h

/-- The number of complete primary writes among the events of completely processed
records is the number of these records. -/
theorem runRecords_completePrimary (e : Env) (recs : List (List Byte))
    (hrecs : WholeRecords recs)
    (hw : ∀ k, k < recs.length → e.write_outfile k = (SECTOR_SIZE_WITH_T10PI : Int)) :
    (runRecords e (start e) recs).trace.countP Event.isCompletePrimary = recs.length := by
  have hI := runRecords_invariant e
    (fun t => t.trace.countP Event.isCompletePrimary = t.writes)
    (by
      intro t r ht hr hwt
      show (wholeRecord e t r).trace.countP _ = (wholeRecord e t r).writes
      rw [wholeRecord_trace e t r hr, List.countP_append, List.countP_append, ht,
        completePrimary_recordEvents, if_pos hwt, (complete_progressEvents _).1,
        (wholeRecord_fields e t r).1])
    recs (start e) hrecs
    (by intro i hi; rw [(start_fields e).1, Nat.zero_add]; exact hw i hi)
    (by
      show (start e).trace.countP _ = (start e).writes
      rw [(start_complete e).1, (start_fields e).1])
  exact hI.trans (runRecords_start e recs hrecs hw).2.2.1

/-- The state after the first `k` completely processed records is the state in which
the loop goes on with the rest of the source; its counters are `k`, `k * 4104` and
`k * 4096` in `uint64_t` arithmetic, and `k` complete primary writes have happened. -/
theorem prefix_state (e : Env) (k : Nat) (hk : k ≤ completed e) :
    loop e e.reads (start e) =
      loop e (e.reads.drop k)
        (runRecords e (start e) ((leadingRecords e 0 e.reads).take k)) ∧
    (runRecords e (start e) ((leadingRecords e 0 e.reads).take k)).sector_count = k % U64 ∧
    (runRecords e (start e) ((leadingRecords e 0 e.reads).take k)).bytes_count =
      (k * SECTOR_SIZE_WITH_T10PI) % U64 ∧
    (runRecords e (start e) ((leadingRecords e 0 e.reads).take k)).bytes_count_nopi =
      (k * SECTOR_SIZE_DATA_ONLY) % U64 ∧
    (runRecords e (start e) ((leadingRecords e 0 e.reads).take k)).trace.countP
      Event.isCompletePrimary = k := by
  have hlen : ((leadingRecords e 0 e.reads).take k).length = k := by
    rw [List.length_take]
    exact Nat.min_eq_left hk
  have hrecs : WholeRecords ((leadingRecords e 0 e.reads).take k) :=
    fun r hr => leadingRecords_whole e e.reads 0 r (List.mem_of_mem_take hr)
  have hw : ∀ i, i < ((leadingRecords e 0 e.reads).take k).length →
      e.write_outfile i = (SECTOR_SIZE_WITH_T10PI : Int) := by
    intro i hi
    rw [hlen] at hi
    have := leadingRecords_writes e e.reads 0 i (Nat.lt_of_lt_of_le hi hk)
    rwa [Nat.zero_add] at this
  obtain ⟨-, -, -, r4, r5, r6⟩ := runRecords_start e _ hrecs hw
  rw [hlen] at r4 r5 r6
  have hcount := runRecords_completePrimary e _ hrecs hw
  rw [hlen] at hcount
  refine ⟨?_, r4, r5, r6, hcount⟩
  have hsplit : e.reads = ((leadingRecords e 0 e.reads).take k).map ReadResult.data ++
      e.reads.drop k := by
    have h := leadingRecords_append e e.reads 0
    have h2 : e.reads.take k = ((leadingRecords e 0 e.reads).take k).map ReadResult.data := by
      conv_lhs => rw [h]
      rw [List.take_append_of_le_length (by rw [List.length_map]; exact hk), List.map_take]
    rw [← h2, List.take_append_drop]
  have hl := loop_records e (e.reads.drop k) ((leadingRecords e 0 e.reads).take k) (start e)
    hrecs (by intro i hi; rw [(start_fields e).1, Nat.zero_add]; exact hw i hi)
  rw [← hsplit] at hl
  exact hl

/-- The final state of a run that reaches the loop: the counters are the number of
completely processed records times 1, 4104 and 4096 in `uint64_t` arithmetic, that
number is the number of complete primary writes, and the summary reports them. -/
theorem main_completed (e : Env) (hstart : e.Starts) :
    (main e).sector_count = completed e % U64 ∧
    (main e).bytes_count = (completed e * SECTOR_SIZE_WITH_T10PI) % U64 ∧
    (main e).bytes_count_nopi = (completed e * SECTOR_SIZE_DATA_ONLY) % U64 ∧
    (main e).trace.countP Event.isCompletePrimary = completed e ∧
    Event.msg (Msg.summary (main e).sector_count (main e).bytes_count_nopi
      (main e).bytes_count) ∈ (main e).trace := by
  obtain ⟨X, tail, hmain, htrace, hsc, hbc, hnopi, hcp, -, -⟩ := main_exit e hstart
  obtain ⟨-, -, c3, c4, c5⟩ := completed_state e
  have hcount := runRecords_completePrimary e (leadingRecords e 0 e.reads)
    (leadingRecords_whole e e.reads 0)
    (by
      intro k hk
      have := leadingRecords_writes e e.reads 0 k hk
      rwa [Nat.zero_add] at this)
  have hmem : Event.msg (Msg.summary (main e).sector_count (main e).bytes_count_nopi
      (main e).bytes_count) ∈ (main e).trace := by
    rw [hmain, theend_shutdown]
    simp [shutdownEvents]
  refine ⟨?_, ?_, ?_, ?_, hmem⟩
  · rw [hmain, (theend_fields X).2.2.2.1, hsc, c3]
  · rw [hmain, (theend_fields X).2.2.2.2.1, hbc, c4]
  · rw [hmain, (theend_fields X).2.2.2.2.2.1, hnopi, c5]
  · rw [hmain, theend_shutdown, List.countP_append, htrace, List.countP_append, hcount, hcp,
      (complete_shutdownEvents _).1]
    rfl

theorem completed_goodEnv_one :
    completed (goodEnv 3 [ReadResult.data zeroRecord]) = 1 := by
  unfold completed
  rw [completed_whole_records (goodEnv 3 [ReadResult.data zeroRecord]) [zeroRecord]
    (wholeRecords_replicate 1) rfl (fun _ _ => rfl)]
  rfl

/-- C16: in a run of fewer than `2^64 / 4104` completely processed records, at the final
report `bytes_count = sector_count * 4104` and `bytes_count_nopi = sector_count * 4096`,
and `sector_count` is the number of complete primary writes of the run.  When the run
reaches the loop, the final `sector_count` is the number `completed e` of completely
processed records and the summary line reports these final counters; and for every
`k ≤ completed e` the state after `k` passes through the loop (the one in which the loop
goes on with the rest of the source) has `sector_count = k`, `bytes_count = k * 4104`,
`bytes_count_nopi = k * 4096`, exactly `k` complete primary writes behind it, and
counters not smaller than after any earlier pass. -/
theorem C16_counter_invariant (e : Env)
    (hbound : completed e < U64 / SECTOR_SIZE_WITH_T10PI) :
    ((main e).bytes_count = (main e).sector_count * 4104 ∧
      (main e).bytes_count_nopi = (main e).sector_count * 4096 ∧
      (main e).sector_count = (main e).trace.countP Event.isCompletePrimary) ∧
    (e.Starts →
      (main e).sector_count = completed e ∧
      Event.msg (Msg.summary (completed e) (completed e * 4096) (completed e * 4104)) ∈
        (main e).trace) ∧
    (e.Starts → ∀ k, k ≤ completed e →
      loop e e.reads (start e) =
        loop e (e.reads.drop k)
          (runRecords e (start e) ((leadingRecords e 0 e.reads).take k)) ∧
      (runRecords e (start e) ((leadingRecords e 0 e.reads).take k)).sector_count = k ∧
      (runRecords e (start e) ((leadingRecords e 0 e.reads).take k)).bytes_count =
        k * 4104 ∧
      (runRecords e (start e) ((leadingRecords e 0 e.reads).take k)).bytes_count_nopi =
        k * 4096 ∧
      (runRecords e (start e) ((leadingRecords e 0 e.reads).take k)).trace.countP
        Event.isCompletePrimary = k ∧
      ∀ j, j ≤ k →
        (runRecords e (start e) ((leadingRecords e 0 e.reads).take j)).sector_count ≤
          (runRecords e (start e) ((leadingRecords e 0 e.reads).take k)).sector_count ∧
        (runRecords e (start e) ((leadingRecords e 0 e.reads).take j)).bytes_count ≤
          (runRecords e (start e) ((leadingRecords e 0 e.reads).take k)).bytes_count ∧
        (runRecords e (start e) ((leadingRecords e 0 e.reads).take j)).bytes_count_nopi ≤
          (runRecords e (start e) ((leadingRecords e 0 e.reads).take k)).bytes_count_nopi) := by
  have hU : U64 / SECTOR_SIZE_WITH_T10PI = 4494820680728448 := by decide
  have hU64 : U64 = 18446744073709551616 := rfl
  have h4104 : SECTOR_SIZE_WITH_T10PI = 4104 := rfl
  have h4096 : SECTOR_SIZE_DATA_ONLY = 4096 := rfl
  rw [hU] at hbound
  have exact : ∀ k, k ≤ completed e →
      k % U64 = k ∧ (k * SECTOR_SIZE_WITH_T10PI) % U64 = k * 4104 ∧
      (k * SECTOR_SIZE_DATA_ONLY) % U64 = k * 4096 := by
    intro k hk
    rw [hU64, h4104, h4096]
    refine ⟨Nat.mod_eq_of_lt (by omega), Nat.mod_eq_of_lt (by omega),
      Nat.mod_eq_of_lt (by omega)⟩
  have hpre : ∀ k, k ≤ completed e →
      (runRecords e (start e) ((leadingRecords e 0 e.reads).take k)).sector_count = k ∧
      (runRecords e (start e) ((leadingRecords e 0 e.reads).take k)).bytes_count =
        k * 4104 ∧
      (runRecords e (start e) ((leadingRecords e 0 e.reads).take k)).bytes_count_nopi =
        k * 4096 := by
    intro k hk
    obtain ⟨-, p2, p3, p4, -⟩ := prefix_state e k hk
    obtain ⟨x1, x2, x3⟩ := exact k hk
    exact ⟨p2.trans x1, p3.trans x2, p4.trans x3⟩
  refine ⟨?_, ?_, ?_⟩
  · by_cases hs : e.Starts
    · obtain ⟨m1, m2, m3, m4, -⟩ := main_completed e hs
      obtain ⟨x1, x2, x3⟩ := exact (completed e) (Nat.le_refl _)
      rw [m1, m2, m3, m4, x1, x2, x3]
      exact ⟨rfl, rfl, rfl⟩
    · obtain ⟨q1, q2, q3, q4, -, -⟩ := main_not_starts_quiet e hs
      rw [q1, q2, q3, q4]
      exact ⟨rfl, rfl, rfl⟩
  · intro hs
    obtain ⟨m1, m2, m3, -, m5⟩ := main_completed e hs
    obtain ⟨x1, x2, x3⟩ := exact (completed e) (Nat.le_refl _)
    rw [m1, m2, m3, x1, x2, x3] at m5
    exact ⟨m1.trans x1, m5⟩
  · intro _ k hk
    obtain ⟨p1, -, -, -, p5⟩ := prefix_state e k hk
    obtain ⟨a1, a2, a3⟩ := hpre k hk
    refine ⟨p1, a1, a2, a3, p5, ?_⟩
    intro j hj
    obtain ⟨b1, b2, b3⟩ := hpre j (Nat.le_trans hj hk)
    rw [a1, a2, a3, b1, b2, b3]
    exact ⟨hj, Nat.mul_le_mul_right _ hj, Nat.mul_le_mul_right _ hj⟩

/-- C16, witness: a source of one whole record. -/
theorem C16_witness :
    completed (goodEnv 3 [ReadResult.data zeroRecord]) < U64 / SECTOR_SIZE_WITH_T10PI ∧
    (main (goodEnv 3 [ReadResult.data zeroRecord])).bytes_count =
      (main (goodEnv 3 [ReadResult.data zeroRecord])).sector_count * 4104 ∧
    (main (goodEnv 3 [ReadResult.data zeroRecord])).sector_count = 1 :=
  have hb : completed (goodEnv 3 [ReadResult.data zeroRecord]) <
      U64 / SECTOR_SIZE_WITH_T10PI := by
    rw [completed_goodEnv_one]
    decide
  have h := C16_counter_invariant (goodEnv 3 [ReadResult.data zeroRecord]) hb
  ⟨hb, h.1.1, (h.2.1 (goodEnv_starts 3 (Or.inl rfl) _)).1.trans completed_goodEnv_one⟩

/-! ## The progress lines -/

theorem progressLines_succ (n : Nat) :
    progressLines (n + 1) = progressLines n ++
      (if ((n + 1) % U64) % 1953125 = 0 then [progressLine (n + 1)] else []) := by
  unfold progressLines
  rw [List.range_succ, List.filter_append, List.map_append]
  by_cases h : ((n + 1) % U64) % 1953125 = 0 <;> simp [h]

theorem mem_progressLines (n : Nat) (m : Msg) :
    m ∈ progressLines n ↔
      ∃ k, 0 < k ∧ k ≤ n ∧ (k % U64) % 1953125 = 0 ∧ m = progressLine k := by
  unfold progressLines
  simp only [List.mem_map, List.mem_filter, List.mem_range, decide_eq_true_eq]
  constructor
  · rintro ⟨k, ⟨hk, hmod⟩, rfl⟩
    exact ⟨k + 1, Nat.succ_pos k, hk, hmod, rfl⟩
  · rintro ⟨k, hk0, hk, hmod, rfl⟩
    obtain ⟨j, rfl⟩ : ∃ j, k = j + 1 := ⟨k - 1, by omega⟩
    exact ⟨j, ⟨hk, hmod⟩, rfl⟩

theorem filter_progress_nil (l : List Msg) (h : ∀ m ∈ l, m.isProgress = false) :
    l.filter Msg.isProgress = [] := by
  rw [List.filter_eq_nil_iff]
  intro m hm
  rw [h m hm]
  simp

theorem progressEvents_line (s : State) (k : Nat) (h1 : s.sector_count = k % U64)
    (h2 : s.bytes_count_nopi = (k * SECTOR_SIZE_DATA_ONLY) % U64)
    (h3 : s.bytes_count = (k * SECTOR_SIZE_WITH_T10PI) % U64) :
    progressEvents s =
      if (k % U64) % 1953125 = 0 then [Event.msg (progressLine k)] else [] := by
  unfold progressEvents progressLine
  rw [h1, h2, h3]

/-- The state after `recs.length` completely processed records: its progress lines. -/
theorem runRecords_progress (e : Env) (recs : List (List Byte)) (hrecs : WholeRecords recs)
    (hw : ∀ k, k < recs.length → e.write_outfile k = (SECTOR_SIZE_WITH_T10PI : Int)) :
    (msgs (runRecords e (start e) recs).trace).filter Msg.isProgress =
      progressLines recs.length := by
  have hI := runRecords_invariant e
    (fun t => (msgs t.trace).filter Msg.isProgress = progressLines t.writes ∧
      t.sector_count = t.writes % U64 ∧
      t.bytes_count_nopi = (t.writes * SECTOR_SIZE_DATA_ONLY) % U64 ∧
      t.bytes_count = (t.writes * SECTOR_SIZE_WITH_T10PI) % U64)
    (by
      intro t r ht hr hwt
      obtain ⟨t1, t2, t3, t4⟩ := ht
      obtain ⟨f1, -, -, -, -, f6, f7, f8⟩ := wholeRecord_fields e t r
      have g1 : (wholeRecord e t r).sector_count = (t.writes + 1) % U64 := by
        rw [f6, t2, Nat.add_mod, Nat.mod_mod, ← Nat.add_mod]
      have g2 : (wholeRecord e t r).bytes_count_nopi =
          ((t.writes + 1) * SECTOR_SIZE_DATA_ONLY) % U64 := by
        rw [f8, t3, Nat.add_mul, Nat.one_mul, Nat.add_mod, Nat.mod_mod, ← Nat.add_mod]
      have g3 : (wholeRecord e t r).bytes_count =
          ((t.writes + 1) * SECTOR_SIZE_WITH_T10PI) % U64 := by
        rw [f7, t4, Nat.add_mul, Nat.one_mul, Nat.add_mod, Nat.mod_mod, ← Nat.add_mod]
      refine ⟨?_, ?_, ?_, ?_⟩
      · show (msgs (wholeRecord e t r).trace).filter Msg.isProgress =
          progressLines (wholeRecord e t r).writes
        rw [wholeRecord_trace e t r hr, msgs_append, msgs_append, List.filter_append,
          List.filter_append, t1, progress_recordEvents,
          filter_progress_nil _ (progress_secondaryEvents e t r), List.append_nil, f1,
          progressLines_succ, progressEvents_line _ (t.writes + 1) g1 g2 g3]
        by_cases h : ((t.writes + 1) % U64) % 1953125 = 0
        · rw [if_pos h, if_pos h]
          rfl
        · rw [if_neg h, if_neg h]
          rfl
      · show (wholeRecord e t r).sector_count = (wholeRecord e t r).writes % U64
        rw [g1, f1]
      · show (wholeRecord e t r).bytes_count_nopi = _
        rw [g2, f1]
      · show (wholeRecord e t r).bytes_count = _
        rw [g3, f1])
    recs (start e) hrecs
    (by intro i hi; rw [(start_fields e).1, Nat.zero_add]; exact hw i hi)
    (by
      obtain ⟨s1, -, -, -, -, s6, s7, s8, -, -⟩ := start_fields e
      refine ⟨?_, ?_, ?_, ?_⟩
      · show (msgs (start e).trace).filter Msg.isProgress = progressLines (start e).writes
        rw [filter_progress_nil _ (start_complete e).2.2, s1]
        rfl
      · show (start e).sector_count = (start e).writes % U64
        rw [s6, s1]
        rfl
      · show (start e).bytes_count_nopi = _
        rw [s8, s1]
        rfl
      · show (start e).bytes_count = _
        rw [s7, s1]
        rfl)
  have h1 := hI.1
  rw [(runRecords_start e recs hrecs hw).2.2.1] at h1
  exact h1

/-- The progress lines of a run that reaches the loop are those of its completely
processed records. -/
theorem main_progress (e : Env) (hstart : e.Starts) :
    (msgs (main e).trace).filter Msg.isProgress = progressLines (completed e) := by
  obtain ⟨X, tail, hmain, htrace, -, -, -, -, -, hp⟩ := main_exit e hstart
  have hrun := runRecords_progress e (leadingRecords e 0 e.reads)
    (leadingRecords_whole e e.reads 0)
    (by
      intro k hk
      have := leadingRecords_writes e e.reads 0 k hk
      rwa [Nat.zero_add] at this)
  rw [hmain, theend_shutdown, htrace, msgs_append, msgs_append, List.filter_append,
    List.filter_append, hrun, filter_progress_nil _ hp, msgs_shutdown]
  unfold completed
  by_cases h : (theend X).rc = 0 <;> simp [h, Msg.isProgress]

theorem completed_longEnv (n : Nat) : completed (longEnv n) = n := by
  obtain ⟨-, -, -, h4, h5, -⟩ := longEnv_facts n
  unfold completed
  rw [completed_whole_records (longEnv n) _ (wholeRecords_replicate n) h4 h5,
    List.length_replicate]

/-- One more completely processed record: the state after `k + 1` records is one whole
pass on record `k` from the state after `k` records. -/
theorem prefix_succ (e : Env) (s : State) (recs : List (List Byte)) (k : Nat) (r : List Byte)
    (h : recs[k]? = some r) :
    runRecords e s (recs.take (k + 1)) = wholeRecord e (runRecords e s (recs.take k)) r := by
  rw [List.take_succ, h, runRecords_append]
  rfl

theorem progress_exact (k : Nat) (h : k % 1953125 = 0) :
    (k * 4096) % 1000000000 = 0 ∧ k * 4096 / 1000000000 = 8 * (k / 1953125) := by
  constructor <;> omega

/-- Below the wrap of `bytes_count_nopi`, the progress lines of `n` completely processed
records carry the exact counters. -/
theorem progressLines_exact (n : Nat) (hbound : n * SECTOR_SIZE_DATA_ONLY < U64) :
    progressLines n =
      ((List.range n).filter (fun k => (k + 1) % 1953125 = 0)).map
        (fun k => Msg.progress (k + 1) ((k + 1) * 4096) (8 * ((k + 1) / 1953125))
          (((k + 1) * 4104) % U64)) := by
  have hU64 : U64 = 18446744073709551616 := rfl
  have h4096 : SECTOR_SIZE_DATA_ONLY = 4096 := rfl
  rw [hU64, h4096] at hbound
  have hfilter : (List.range n).filter (fun k => ((k + 1) % U64) % 1953125 = 0) =
      (List.range n).filter (fun k => (k + 1) % 1953125 = 0) := by
    apply List.filter_congr
    intro k hk
    rw [List.mem_range] at hk
    rw [hU64, Nat.mod_eq_of_lt (by omega : k + 1 < 18446744073709551616)]
  unfold progressLines
  rw [hfilter]
  apply List.map_congr_left
  intro k hk
  rw [List.mem_filter, List.mem_range, decide_eq_true_eq] at hk
  obtain ⟨hk, hmod⟩ := hk
  unfold progressLine
  rw [hU64, h4096, Nat.mod_eq_of_lt (by omega : k + 1 < 18446744073709551616),
    Nat.mod_eq_of_lt (by omega : (k + 1) * 4096 < 18446744073709551616),
    (progress_exact (k + 1) hmod).2]
  rfl

/-- The progress lines of `n` completely processed records, spelled out: the test of
line 131 and the division of line 132 are applied to the wrapped counters. -/
theorem progressLines_wrapped (n : Nat) :
    progressLines n =
      ((List.range n).filter (fun k => ((k + 1) % U64) % 1953125 = 0)).map
        (fun k => Msg.progress ((k + 1) % U64) (((k + 1) * 4096) % U64)
          ((((k + 1) * 4096) % U64) / 1000000000) (((k + 1) * 4104) % U64)) :=
  rfl

/-- Below the wrap of `sector_count`, the progress lines of `n` completely processed
records are those of the record numbers that are multiples of 1953125. -/
theorem progressLines_below_wrap (n : Nat) (hbound : n < U64) :
    progressLines n =
      ((List.range n).filter (fun k => (k + 1) % 1953125 = 0)).map
        (fun k => Msg.progress (k + 1) (((k + 1) * 4096) % U64)
          ((((k + 1) * 4096) % U64) / 1000000000) (((k + 1) * 4104) % U64)) := by
  have hU64 : U64 = 18446744073709551616 := rfl
  rw [hU64] at hbound
  have hfilter : (List.range n).filter (fun k => ((k + 1) % U64) % 1953125 = 0) =
      (List.range n).filter (fun k => (k + 1) % 1953125 = 0) := by
    apply List.filter_congr
    intro k hk
    rw [List.mem_range] at hk
    rw [hU64, Nat.mod_eq_of_lt (by omega : k + 1 < 18446744073709551616)]
  rw [progressLines_wrapped, hfilter]
  apply List.map_congr_left
  intro k hk
  rw [List.mem_filter, List.mem_range] at hk
  have hk1 : (k + 1) % U64 = k + 1 := by
    rw [hU64]
    exact Nat.mod_eq_of_lt (by omega)
  show Msg.progress ((k + 1) % U64) _ _ _ = _
  rw [hk1]

/-- After `2^64` whole records `sector_count` has wrapped to 0, which passes the test of
line 131: the progress line printed then reports 0 sectors. -/
theorem progress_line_at_wrap :
    Msg.progress 0 0 0 0 ∈ msgs (main (longEnv (2 ^ 64))).trace := by
  have hs := (longEnv_facts (2 ^ 64)).1
  have hmem : Msg.progress 0 0 0 0 ∈ progressLines (completed (longEnv (2 ^ 64))) := by
    rw [completed_longEnv, mem_progressLines]
    exact ⟨2 ^ 64, by decide, Nat.le_refl _, by decide, by decide⟩
  rw [← main_progress _ hs] at hmem
  exact (List.mem_filter.mp hmem).1

/-- C17 (amended): in a run that reaches the loop, (1) the progress lines are, in order,
one for each record number `k` from 1 to the number of completely processed records
whose updated `sector_count`, `k` modulo `2^64`, is a multiple of 1953125; the line
carries the wrapped counters and the gigabyte figure `bytes_count_nopi / 10^9`, the
quotient of the wrapped value; (2) when fewer than `2^64` records are processed
completely, these are the record numbers `k` that are multiples of 1953125, and the
line carries `sector_count = k`; (3) when fewer than `2^64 / 4096` records are processed
completely, the line carries `k * 4096` and the figure `8 * (k / 1953125)`; (4) record
by record: the events of record `k + 1` are followed by the progress line exactly when
the updated `sector_count` is a multiple of 1953125, that line carries the updated
counters and `bytes_count_nopi / 10^9`; the updated `sector_count` is `k + 1` when
`k + 1 < 2^64`; and when `(k + 1) * 4096 < 2^64`, whatever the length of the run,
`bytes_count_nopi` is `(k + 1) * 4096`, the division is exact and the figure is
`8 * (sector_count / 1953125)`; (5) at a multiple of 1953125 the division of `k * 4096`
by `10^9` is exact; (6) lines 130 to 133 change neither the counters, nor the bytes
written, nor the exit code. -/
theorem C17_progress_lines (e : Env) (hstart : e.Starts) :
    (msgs (main e).trace).filter Msg.isProgress =
      ((List.range (completed e)).filter (fun k => ((k + 1) % U64) % 1953125 = 0)).map
        (fun k => Msg.progress ((k + 1) % U64) (((k + 1) * 4096) % U64)
          ((((k + 1) * 4096) % U64) / 1000000000) (((k + 1) * 4104) % U64)) ∧
    (completed e < U64 →
      (msgs (main e).trace).filter Msg.isProgress =
        ((List.range (completed e)).filter (fun k => (k + 1) % 1953125 = 0)).map
          (fun k => Msg.progress (k + 1) (((k + 1) * 4096) % U64)
            ((((k + 1) * 4096) % U64) / 1000000000) (((k + 1) * 4104) % U64))) ∧
    (completed e * SECTOR_SIZE_DATA_ONLY < U64 →
      (msgs (main e).trace).filter Msg.isProgress =
        ((List.range (completed e)).filter (fun k => (k + 1) % 1953125 = 0)).map
          (fun k => Msg.progress (k + 1) ((k + 1) * 4096) (8 * ((k + 1) / 1953125))
            (((k + 1) * 4104) % U64))) ∧
    (∀ (k : Nat) (r : List Byte), (leadingRecords e 0 e.reads)[k]? = some r →
      (runRecords e (start e) ((leadingRecords e 0 e.reads).take (k + 1))).trace =
        (runRecords e (start e) ((leadingRecords e 0 e.reads).take k)).trace ++
          recordEvents e (runRecords e (start e) ((leadingRecords e 0 e.reads).take k)) r ++
          (if (runRecords e (start e)
              ((leadingRecords e 0 e.reads).take (k + 1))).sector_count % 1953125 = 0 then
            [Event.msg (Msg.progress
              (runRecords e (start e) ((leadingRecords e 0 e.reads).take (k + 1))).sector_count
              (runRecords e (start e)
                ((leadingRecords e 0 e.reads).take (k + 1))).bytes_count_nopi
              ((runRecords e (start e)
                ((leadingRecords e 0 e.reads).take (k + 1))).bytes_count_nopi / 1000000000)
              (runRecords e (start e)
                ((leadingRecords e 0 e.reads).take (k + 1))).bytes_count)]
           else []) ∧
      (runRecords e (start e) ((leadingRecords e 0 e.reads).take (k + 1))).sector_count =
        (k + 1) % U64 ∧
      (runRecords e (start e) ((leadingRecords e 0 e.reads).take (k + 1))).bytes_count_nopi =
        ((k + 1) * 4096) % U64 ∧
      (runRecords e (start e) ((leadingRecords e 0 e.reads).take (k + 1))).bytes_count =
        ((k + 1) * 4104) % U64 ∧
      (k + 1 < U64 →
        (runRecords e (start e) ((leadingRecords e 0 e.reads).take (k + 1))).sector_count =
          k + 1 ∧
        (runRecords e (start e) ((leadingRecords e 0 e.reads).take (k + 1))).trace =
          (runRecords e (start e) ((leadingRecords e 0 e.reads).take k)).trace ++
            recordEvents e (runRecords e (start e) ((leadingRecords e 0 e.reads).take k)) r ++
            (if (k + 1) % 1953125 = 0 then
              [Event.msg (Msg.progress (k + 1) (((k + 1) * 4096) % U64)
                ((((k + 1) * 4096) % U64) / 1000000000) (((k + 1) * 4104) % U64))]
             else [])) ∧
      ((k + 1) * SECTOR_SIZE_DATA_ONLY < U64 →
        (runRecords e (start e) ((leadingRecords e 0 e.reads).take (k + 1))).sector_count =
          k + 1 ∧
        (runRecords e (start e) ((leadingRecords e 0 e.reads).take (k + 1))).bytes_count_nopi =
          (k + 1) * 4096 ∧
        ((k + 1) % 1953125 = 0 →
          (runRecords e (start e)
            ((leadingRecords e 0 e.reads).take (k + 1))).bytes_count_nopi % 1000000000 = 0 ∧
          (runRecords e (start e)
            ((leadingRecords e 0 e.reads).take (k + 1))).bytes_count_nopi / 1000000000 =
            8 * ((runRecords e (start e)
              ((leadingRecords e 0 e.reads).take (k + 1))).sector_count / 1953125)) ∧
        (runRecords e (start e) ((leadingRecords e 0 e.reads).take (k + 1))).trace =
          (runRecords e (start e) ((leadingRecords e 0 e.reads).take k)).trace ++
            recordEvents e (runRecords e (start e) ((leadingRecords e 0 e.reads).take k)) r ++
            (if (k + 1) % 1953125 = 0 then
              [Event.msg (Msg.progress (k + 1) ((k + 1) * 4096)
                ((k + 1) * 4096 / 1000000000) (((k + 1) * 4104) % U64))]
             else []))) ∧
    (∀ k, k % 1953125 = 0 →
      (k * 4096) % 1000000000 = 0 ∧ k * 4096 / 1000000000 = 8 * (k / 1953125)) ∧
    (∀ s : State, (progress s).sector_count = s.sector_count ∧
      (progress s).bytes_count = s.bytes_count ∧
      (progress s).bytes_count_nopi = s.bytes_count_nopi ∧
      (progress s).out = s.out ∧ (progress s).out2 = s.out2 ∧ (progress s).rc = s.rc ∧
      (progress s).writes = s.writes ∧ (progress s).writes2 = s.writes2) := by
  have hU64 : U64 = 18446744073709551616 := rfl
  have h4096 : SECTOR_SIZE_DATA_ONLY = 4096 := rfl
  refine ⟨?_, ?_, ?_, ?_, progress_exact, ?_⟩
  · rw [main_progress e hstart, progressLines_wrapped]
  · intro hb
    rw [main_progress e hstart, progressLines_below_wrap _ hb]
  · intro hb
    rw [main_progress e hstart, progressLines_exact _ hb]
  · intro k r hk
    have hlt : k < (leadingRecords e 0 e.reads).length := by
      rcases Nat.lt_or_ge k (leadingRecords e 0 e.reads).length with h | h
      · exact h
      · rw [List.getElem?_eq_none h] at hk
        cases hk
    have hle : k + 1 ≤ completed e := hlt
    have hr : r.length = SECTOR_SIZE_WITH_T10PI :=
      leadingRecords_whole e e.reads 0 r (List.getElem?_mem hk)
    obtain ⟨-, p2, p3, p4, -⟩ := prefix_state e (k + 1) hle
    have p3' : (runRecords e (start e)
        ((leadingRecords e 0 e.reads).take (k + 1))).bytes_count = ((k + 1) * 4104) % U64 := p3
    have p4' : (runRecords e (start e)
        ((leadingRecords e 0 e.reads).take (k + 1))).bytes_count_nopi =
        ((k + 1) * 4096) % U64 := p4
    have htr : (runRecords e (start e) ((leadingRecords e 0 e.reads).take (k + 1))).trace =
        (runRecords e (start e) ((leadingRecords e 0 e.reads).take k)).trace ++
          recordEvents e (runRecords e (start e) ((leadingRecords e 0 e.reads).take k)) r ++
          (if (runRecords e (start e)
              ((leadingRecords e 0 e.reads).take (k + 1))).sector_count % 1953125 = 0 then
            [Event.msg (Msg.progress
              (runRecords e (start e) ((leadingRecords e 0 e.reads).take (k + 1))).sector_count
              (runRecords e (start e)
                ((leadingRecords e 0 e.reads).take (k + 1))).bytes_count_nopi
              ((runRecords e (start e)
                ((leadingRecords e 0 e.reads).take (k + 1))).bytes_count_nopi / 1000000000)
              (runRecords e (start e)
                ((leadingRecords e 0 e.reads).take (k + 1))).bytes_count)]
           else []) := by
      rw [prefix_succ e (start e) _ k r hk, wholeRecord_trace e _ r hr]
      rfl
    have hwrap : k + 1 < U64 →
        (runRecords e (start e) ((leadingRecords e 0 e.reads).take (k + 1))).sector_count =
          k + 1 := by
      intro hb
      exact p2.trans (Nat.mod_eq_of_lt hb)
    refine ⟨htr, p2, p4', p3', ?_, ?_⟩
    · intro hb
      refine ⟨hwrap hb, ?_⟩
      rw [htr, p4', p3', hwrap hb]
    · intro hb
      rw [hU64, h4096] at hb
      have hb1 : k + 1 < U64 := by
        rw [hU64]
        omega
      have hnopi : (runRecords e (start e)
          ((leadingRecords e 0 e.reads).take (k + 1))).bytes_count_nopi = (k + 1) * 4096 := by
        rw [p4', hU64]
        exact Nat.mod_eq_of_lt hb
      refine ⟨hwrap hb1, hnopi, ?_, ?_⟩
      · intro hmod
        rw [hnopi, hwrap hb1]
        exact progress_exact (k + 1) hmod
      · rw [htr, hnopi, p3', hwrap hb1]
  · intro s
    obtain ⟨f1, f2, f3, f4, f5, -, -, f8, f9, f10, -, -, -⟩ := progress_fields s
    exact ⟨f8, f9, f10, f3, f4, f5, f1, f2⟩

/-- C17, witness: a source of 1953125 whole records prints the progress line of record
1953125, with the gigabyte figure 8. -/
theorem C17_witness :
    (longEnv 1953125).Starts ∧
    completed (longEnv 1953125) * SECTOR_SIZE_DATA_ONLY < U64 ∧
    Msg.progress 1953125 8000000000 8 8015625000 ∈ msgs (main (longEnv 1953125)).trace :=
  have hb : completed (longEnv 1953125) * SECTOR_SIZE_DATA_ONLY < U64 := by
    rw [completed_longEnv]
    decide
  have h := (C17_progress_lines (longEnv 1953125) (longEnv_facts 1953125).1).2.2.1 hb
  ⟨(longEnv_facts 1953125).1, hb, by
    have h1 := h
    rw [completed_longEnv] at h1
    have hmem : Msg.progress 1953125 8000000000 8 8015625000 ∈
        (msgs (main (longEnv 1953125)).trace).filter Msg.isProgress := by
      rw [h1]
      exact List.mem_map.mpr ⟨1953124,
        List.mem_filter.mpr ⟨List.mem_range.mpr (by decide), by decide⟩, by decide⟩
    exact (List.mem_filter.mp hmem).1⟩

/-- C17, as stated, fails on a source of 4503599628906250 whole records (the first
multiple of 1953125 from `2^52` on) copied without any failure: the progress line after
the last record carries `bytes_count_nopi = 6290448384`, which is not a multiple of
`10^9`, and the gigabyte figure 6, which is not `8 * (sector_count / 1953125)`. -/
theorem C17_counterexample :
    (longEnv 4503599628906250).Starts ∧
    Msg.progress 4503599628906250 6290448384 6 36028803321698384 ∈
      msgs (main (longEnv 4503599628906250)).trace ∧
    4503599628906250 % 1953125 = 0 ∧
    6290448384 % 1000000000 ≠ 0 ∧
    (6 : Nat) ≠ 8 * (4503599628906250 / 1953125) := by
  have hs := (longEnv_facts 4503599628906250).1
  have hmem : Msg.progress 4503599628906250 6290448384 6 36028803321698384 ∈
      progressLines (completed (longEnv 4503599628906250)) := by
    rw [completed_longEnv, mem_progressLines]
    exact ⟨4503599628906250, by decide, Nat.le_refl _, by decide, by decide⟩
  rw [← main_progress _ hs] at hmem
  exact ⟨hs, (List.mem_filter.mp hmem).1, by decide, by decide, by decide⟩

/-! ## The secondary destination against the counters -/

/-- After completely processed records the complete secondary writes are at most as many
as the complete primary writes. -/
theorem leading_secondary_le (e : Env) :
    (runRecords e (start e) (leadingRecords e 0 e.reads)).trace.countP
        Event.isCompleteSecondary ≤
      (runRecords e (start e) (leadingRecords e 0 e.reads)).trace.countP
        Event.isCompletePrimary := by
  have h := leading_invariant e
    (fun t => t.trace.countP Event.isCompleteSecondary ≤
      t.trace.countP Event.isCompletePrimary)
    (by
      intro t r ht hr hwt
      show (wholeRecord e t r).trace.countP _ ≤ (wholeRecord e t r).trace.countP _
      have h1 := completeSecondary_recordEvents e t r
      rw [wholeRecord_trace e t r hr]
      simp only [List.countP_append, completePrimary_recordEvents, if_pos hwt,
        (complete_progressEvents _).1, (complete_progressEvents _).2]
      omega)
    e.reads (start e)
    (by
      show (start e).trace.countP _ ≤ (start e).trace.countP _
      rw [(start_complete e).1, (start_complete e).2.1])
  rw [(start_fields e).1] at h
  exact h

/-- In every run the complete secondary writes are at most one more than the complete
primary writes. -/
theorem main_secondary_le (e : Env) :
    (main e).trace.countP Event.isCompleteSecondary ≤
      (main e).trace.countP Event.isCompletePrimary + 1 := by
  by_cases hs : e.Starts
  · obtain ⟨X, tail, hmain, htrace, -, -, -, hcp, hcs, -⟩ := main_exit e hs
    have h := leading_secondary_le e
    rw [hmain, theend_shutdown, htrace]
    simp only [List.countP_append, (complete_shutdownEvents _).1,
      (complete_shutdownEvents _).2, hcp]
    omega
  · obtain ⟨-, -, -, q4, q5, -⟩ := main_not_starts_quiet e hs
    rw [q4, q5]
    exact Nat.zero_le _

/-- A run with a working secondary destination whose primary write fails on the record
after `recs`: what the secondary destination has received. -/
theorem main_write_fail_out2 (e : Env) (recs : List (List Byte)) (r : List Byte)
    (rest : List ReadResult) (hstart : e.Starts) (hargc : e.argc = 4)
    (hopen2 : 0 ≤ e.open_outfile2) (hrecs : WholeRecords recs)
    (hr : r.length = SECTOR_SIZE_WITH_T10PI)
    (hreads : e.reads = recs.map ReadResult.data ++ ReadResult.data r :: rest)
    (hw : ∀ k, k < recs.length → e.write_outfile k = (SECTOR_SIZE_WITH_T10PI : Int))
    (hfail : e.write_outfile recs.length ≠ (SECTOR_SIZE_WITH_T10PI : Int))
    (hw2 : ∀ i, i ≤ recs.length → e.write_outfile2 i = (SECTOR_SIZE_DATA_ONLY : Int)) :
    (main e).out2 =
      ((recs ++ [r]).map (fun x => x.take SECTOR_SIZE_DATA_ONLY)).flatten ∧
    (main e).writes2 = recs.length + 1 ∧ (main e).outfile2_broken = 0 := by
  obtain ⟨s1, s2, s3, s4, -⟩ := start_fields e
  have hb : (start e).outfile2_broken = 0 := by
    rw [start_broken, if_pos ⟨hargc, hopen2⟩]
  obtain ⟨o1, o2, o3⟩ := runRecords_secondary_ok e recs (start e) hrecs hargc hb
    (by intro i hi; rw [s2, Nat.zero_add]; exact hw2 i (Nat.le_of_lt hi))
  rw [s4, List.nil_append] at o1
  rw [s2, Nat.zero_add] at o2
  obtain ⟨-, -, -, -, -, -, f7, f8, f9⟩ := write_fail_fields e (runRecords e (start e) recs) r
    (Msg.short_write (e.write_outfile recs.length)) hr
  have h' : e.argc = 4 ∧
      (doRead (ReadResult.data r) (runRecords e (start e) recs)).outfile2_broken = 0 := by
    rw [(doRead_fields _ _).2.2.2.2.2.1]
    exact ⟨hargc, o3⟩
  have hw2' : e.write_outfile2
      (doRead (ReadResult.data r) (runRecords e (start e) recs)).writes2 =
      (SECTOR_SIZE_DATA_ONLY : Int) := by
    rw [(doRead_fields _ _).2.1, o2]
    exact hw2 recs.length (Nat.le_refl _)
  have h4096 : SECTOR_SIZE_DATA_ONLY ≤ r.length := by
    rw [hr]; simp [SECTOR_SIZE_WITH_T10PI]
  have hsec := writeSecondary_ok e _ h' hw2'
  have g7 : (writeSecondary e (doRead (ReadResult.data r) (runRecords e (start e) recs))).out2 =
      (doRead (ReadResult.data r) (runRecords e (start e) recs)).out2 ++
        (doRead (ReadResult.data r) (runRecords e (start e) recs)).buf.take
          SECTOR_SIZE_DATA_ONLY := by
    rw [hsec]
  have g8 : (writeSecondary e
      (doRead (ReadResult.data r) (runRecords e (start e) recs))).writes2 =
      (doRead (ReadResult.data r) (runRecords e (start e) recs)).writes2 + 1 := by
    rw [hsec]
  have g9 : (writeSecondary e
      (doRead (ReadResult.data r) (runRecords e (start e) recs))).outfile2_broken =
      (doRead (ReadResult.data r) (runRecords e (start e) recs)).outfile2_broken := by
    rw [hsec]
  rw [main_write_fail_eq e recs r rest hstart hrecs hr hreads hw hfail,
    (theend_fields _).2.1, (theend_fields _).2.2.2.2.2.2.2.1,
    (theend_fields _).2.2.2.2.2.2.2.2, f7, f8, f9, g7, g8, g9]
  refine ⟨?_, ?_, h'.2⟩
  · rw [(doRead_fields _ _).2.2.2.1, o1, doRead_buf_data,
      List.take_append_of_le_length h4096]
    simp
  · rw [(doRead_fields _ _).2.1, o2]

theorem length_data_prefixes (recs : List (List Byte)) (hrecs : WholeRecords recs) :
    ((recs.map (fun x => x.take SECTOR_SIZE_DATA_ONLY)).flatten).length =
      recs.length * SECTOR_SIZE_DATA_ONLY := by
  rw [length_flatten_chunks SECTOR_SIZE_DATA_ONLY, List.length_map]
  intro l hl
  obtain ⟨x, hx, rfl⟩ := List.mem_map.mp hl
  rw [List.length_take, hrecs x hx]
  rfl

/-- C18 (amended): in every run the complete secondary writes are at most one more than
the complete primary writes, so that, when fewer than `2^64` records are processed
completely, the bytes written by complete secondary writes are at most
`(sector_count + 1) * 4096`.  In a run with a working secondary destination whose primary
write fails at record `k` after `k` fully written records, the secondary destination
holds the 4096-byte prefixes of the records 0 to `k`, that is `(k + 1) * 4096` bytes,
received in `k + 1` writes, while the reported `sector_count` is `k` modulo `2^64`:
it is `k`, and the secondary destination holds `(sector_count + 1) * 4096` bytes, when
`k < 2^64`. -/
theorem C18_secondary_one_ahead (e : Env) :
    (main e).trace.countP Event.isCompleteSecondary ≤
      (main e).trace.countP Event.isCompletePrimary + 1 ∧
    (e.Starts → completed e < 2 ^ 64 →
      (main e).trace.countP Event.isCompleteSecondary * 4096 ≤
        ((main e).sector_count + 1) * 4096) ∧
    (¬ e.Starts → (main e).trace.countP Event.isCompleteSecondary = 0) ∧
    (∀ (recs : List (List Byte)) (r : List Byte) (rest : List ReadResult),
      e.Starts → e.argc = 4 → 0 ≤ e.open_outfile2 → WholeRecords recs → r.length = 4104 →
      e.reads = recs.map ReadResult.data ++ ReadResult.data r :: rest →
      (∀ k, k < recs.length → e.write_outfile k = 4104) →
      e.write_outfile recs.length ≠ 4104 →
      (∀ i, i ≤ recs.length → e.write_outfile2 i = 4096) →
      (main e).out2 = ((recs ++ [r]).map (fun x => x.take 4096)).flatten ∧
      (main e).out2.length = (recs.length + 1) * 4096 ∧
      (main e).writes2 = recs.length + 1 ∧
      (main e).sector_count = recs.length % 2 ^ 64 ∧
      (recs.length < 2 ^ 64 →
        (main e).sector_count = recs.length ∧
        (main e).out2.length = ((main e).sector_count + 1) * 4096)) := by
  refine ⟨main_secondary_le e, ?_, ?_, ?_⟩
  · intro hs hb
    obtain ⟨m1, -, -, m4, -⟩ := main_completed e hs
    have h := main_secondary_le e
    rw [m4] at h
    have hU : completed e % U64 = completed e := Nat.mod_eq_of_lt hb
    rw [m1, hU]
    exact Nat.mul_le_mul_right _ h
  · intro hs
    exact (main_not_starts_quiet e hs).2.2.2.2.1
  · intro recs r rest hstart hargc hopen2 hrecs hr hreads hw hfail hw2
    obtain ⟨a1, a2, -⟩ := main_write_fail_out2 e recs r rest hstart hargc hopen2 hrecs hr
      hreads hw hfail hw2
    obtain ⟨-, c2, -, -⟩ := main_write_fail_count e recs r rest hstart hrecs hr hreads hw hfail
    have hall : WholeRecords (recs ++ [r]) := by
      intro x hx
      rcases List.mem_append.mp hx with hx | hx
      · exact hrecs x hx
      · rw [List.mem_singleton.mp hx]; exact hr
    have hlen : (main e).out2.length = (recs.length + 1) * 4096 := by
      rw [a1, length_data_prefixes _ hall, List.length_append]
      rfl
    refine ⟨a1, hlen, a2, c2, ?_⟩
    intro hk
    have hsc : (main e).sector_count = recs.length := c2.trans (Nat.mod_eq_of_lt hk)
    exact ⟨hsc, by rw [hlen, hsc]⟩

/-- C18, witness: the primary write fails at record 1, after one fully written record;
the secondary destination holds two data parts and the reported `sector_count` is 1. -/
theorem C18_witness :
    (failEnv 1).Starts ∧ (failEnv 1).write_outfile 1 ≠ 4104 ∧
    (main (failEnv 1)).out2.length = 2 * 4096 ∧ (main (failEnv 1)).sector_count = 1 :=
  have h := (C18_secondary_one_ahead (failEnv 1)).2.2.2 (List.replicate 1 zeroRecord)
    zeroRecord [] (failEnv_facts 1).1 rfl (by decide) (wholeRecords_replicate 1)
    zeroRecord_length (failEnv_facts 1).2.1 (failEnv_facts 1).2.2.1 (failEnv_facts 1).2.2.2
    (fun _ _ => rfl)
  ⟨(failEnv_facts 1).1, (failEnv_facts 1).2.2.2, h.2.1, (h.2.2.2.2 (by decide)).1⟩

theorem completeSecondary_recordEvents_ok (e : Env) (s : State) (r : List Byte)
    (hargc : e.argc = 4) (hb : s.outfile2_broken = 0)
    (hw2 : e.write_outfile2 s.writes2 = (SECTOR_SIZE_DATA_ONLY : Int)) :
    (recordEvents e s r).countP Event.isCompleteSecondary = 1 := by
  unfold recordEvents secondaryEvents
  simp [hargc, hb, hw2, Event.isCompleteSecondary, List.countP_cons]

/-- With a secondary destination on which every write is complete, each completely
processed record adds one complete secondary write. -/
theorem runRecords_completeSecondary (e : Env) (hargc : e.argc = 4)
    (hopen2 : 0 ≤ e.open_outfile2)
    (hall : ∀ i, e.write_outfile2 i = (SECTOR_SIZE_DATA_ONLY : Int))
    (recs : List (List Byte)) (hrecs : WholeRecords recs)
    (hw : ∀ k, k < recs.length → e.write_outfile k = (SECTOR_SIZE_WITH_T10PI : Int)) :
    (runRecords e (start e) recs).outfile2_broken = 0 ∧
    (runRecords e (start e) recs).trace.countP Event.isCompleteSecondary = recs.length := by
  have hI := runRecords_invariant e
    (fun t => t.outfile2_broken = 0 ∧ t.trace.countP Event.isCompleteSecondary = t.writes)
    (by
      intro t r ht hr hwt
      obtain ⟨t1, t2⟩ := ht
      refine ⟨(wholeRecord_secondary_ok e t r hr hargc t1 (hall _)).2.2, ?_⟩
      show (wholeRecord e t r).trace.countP _ = (wholeRecord e t r).writes
      rw [wholeRecord_trace e t r hr, List.countP_append, List.countP_append, t2,
        completeSecondary_recordEvents_ok e t r hargc t1 (hall _),
        (complete_progressEvents _).2, (wholeRecord_fields e t r).1])
    recs (start e) hrecs
    (by intro i hi; rw [(start_fields e).1, Nat.zero_add]; exact hw i hi)
    (by
      refine ⟨by rw [start_broken, if_pos ⟨hargc, hopen2⟩], ?_⟩
      show (start e).trace.countP _ = (start e).writes
      rw [(start_complete e).2.1, (start_fields e).1])
  exact ⟨hI.1, hI.2.trans (runRecords_start e recs hrecs hw).2.2.1⟩

/-- With a secondary destination on which every write is complete, a run whose primary
write fails on the record after `recs` has made `recs.length + 1` complete secondary
writes. -/
theorem main_write_fail_completeSecondary (e : Env) (recs : List (List Byte)) (r : List Byte)
    (rest : List ReadResult) (hstart : e.Starts) (hargc : e.argc = 4)
    (hopen2 : 0 ≤ e.open_outfile2) (hrecs : WholeRecords recs)
    (hr : r.length = SECTOR_SIZE_WITH_T10PI)
    (hreads : e.reads = recs.map ReadResult.data ++ ReadResult.data r :: rest)
    (hw : ∀ k, k < recs.length → e.write_outfile k = (SECTOR_SIZE_WITH_T10PI : Int))
    (hfail : e.write_outfile recs.length ≠ (SECTOR_SIZE_WITH_T10PI : Int))
    (hall : ∀ i, e.write_outfile2 i = (SECTOR_SIZE_DATA_ONLY : Int)) :
    (main e).trace.countP Event.isCompleteSecondary = recs.length + 1 := by
  obtain ⟨b1, b2⟩ := runRecords_completeSecondary e hargc hopen2 hall recs hrecs hw
  rw [main_write_fail_eq e recs r rest hstart hrecs hr hreads hw hfail, theend_shutdown,
    (log_fields _ _).2.2.2.2.2.2.2.2.2, writePrimary_trace e _ r hr]
  simp only [List.countP_append, b2, completeSecondary_recordEvents_ok e _ r hargc b1 (hall _),
    (complete_shutdownEvents _).2]
  simp [Event.isCompleteSecondary, List.countP_cons]

/-- C18, as stated, fails when the primary write fails at record `k = 2^64` with a
working secondary destination: the reported `sector_count` has wrapped to 0, the
secondary destination holds `(2^64 + 1) * 4096` bytes, all written by its `2^64 + 1`
complete writes, and that is more than `(sector_count + 1) * 4096 = 4096`. -/
theorem C18_counterexample :
    (failEnv (2 ^ 64)).Starts ∧ (failEnv (2 ^ 64)).write_outfile (2 ^ 64) ≠ 4104 ∧
    (∀ i, (failEnv (2 ^ 64)).write_outfile2 i = 4096) ∧
    (main (failEnv (2 ^ 64))).sector_count = 0 ∧
    (main (failEnv (2 ^ 64))).out2.length = (2 ^ 64 + 1) * 4096 ∧
    (main (failEnv (2 ^ 64))).trace.countP Event.isCompleteSecondary = 2 ^ 64 + 1 ∧
    ¬ ((main (failEnv (2 ^ 64))).trace.countP Event.isCompleteSecondary * 4096 ≤
      ((main (failEnv (2 ^ 64))).sector_count + 1) * 4096) := by
  obtain ⟨h1, h2, h3, h4⟩ := failEnv_facts (2 ^ 64)
  have hopen2 : (0 : Int) ≤ (failEnv (2 ^ 64)).open_outfile2 := by
    show (0 : Int) ≤ 5
    omega
  obtain ⟨-, c2, -, -⟩ := main_write_fail_count (failEnv (2 ^ 64)) _ zeroRecord []
    h1 (wholeRecords_replicate (2 ^ 64)) zeroRecord_length h2 h3 h4
  obtain ⟨a1, -, -⟩ := main_write_fail_out2 (failEnv (2 ^ 64)) _ zeroRecord [] h1 rfl hopen2
    (wholeRecords_replicate (2 ^ 64)) zeroRecord_length h2 h3 h4 (fun _ _ => rfl)
  have hcount := main_write_fail_completeSecondary (failEnv (2 ^ 64)) _ zeroRecord [] h1 rfl
    hopen2 (wholeRecords_replicate (2 ^ 64)) zeroRecord_length h2 h3 h4 (fun _ => rfl)
  have hall : WholeRecords (List.replicate (2 ^ 64) zeroRecord ++ [zeroRecord]) := by
    intro x hx
    rcases List.mem_append.mp hx with hx | hx
    · exact wholeRecords_replicate _ x hx
    · rw [List.mem_singleton.mp hx]; exact zeroRecord_length
  rw [List.length_replicate] at c2 h4 hcount
  have hsc : (main (failEnv (2 ^ 64))).sector_count = 0 := by
    rw [c2]
    exact Nat.mod_self _
  have hlen : (main (failEnv (2 ^ 64))).out2.length = (2 ^ 64 + 1) * 4096 := by
    rw [a1, length_data_prefixes _ hall, List.length_append, List.length_replicate]
    rfl
  refine ⟨h1, h4, fun _ => rfl, hsc, hlen, hcount, ?_⟩
  rw [hcount, hsc]
  decide

/-! ## The trailer of the source is never looked at -/

theorem overwriteTrailer_congr (r r' t : List Byte) (hr : r.length = SECTOR_SIZE_WITH_T10PI)
    (hr' : r'.length = SECTOR_SIZE_WITH_T10PI)
    (hdata : r.take SECTOR_SIZE_DATA_ONLY = r'.take SECTOR_SIZE_DATA_ONLY) :
    overwriteTrailer (r ++ t) = overwriteTrailer (r' ++ t) := by
  have h4104 : SECTOR_SIZE_WITH_T10PI = 4104 := rfl
  have h4096 : SECTOR_SIZE_DATA_ONLY = 4096 := rfl
  rw [h4104] at hr hr'
  rw [h4096] at hdata
  apply List.ext_getElem?
  intro j
  rw [overwriteTrailer_getElem?, overwriteTrailer_getElem?, List.length_append,
    List.length_append, hr, hr']
  by_cases hj : 4096 ≤ j ∧ j < 4104 ∧ j < 4104 + t.length
  · rw [if_pos hj, if_pos hj]
  · rw [if_neg hj, if_neg hj]
    rcases Nat.lt_or_ge j 4096 with h | h
    · rw [List.getElem?_append_left (by omega), List.getElem?_append_left (by omega)]
      have h1 : (r.take 4096)[j]? = r[j]? := List.getElem?_take_of_lt h
      have h2 : (r'.take 4096)[j]? = r'[j]? := List.getElem?_take_of_lt h
      rw [← h1, ← h2, hdata]
    · rw [List.getElem?_append_right (by omega), List.getElem?_append_right (by omega), hr, hr']

/-- The state after the overwrite of lines 114 to 117 depends on the record read only
through its data bytes. -/
theorem overwrite_congr (e : Env) (s : State) (r r' : List Byte)
    (hr : r.length = SECTOR_SIZE_WITH_T10PI) (hr' : r'.length = SECTOR_SIZE_WITH_T10PI)
    (hdata : r.take SECTOR_SIZE_DATA_ONLY = r'.take SECTOR_SIZE_DATA_ONLY) :
    overwrite (writeSecondary e (doRead (ReadResult.data r) s)) =
      overwrite (writeSecondary e (doRead (ReadResult.data r') s)) := by
  have hbuf := overwriteTrailer_congr r r' (s.buf.drop SECTOR_SIZE_WITH_T10PI) hr hr' hdata
  have h4096 : SECTOR_SIZE_DATA_ONLY ≤ r.length := by
    rw [hr]; simp [SECTOR_SIZE_WITH_T10PI]
  have h4096' : SECTOR_SIZE_DATA_ONLY ≤ r'.length := by
    rw [hr']; simp [SECTOR_SIZE_WITH_T10PI]
  have htake : (r ++ s.buf.drop SECTOR_SIZE_WITH_T10PI).take SECTOR_SIZE_DATA_ONLY =
      (r' ++ s.buf.drop SECTOR_SIZE_WITH_T10PI).take SECTOR_SIZE_DATA_ONLY := by
    rw [List.take_append_of_le_length h4096, List.take_append_of_le_length h4096', hdata]
  unfold overwrite writeSecondary
  by_cases h1 : e.argc = 4 ∧ s.outfile2_broken = 0 <;>
    by_cases h2 : e.write_outfile2 s.writes2 = (SECTOR_SIZE_DATA_ONLY : Int) <;>
    simp [doRead, ReadResult.ret, State.log, h1, h2, hr, hr', hbuf, htake]

theorem wholeRecord_congr (e : Env) (s : State) (r r' : List Byte)
    (hr : r.length = SECTOR_SIZE_WITH_T10PI) (hr' : r'.length = SECTOR_SIZE_WITH_T10PI)
    (hdata : r.take SECTOR_SIZE_DATA_ONLY = r'.take SECTOR_SIZE_DATA_ONLY) :
    wholeRecord e s r = wholeRecord e s r' := by
  unfold wholeRecord
  rw [overwrite_congr e s r r' hr hr' hdata]

/-- The loop on two sources of whole records that agree on the data bytes of every
record, followed by the same `read` results, ends in the same state. -/
theorem loop_congr (e : Env) (tl : List ReadResult) (recs : List (List Byte)) :
    ∀ (recs' : List (List Byte)) (s : State), WholeRecords recs → WholeRecords recs' →
    recs.map (fun r => r.take SECTOR_SIZE_DATA_ONLY) =
      recs'.map (fun r => r.take SECTOR_SIZE_DATA_ONLY) →
    loop e (recs.map ReadResult.data ++ tl) s = loop e (recs'.map ReadResult.data ++ tl) s := by
  induction recs with
  | nil =>
    intro recs' s _ _ h
    cases recs' with
    | nil => rfl
    | cons a l => simp at h
  | cons r recs ih =>
    intro recs' s hrecs hrecs' h
    cases recs' with
    | nil => simp at h
    | cons r' recs' =>
      rw [List.map_cons, List.map_cons, List.cons.injEq] at h
      have hr : r.length = SECTOR_SIZE_WITH_T10PI := hrecs r (by simp)
      have hr' : r'.length = SECTOR_SIZE_WITH_T10PI := hrecs' r' (by simp)
      rw [List.map_cons, List.map_cons, List.cons_append, List.cons_append]
      by_cases hw : e.write_outfile s.writes = (SECTOR_SIZE_WITH_T10PI : Int)
      · rw [loop_cons_whole e s r _ hr hw, loop_cons_whole e s r' _ hr' hw,
          wholeRecord_congr e s r r' hr hr' h.1]
        exact ih recs' _ (fun x hx => hrecs x (by simp [hx]))
          (fun x hx => hrecs' x (by simp [hx])) h.2
      · rw [loop_write_fail e s r _ hr hw, loop_write_fail e s r' _ hr' hw,
          overwrite_congr e s r r' hr hr' h.1]

theorem loop_reads (e : Env) (rs0 : List ReadResult) (rs : List ReadResult) :
    ∀ s, loop { e with reads := rs0 } rs s = loop e rs s := by
  induction rs with
  | nil => intro s; rfl
  | cons r rest ih =>
    intro s
    rw [loop, loop]
    have hbody : body { e with reads := rs0 } r.ret (doRead r s) = body e r.ret (doRead r s) :=
      rfl
    simp only [hbody]
    by_cases h : r.ret > 0
    · simp only [h, if_true]
      cases body e r.ret (doRead r s) with
      | next s2 => exact ih s2
      | theend s2 => rfl
    · simp only [h, if_false]

theorem main_reads (e : Env) (rs : List ReadResult) (hstart : e.Starts) :
    main { e with reads := rs } = theend (loop e rs (start e)) := by
  rw [main_eq_of_starts { e with reads := rs } hstart]
  show theend (loop { e with reads := rs } rs (start e)) = _
  rw [loop_reads]

theorem main_not_starts_reads (e : Env) (rs : List ReadResult) (h : ¬ e.Starts) :
    main { e with reads := rs } = main e := by
  by_cases h1 : e.argc ≠ 3 ∧ e.argc ≠ 4
  · rw [main_usage e h1, main_usage { e with reads := rs } h1]
    rfl
  · have hargc : e.argc = 3 ∨ e.argc = 4 := by omega
    by_cases h2 : e.open_infile < 0
    · rw [main_open_infile_failed e hargc h2,
        main_open_infile_failed { e with reads := rs } hargc h2]
      rfl
    · have h2' : 0 ≤ e.open_infile := by omega
      by_cases h3 : e.open_outfile < 0
      · rw [main_open_outfile_failed e hargc h2' h3,
          main_open_outfile_failed { e with reads := rs } hargc h2' h3]
        rfl
      · exact absurd ⟨hargc, h2', by omega⟩ h

/-- Two runs that differ only in the trailers of the whole records of the source end in
the same state. -/
theorem main_congr (e : Env) (recs recs' : List (List Byte)) (hrecs : WholeRecords recs)
    (hrecs' : WholeRecords recs')
    (hdata : recs.map (fun r => r.take SECTOR_SIZE_DATA_ONLY) =
      recs'.map (fun r => r.take SECTOR_SIZE_DATA_ONLY)) :
    main { e with reads := recs.map ReadResult.data } =
      main { e with reads := recs'.map ReadResult.data } := by
  by_cases hs : e.Starts
  · have h := loop_congr e [] recs recs' (start e) hrecs hrecs' hdata
    rw [List.append_nil, List.append_nil] at h
    rw [main_reads e _ hs, main_reads e _ hs, h]
  · rw [main_not_starts_reads e (recs.map ReadResult.data) hs,
      main_not_starts_reads e (recs'.map ReadResult.data) hs]

/-- Records that agree on every data position have the same data parts. -/
theorem data_prefixes_eq (recs recs' : List (List Byte)) (hlen : recs.length = recs'.length)
    (hdata : ∀ (k : Nat) (r r' : List Byte), recs[k]? = some r → recs'[k]? = some r' →
      ∀ i, i < SECTOR_SIZE_DATA_ONLY → r[i]? = r'[i]?) :
    recs.map (fun r => r.take SECTOR_SIZE_DATA_ONLY) =
      recs'.map (fun r => r.take SECTOR_SIZE_DATA_ONLY) := by
  apply List.ext_getElem?
  intro k
  rw [List.getElem?_map, List.getElem?_map]
  rcases Nat.lt_or_ge k recs.length with hk | hk
  · have hk' : k < recs'.length := hlen ▸ hk
    rw [List.getElem?_eq_getElem hk, List.getElem?_eq_getElem hk']
    simp only [Option.map_some']
    congr 1
    apply List.ext_getElem?
    intro i
    rcases Nat.lt_or_ge i SECTOR_SIZE_DATA_ONLY with hi | hi
    · rw [List.getElem?_take_of_lt hi, List.getElem?_take_of_lt hi]
      exact hdata k _ _ (List.getElem?_eq_getElem hk) (List.getElem?_eq_getElem hk') i hi
    · rw [List.getElem?_eq_none (by rw [List.length_take]; omega),
        List.getElem?_eq_none (by rw [List.length_take]; omega)]
  · rw [List.getElem?_eq_none hk, List.getElem?_eq_none (hlen ▸ hk)]

theorem onesTrailerRecord_facts :
    WholeRecords [onesTrailerRecord] ∧ zeroRecord ≠ onesTrailerRecord ∧
    (∀ (k : Nat) (r r' : List Byte), [zeroRecord][k]? = some r →
      [onesTrailerRecord][k]? = some r' → ∀ i, i < 4096 → r[i]? = r'[i]?) := by
  refine ⟨?_, ?_, ?_⟩
  · intro r hr
    rw [List.mem_singleton.mp hr]
    unfold onesTrailerRecord
    rw [List.length_append, List.length_replicate, List.length_replicate]
    rfl
  · intro h
    have h1 : zeroRecord[4096]? = some 0 := by
      unfold zeroRecord
      rw [List.getElem?_replicate, if_pos (by decide)]
    have h2 : onesTrailerRecord[4096]? = some 1 := by
      unfold onesTrailerRecord
      rw [List.getElem?_append_right (by rw [List.length_replicate]; decide),
        List.length_replicate, List.getElem?_replicate, if_pos (by decide)]
    rw [h, h2] at h1
    exact absurd h1 (by decide)
  · intro k r r' hk hk' i hi
    cases k with
    | zero =>
      rw [List.getElem?_cons_zero] at hk hk'
      rw [← Option.some.inj hk, ← Option.some.inj hk']
      unfold zeroRecord onesTrailerRecord
      have hi1 : i < SECTOR_SIZE_DATA_ONLY := hi
      have hi2 : i < SECTOR_SIZE_WITH_T10PI := Nat.lt_trans hi (by decide)
      rw [List.getElem?_append_left (by rw [List.length_replicate]; exact hi1),
        List.getElem?_replicate, List.getElem?_replicate, if_pos hi1, if_pos hi2]
    | succ k =>
      rw [List.getElem?_cons_succ] at hk
      cases hk

/-- C19: two sources made of the same number of whole records that agree on every data
position `i < 4096` of every record, run under the same arguments, `open` results and
`write` outcomes, end in the same state: the same bytes on the primary and on the
secondary destination, the same counters, the same exit code, and the same system calls
and diagnostic lines. -/
theorem C19_trailer_independence (e : Env) (recs recs' : List (List Byte))
    (hrecs : WholeRecords recs) (hrecs' : WholeRecords recs')
    (hlen : recs.length = recs'.length)
    (hdata : ∀ (k : Nat) (r r' : List Byte), recs[k]? = some r → recs'[k]? = some r' →
      ∀ i, i < 4096 → r[i]? = r'[i]?) :
    (main { e with reads := recs.map ReadResult.data }).out =
      (main { e with reads := recs'.map ReadResult.data }).out ∧
    (main { e with reads := recs.map ReadResult.data }).out2 =
      (main { e with reads := recs'.map ReadResult.data }).out2 ∧
    (main { e with reads := recs.map ReadResult.data }).sector_count =
      (main { e with reads := recs'.map ReadResult.data }).sector_count ∧
    (main { e with reads := recs.map ReadResult.data }).bytes_count =
      (main { e with reads := recs'.map ReadResult.data }).bytes_count ∧
    (main { e with reads := recs.map ReadResult.data }).bytes_count_nopi =
      (main { e with reads := recs'.map ReadResult.data }).bytes_count_nopi ∧
    (main { e with reads := recs.map ReadResult.data }).rc =
      (main { e with reads := recs'.map ReadResult.data }).rc ∧
    main { e with reads := recs.map ReadResult.data } =
      main { e with reads := recs'.map ReadResult.data } := by
  have h := main_congr e recs recs' hrecs hrecs' (data_prefixes_eq recs recs' hlen hdata)
  rw [h]
  exact ⟨rfl, rfl, rfl, rfl, rfl, rfl, rfl⟩

/-- C19, witness: a record of zero bytes against the record with the same data bytes and
a trailer of bytes 1, copied to both destinations. -/
theorem C19_witness :
    zeroRecord ≠ onesTrailerRecord ∧
    (main { goodEnv 4 [] with reads := [zeroRecord].map ReadResult.data }).out =
      (main { goodEnv 4 [] with reads := [onesTrailerRecord].map ReadResult.data }).out ∧
    (main { goodEnv 4 [] with reads := [zeroRecord].map ReadResult.data }).out2 =
      (main { goodEnv 4 [] with reads := [onesTrailerRecord].map ReadResult.data }).out2 :=
  have h := C19_trailer_independence (goodEnv 4 []) [zeroRecord] [onesTrailerRecord]
    (wholeRecords_replicate 1) onesTrailerRecord_facts.1
    ((List.length_singleton _).trans (List.length_singleton _).symm) onesTrailerRecord_facts.2.2
  ⟨onesTrailerRecord_facts.2.1, h.1, h.2.1⟩

/-! ## The bytes offered to the primary destination -/

theorem byteOfChar_ff (signed : Bool) : byteOfChar (charOfInt signed 0xff) = 0xff := by
  cases signed <;> decide

theorem overwriteTrailerChar_eq (signed : Bool) (buf : List Byte) :
    overwriteTrailerChar signed buf = overwriteTrailer buf := by
  unfold overwriteTrailerChar overwriteTrailer
  rw [byteOfChar_ff]

theorem trailerIndices_eq :
    trailerIndices = [4096, 4097, 4098, 4099, 4100, 4101, 4102, 4103] := by
  decide

theorem overwriteTrailer_whole (r : List Byte) (hr : r.length = SECTOR_SIZE_WITH_T10PI) :
    overwriteTrailer r = r.take SECTOR_SIZE_DATA_ONLY ++ List.replicate 8 0xff := by
  have h4104 : SECTOR_SIZE_WITH_T10PI = 4104 := rfl
  have h4096 : SECTOR_SIZE_DATA_ONLY = 4096 := rfl
  rw [h4104] at hr
  rw [h4096]
  apply List.ext_getElem?
  intro j
  rw [overwriteTrailer_getElem?, hr]
  rcases Nat.lt_or_ge j 4096 with h | h
  · rw [if_neg (by omega), List.getElem?_append_left (by rw [List.length_take]; omega),
      List.getElem?_take_of_lt h]
  · rw [List.getElem?_append_right (by rw [List.length_take]; omega), List.length_take, hr,
      List.getElem?_replicate]
    by_cases h2 : j < 4104
    · rw [if_pos ⟨h, h2, h2⟩, if_pos (by omega)]
    · rw [if_neg (by omega), if_neg (by omega), List.getElem?_eq_none (by omega)]

theorem primaryOffers_append (a b : List Event) :
    primaryOffers (a ++ b) = primaryOffers a ++ primaryOffers b := by
  simp [primaryOffers, List.filterMap_append]

theorem primaryOffers_secondaryEvents (e : Env) (s : State) (r : List Byte) :
    primaryOffers (secondaryEvents e s r) = [] := by
  unfold secondaryEvents
  by_cases h1 : e.argc = 4 ∧ s.outfile2_broken = 0 <;>
    by_cases h2 : e.write_outfile2 s.writes2 = (SECTOR_SIZE_DATA_ONLY : Int) <;>
    simp [h1, h2, primaryOffers]

theorem primaryOffers_recordEvents (e : Env) (s : State) (r : List Byte) :
    primaryOffers (recordEvents e s r) = [overwriteTrailer r] := by
  unfold recordEvents
  show primaryOffers ([Event.read (SECTOR_SIZE_WITH_T10PI : Int)] ++ (secondaryEvents e s r ++
    [Event.write Stream.outfile (overwriteTrailer r) (e.write_outfile s.writes)])) = _
  rw [primaryOffers_append, primaryOffers_append, primaryOffers_secondaryEvents]
  rfl

theorem primaryOffers_progressEvents (s : State) : primaryOffers (progressEvents s) = [] := by
  unfold progressEvents
  by_cases h : s.sector_count % 1953125 = 0 <;> simp [h, primaryOffers]

theorem primaryOffers_shutdownEvents (s : State) : primaryOffers (shutdownEvents s) = [] := by
  unfold shutdownEvents
  by_cases h : s.rc = 0 <;> simp [h, primaryOffers]

theorem primaryOffers_start (e : Env) : primaryOffers (start e).trace = [] := by
  rw [start_trace]
  by_cases h1 : e.argc = 4 <;> by_cases h2 : e.open_outfile2 < 0 <;>
    simp [h1, h2, primaryOffers]

/-- The buffers the loop offers to the primary destination are the records it read
whole, one after the other, each with its trailer overwritten. -/
theorem loop_primaryOffers (e : Env) (rs : List ReadResult) :
    ∀ s, ∃ recs : List (List Byte), recs.map ReadResult.data <+: rs ∧ WholeRecords recs ∧
      primaryOffers (loop e rs s).trace =
        primaryOffers s.trace ++ recs.map overwriteTrailer := by
  induction rs with
  | nil =>
    intro s
    refine ⟨[], List.nil_prefix, (fun r hr => by cases hr), ?_⟩
    rw [(loop_nil_trace e s).1, primaryOffers_append]
    rfl
  | cons a rest ih =>
    intro s
    cases a with
    | error errno =>
      refine ⟨[], List.nil_prefix, (fun r hr => by cases hr), ?_⟩
      rw [loop_read_error, (log_fields _ _).2.2.2.2.2.2.2.2.2, doRead_trace,
        primaryOffers_append, primaryOffers_append]
      show primaryOffers s.trace ++ [] ++ [] = primaryOffers s.trace ++ []
      rw [List.append_nil]
    | data b =>
      by_cases hb : b.length = SECTOR_SIZE_WITH_T10PI
      · by_cases hw : e.write_outfile s.writes = (SECTOR_SIZE_WITH_T10PI : Int)
        · obtain ⟨recs, h1, h2, h3⟩ := ih (wholeRecord e s b)
          refine ⟨b :: recs, ?_, ?_, ?_⟩
          · rw [List.map_cons]
            exact List.prefix_cons_inj _ |>.mpr h1
          · intro r hr
            rcases List.mem_cons.mp hr with h | h
            · rw [h]; exact hb
            · exact h2 r h
          · rw [loop_cons_whole e s b rest hb hw, h3, wholeRecord_trace e s b hb,
              primaryOffers_append, primaryOffers_append, primaryOffers_recordEvents,
              primaryOffers_progressEvents, List.append_nil, List.map_cons,
              List.append_assoc]
            rfl
        · refine ⟨[b], ?_, ?_, ?_⟩
          · rw [List.map_singleton]
            exact List.prefix_cons_inj _ |>.mpr List.nil_prefix
          · intro r hr
            rw [List.mem_singleton.mp hr]; exact hb
          · rw [loop_write_fail e s b rest hb hw, (log_fields _ _).2.2.2.2.2.2.2.2.2,
              writePrimary_trace e s b hb, primaryOffers_append, primaryOffers_append,
              primaryOffers_recordEvents, List.map_singleton,
              show primaryOffers [Event.msg (Msg.short_write (e.write_outfile s.writes))] = []
                from rfl, List.append_nil]
      · refine ⟨[], List.nil_prefix, (fun r hr => by cases hr), ?_⟩
        rcases Nat.eq_zero_or_pos b.length with h0 | h0
        · rw [List.length_eq_zero.mp h0, loop_eof, (loop_nil_trace e s).1,
            primaryOffers_append]
          rfl
        · rw [loop_short_read e s b rest h0 hb, (log_fields _ _).2.2.2.2.2.2.2.2.2,
            doRead_trace, primaryOffers_append, primaryOffers_append]
          show primaryOffers s.trace ++ [] ++ [] = primaryOffers s.trace ++ []
          rw [List.append_nil]

/-- The buffers a run offers to the primary destination. -/
theorem main_primaryOffers (e : Env) :
    ∃ recs : List (List Byte), recs.map ReadResult.data <+: e.reads ∧ WholeRecords recs ∧
      primaryOffers (main e).trace = recs.map overwriteTrailer := by
  by_cases hs : e.Starts
  · obtain ⟨recs, h1, h2, h3⟩ := loop_primaryOffers e e.reads (start e)
    refine ⟨recs, h1, h2, ?_⟩
    rw [main_eq_of_starts e hs, theend_shutdown, primaryOffers_append, h3,
      primaryOffers_start, primaryOffers_shutdownEvents, List.nil_append, List.append_nil]
  · refine ⟨[], List.nil_prefix, (fun r hr => by cases hr), ?_⟩
    by_cases h1 : e.argc ≠ 3 ∧ e.argc ≠ 4
    · rw [main_usage e h1]
      rfl
    · have hargc : e.argc = 3 ∨ e.argc = 4 := by omega
      by_cases h2 : e.open_infile < 0
      · rw [main_open_infile_failed e hargc h2]
        rfl
      · have h2' : 0 ≤ e.open_infile := by omega
        by_cases h3 : e.open_outfile < 0
        · rw [main_open_outfile_failed e hargc h2' h3]
          rfl
        · exact absurd ⟨hargc, h2', by omega⟩ hs

theorem runRecords_primaryOffers (e : Env) (recs : List (List Byte)) :
    ∀ s, WholeRecords recs →
      primaryOffers (runRecords e s recs).trace =
        primaryOffers s.trace ++ recs.map overwriteTrailer := by
  induction recs with
  | nil => intro s _; rw [runRecords_nil, List.map_nil, List.append_nil]
  | cons r recs ih =>
    intro s hrecs
    rw [runRecords_cons, ih _ (fun x hx => hrecs x (by simp [hx])),
      wholeRecord_trace e s r (hrecs r (by simp)), primaryOffers_append, primaryOffers_append,
      primaryOffers_recordEvents, primaryOffers_progressEvents, List.append_nil,
      List.map_cons, List.append_assoc]
    rfl

/-- A source of whole records whose primary writes are all complete: every record is
offered to the primary destination with its trailer overwritten. -/
theorem main_whole_records_offers (e : Env) (recs : List (List Byte)) (hstart : e.Starts)
    (hrecs : WholeRecords recs) (hreads : e.reads = recs.map ReadResult.data)
    (hw : ∀ k, k < recs.length → e.write_outfile k = (SECTOR_SIZE_WITH_T10PI : Int)) :
    primaryOffers (main e).trace = recs.map overwriteTrailer := by
  rw [main_records_then e recs [] hstart hrecs (by rw [hreads, List.append_nil]) hw,
    theend_shutdown, primaryOffers_append, (loop_nil_trace e _).1, primaryOffers_append,
    runRecords_primaryOffers e recs _ hrecs, primaryOffers_start,
    primaryOffers_shutdownEvents, List.nil_append, List.append_nil]
  show recs.map overwriteTrailer ++ [] = _
  rw [List.append_nil]

theorem overwriteTrailer_outside (buf : List Byte) (j : Nat) (hj : j ∉ trailerIndices) :
    (overwriteTrailer buf)[j]? = buf[j]? := by
  rw [overwriteTrailer_getElem?, if_neg]
  intro h
  apply hj
  rw [trailerIndices_eq]
  simp only [List.mem_cons, List.mem_singleton, List.not_mem_nil, or_false]
  omega

/-- C20: the loop of line 115 visits the eight indices 4096 to 4103, all below the size
4104 of `buf`; the assignment of line 116 stores the byte 255 whether `char` is signed
or unsigned, so that lines 114 to 117 are `overwriteTrailer` on either host, which keeps
the length of the buffer and every byte outside these indices; for a whole record `r`
the buffer offered to the primary `write` is `r` with the positions 4096 to 4103 set to
255; and the buffers a run offers to the primary destination are, in order, whole
records it read from the start of the source, each with its trailer overwritten: all of
them when the source is made of whole records and the primary writes are complete. -/
theorem C20_trailer_overwrite (e : Env) (signed : Bool) :
    trailerIndices = [4096, 4097, 4098, 4099, 4100, 4101, 4102, 4103] ∧
    (∀ i ∈ trailerIndices, i < SECTOR_SIZE_WITH_T10PI) ∧
    byteOfChar (charOfInt signed 0xff) = 255 ∧
    (∀ buf : List Byte, overwriteTrailerChar signed buf = overwriteTrailer buf ∧
      (overwriteTrailer buf).length = buf.length ∧
      ∀ j, j ∉ trailerIndices → (overwriteTrailer buf)[j]? = buf[j]?) ∧
    (∀ r : List Byte, r.length = 4104 →
      overwriteTrailer r = r.take 4096 ++ List.replicate 8 255 ∧
      ∀ s : State,
        primaryOffers (writePrimary e (overwrite (writeSecondary e
          (doRead (ReadResult.data r) s)))).trace =
          primaryOffers s.trace ++ [r.take 4096 ++ List.replicate 8 255]) ∧
    (∃ recs : List (List Byte), recs.map ReadResult.data <+: e.reads ∧ WholeRecords recs ∧
      primaryOffers (main e).trace = recs.map overwriteTrailer) ∧
    (∀ recs : List (List Byte), e.Starts → WholeRecords recs →
      e.reads = recs.map ReadResult.data →
      (∀ k, k < recs.length → e.write_outfile k = 4104) →
      primaryOffers (main e).trace = recs.map overwriteTrailer) := by
  refine ⟨trailerIndices_eq, ?_, byteOfChar_ff signed, ?_, ?_, main_primaryOffers e, ?_⟩
  · intro i hi
    rw [trailerIndices_eq] at hi
    simp only [List.mem_cons, List.mem_singleton, List.not_mem_nil, or_false] at hi
    show i < 4104
    omega
  · intro buf
    exact ⟨overwriteTrailerChar_eq signed buf, overwriteTrailer_length buf,
      fun j hj => overwriteTrailer_outside buf j hj⟩
  · intro r hr
    have hw := overwriteTrailer_whole r hr
    refine ⟨hw, ?_⟩
    intro s
    rw [writePrimary_trace e s r hr, primaryOffers_append, primaryOffers_recordEvents, hw]
    rfl
  · intro recs hstart hrecs hreads hw
    exact main_whole_records_offers e recs hstart hrecs hreads hw

/-- C20, witness: a source of one record of zero bytes on a host whose `char` is signed;
the buffer offered to the primary destination is 4096 zero bytes and 8 bytes 255. -/
theorem C20_witness :
    zeroRecord.length = 4104 ∧
    overwriteTrailer zeroRecord = zeroRecord.take 4096 ++ List.replicate 8 255 ∧
    primaryOffers (main (goodEnv 3 [ReadResult.data zeroRecord])).trace =
      [zeroRecord].map overwriteTrailer :=
  have h := C20_trailer_overwrite (goodEnv 3 [ReadResult.data zeroRecord]) true
  ⟨zeroRecord_length, (h.2.2.2.2.1 zeroRecord zeroRecord_length).1,
    h.2.2.2.2.2.2 [zeroRecord] (goodEnv_starts 3 (Or.inl rfl) _) (wholeRecords_replicate 1)
      rfl (fun _ _ => rfl)⟩

end FixT10pi
